import Mathlib

/-!
Verification of the deterministic garbage-collector pointer runtime:
the root-tally connect/disconnect propagation algorithm driven by the
per-type traversal descriptors found in
`src/scripts/generated_src/example/main.cpp`.

The runtime engine itself (`memory::gc_ptr`, `memory::call_ConnectFieldToRoot`,
`memory::call_DisconnectFieldFromRoot`, `memory::call_ConnectBaseToRoot`,
`memory::call_DisconnectBaseFromRoot` in `gc_ptr.hpp`) is not part of the
example sources, so it is modelled from the specification (§4.1-§4.5):
per-object strong count, per-root tally map, descriptor-driven recursive
connect/disconnect, and deallocation when the tally map empties.
-/

namespace GcPtr

/-- Object identity: the spec identifies managed objects by address. -/
abbrev ObjId := Nat

/-- Root identity: a fresh token per root-contributing handle (§4.2). -/
abbrev RootId := Nat

/-- One field of a managed object, as visited by a generated descriptor.
`tracked` is an owning `gc_ptr` field (possibly null), `raw` is a
non-owning raw/weak pointer field (such as `A * a0` in class `C`),
`plain` is a non-pointer field (such as `std::vector<int> array`).
A base-class sub-object's traversal is modelled by inlining the base's
fields into the derived object's field list, matching the generated
`call_ConnectBaseToRoot` delegation. -/
inductive Field where
  | tracked : Option ObjId → Field
  | raw : Option ObjId → Field
  | plain : Field
deriving DecidableEq, Repr

/-- Managed object header (§3): strong reference count, per-root tally map
(only positive counts are stored; an absent root has tally zero), and the
object's descriptor, represented by its list of fields. -/
structure Obj where
  strong : Nat
  tally : List (RootId × Nat)
  fields : List Field
deriving DecidableEq, Repr

/-- Global state: the heap of live objects, the log of deallocated ids
(in deallocation order; a double free would appear as a duplicate),
the log of disconnect calls `(object, isRoot, root)`, and a counter of
connect expansions (objects whose children were recursed into). -/
@[ext]
structure State where
  heap : List (ObjId × Obj)
  freed : List ObjId
  calls : List (ObjId × Bool × RootId)
  expansions : Nat
deriving DecidableEq, Repr

/-- Tally of a given root in a tally map; absent means zero. -/
def lookupTally : List (RootId × Nat) → RootId → Nat
  | [], _ => 0
  | e :: t, r => if e.1 = r then e.2 else lookupTally t r

/-- Remove every entry for a root from a tally map. -/
def eraseTally : List (RootId × Nat) → RootId → List (RootId × Nat)
  | [], _ => []
  | e :: t, r => if e.1 = r then eraseTally t r else e :: eraseTally t r

/-- Set a root's tally; a zero count is stored as absence (§4.1: dropping
a root's count to zero removes that entry). -/
def setTally (t : List (RootId × Nat)) (r : RootId) (v : Nat) : List (RootId × Nat) :=
  if v = 0 then eraseTally t r else eraseTally t r ++ [(r, v)]

/-- Bump a root's tally by one (§4.3 step 2). -/
def bumpTally (t : List (RootId × Nat)) (r : RootId) : List (RootId × Nat) :=
  setTally t r (lookupTally t r + 1)

/-- The roots currently reaching an object: the keys of its tally map. -/
def rootKeys (t : List (RootId × Nat)) : List RootId := t.map Prod.fst

/-- Look an object up in a heap. -/
def lookupHeap : List (ObjId × Obj) → ObjId → Option Obj
  | [], _ => none
  | e :: h, o => if e.1 = o then some e.2 else lookupHeap h o

/-- Replace the first heap entry for an object. -/
def setHeap : List (ObjId × Obj) → ObjId → Obj → List (ObjId × Obj)
  | [], _, _ => []
  | e :: h, o, ob => if e.1 = o then (o, ob) :: h else e :: setHeap h o ob

/-- Remove the first heap entry for an object. -/
def eraseHeap : List (ObjId × Obj) → ObjId → List (ObjId × Obj)
  | [], _ => []
  | e :: h, o => if e.1 = o then h else e :: eraseHeap h o

/-- The object currently stored at an id, if it is still allocated. -/
def getObj (s : State) (o : ObjId) : Option Obj := lookupHeap s.heap o

/-- Store an updated object header. -/
def setObj (s : State) (o : ObjId) (ob : Obj) : State :=
  { s with heap := setHeap s.heap o ob }

/-- Deallocate an object: remove it from the heap and log the free. -/
def deallocObj (s : State) (o : ObjId) : State :=
  { s with heap := eraseHeap s.heap o, freed := s.freed ++ [o] }

/-- Number of heap entries whose tally for a root is zero (the objects a
connect pass for that root could still expand). -/
def zeroCount : List (ObjId × Obj) → RootId → Nat
  | [], _ => 0
  | e :: h, r => (if lookupTally e.2.tally r = 0 then 1 else 0) + zeroCount h r

/-- Number of heap entries whose tally for a root is non-zero (the objects
a disconnect pass for that root could still collapse). -/
def posCount : List (ObjId × Obj) → RootId → Nat
  | [], _ => 0
  | e :: h, r => (if lookupTally e.2.tally r = 0 then 0 else 1) + posCount h r

/-- Modelled from the spec: the descriptor's generated `connectToRoot` body,
visiting each field in order; owned `gc_ptr` fields recurse through the
engine's connect (passed in as `cf`), non-owning fields are no-ops
(§4.3 edge cases). -/
def connectFields (cf : State → Option ObjId → RootId → State) :
    State → List Field → RootId → State
  | s, [], _ => s
  | s, Field.tracked t :: fs, r => connectFields cf (cf s t r) fs r
  | s, Field.raw _ :: fs, r => connectFields cf s fs r
  | s, Field.plain :: fs, r => connectFields cf s fs r

/-- Modelled from the spec: §4.3 `connect(obj, root)` of the runtime engine
(`gc_ptr.hpp`, absent from the example sources). Null is a no-op; otherwise
bump the object's tally for the root and, only when the tally was zero
before the bump, recurse through the descriptor into every owned field.
The `Nat` argument is recursion fuel; `connect` below instantiates it with
a provably sufficient amount. -/
def connectFuel : Nat → State → Option ObjId → RootId → State
  | _, s, none, _ => s
  | 0, s, some _, _ => s
  | Nat.succ f, s, some o, r =>
    match getObj s o with
    | none => s
    | some ob =>
      let pre := lookupTally ob.tally r
      let s1 := setObj s o { ob with tally := bumpTally ob.tally r }
      if pre = 0 then
        connectFields (connectFuel f) { s1 with expansions := s1.expansions + 1 } ob.fields r
      else s1

/-- Modelled from the spec: the descriptor's generated `disconnectFromRoot`
body; `isRoot` is propagated as `false` for every recursive call, through
the engine's disconnect passed in as `df`. -/
def disconnectFields (df : State → Option ObjId → Bool → RootId → State) :
    State → List Field → RootId → State
  | s, [], _ => s
  | s, Field.tracked t :: fs, r => disconnectFields df (df s t false r) fs r
  | s, Field.raw _ :: fs, r => disconnectFields df s fs r
  | s, Field.plain :: fs, r => disconnectFields df s fs r

/-- Modelled from the spec: §4.3 `disconnect(obj, isRoot, root)` of the
runtime engine. Drop the object's tally for the root (a root-release call,
`isRoot = true`, removes the whole entry, since every path from the dying
root is gone at once; a recursive call decrements by one). If the tally
becomes zero, recurse into the descriptor's owned fields with
`isRoot = false`; if after the drop the tally map is empty for all roots,
deallocate the object. Every call on a non-null object is logged for the
call-protocol theorems. -/
def disconnectFuel : Nat → State → Option ObjId → Bool → RootId → State
  | _, s, none, _, _ => s
  | 0, s, some _, _, _ => s
  | Nat.succ f, s, some o, isRoot, r =>
    let s0 := { s with calls := s.calls ++ [(o, isRoot, r)] }
    match getObj s0 o with
    | none => s0
    | some ob =>
      let pre := lookupTally ob.tally r
      if pre = 0 then s0
      else
        let v := if isRoot then 0 else pre - 1
        let nt := setTally ob.tally r v
        let s1 := setObj s0 o { ob with tally := nt }
        let s2 := if v = 0 then disconnectFields (disconnectFuel f) s1 ob.fields r else s1
        if nt = [] then deallocObj s2 o else s2

/-- Modelled from the spec: `connect` with sufficient fuel (one unit more
than the number of objects the pass could still expand). -/
def connect (s : State) (o : Option ObjId) (r : RootId) : State :=
  connectFuel (zeroCount s.heap r + 1) s o r

/-- Modelled from the spec: `disconnect` with sufficient fuel. -/
def disconnect (s : State) (o : Option ObjId) (isRoot : Bool) (r : RootId) : State :=
  disconnectFuel (posCount s.heap r + 1) s o isRoot r

/-- The ids of the currently allocated objects. -/
def heapKeys (h : List (ObjId × Obj)) : List ObjId := h.map Prod.fst

/-- State after bumping an object's tally for a root (§4.3 step 2). -/
def bumpState (s : State) (o : ObjId) (ob : Obj) (r : RootId) : State :=
  setObj s o { ob with tally := bumpTally ob.tally r }

/-- State after counting one expansion. -/
def expState (s : State) : State := { s with expansions := s.expansions + 1 }

/-- The cumulative effect a connect pass (of any fuel) can have on a state:
frees nothing, logs no disconnect call, allocates and deallocates nothing,
never decreases the expansion counter, consumes exactly one zero-tally
object per counted expansion, and can only raise tallies, touching nothing
but the tallies of the root being connected. -/
def ConnEffect (s s' : State) (r : RootId) : Prop :=
  s'.freed = s.freed ∧ s'.calls = s.calls ∧ heapKeys s'.heap = heapKeys s.heap ∧
  s.expansions ≤ s'.expansions ∧
  s'.expansions + zeroCount s'.heap r = s.expansions + zeroCount s.heap r ∧
  ∀ x ob, lookupHeap s.heap x = some ob →
    ∃ ob', lookupHeap s'.heap x = some ob' ∧ ob'.strong = ob.strong ∧
      ob'.fields = ob.fields ∧
      (∀ q, lookupTally ob.tally q ≤ lookupTally ob'.tally q) ∧
      ∀ q, q ≠ r → lookupTally ob'.tally q = lookupTally ob.tally q

/-- State after logging a disconnect call. -/
def logState (s : State) (o : ObjId) (b : Bool) (r : RootId) : State :=
  { s with calls := s.calls ++ [(o, b, r)] }

/-- The tally an object keeps for the dropped root right after a disconnect
call reaches it: zero when the initiating root handle itself is being
released (every path from the dying root disappears at once), one less than
before otherwise (§4.3). -/
def dropVal (isRoot : Bool) (pre : Nat) : Nat := if isRoot then 0 else pre - 1

/-- State after writing the dropped tally back into the object's header. -/
def dropState (s : State) (o : ObjId) (ob : Obj) (r : RootId) (v : Nat) : State :=
  setObj s o { ob with tally := setTally ob.tally r v }

/-- Rewrite every object's strong reference count by an arbitrary function,
leaving tallies, fields and everything else unchanged. -/
def strongMap (φ : ObjId → Nat) (s : State) : State :=
  { s with heap := s.heap.map (fun e => (e.1, { e.2 with strong := φ e.1 })) }

/-- Disconnect an object from each root of a list in turn (as a plain
recursive traversal of the list). -/
def disconnectEach (s : State) (o : Option ObjId) : List RootId → State
  | [] => s
  | r :: rs => disconnectEach (disconnect s o false r) o rs

/-- Connect an object to each root of a list in turn. -/
def connectEach (s : State) (o : Option ObjId) : List RootId → State
  | [] => s
  | r :: rs => connectEach (connect s o r) o rs

/-- The target currently stored in a tracked field slot of a descriptor. -/
def fieldTarget (fs : List Field) (i : Nat) : Option ObjId :=
  match fs.get? i with
  | some (Field.tracked t) => t
  | _ => none

/-- Modelled from the spec: §4.3 reassignment of a tracked pointer field
nested inside a root-reachable container object: disconnect the old target
from every root currently reaching the container (with `isRoot = false`,
since no root handle is being released), install the new target in the
field slot, then connect the new target to each of those same roots. -/
def reassignField (s : State) (c : ObjId) (i : Nat) (newT : Option ObjId) : State :=
  match getObj s c with
  | none => s
  | some ob =>
    let roots := rootKeys ob.tally
    let s1 := disconnectEach s (fieldTarget ob.fields i) roots
    let s2 :=
      match getObj s1 c with
      | none => s1
      | some ob1 => setObj s1 c { ob1 with fields := ob1.fields.set i (Field.tracked newT) }
    connectEach s2 newT roots

/-- Number of occurrences of an id in a list (used for the deallocation
log: a double free would make this exceed one). -/
def countId : List ObjId → ObjId → Nat
  | [], _ => 0
  | y :: l, x => (if y = x then 1 else 0) + countId l x

/-- The cumulative effect a disconnect pass (of any fuel) can have on a
state: it never counts an expansion, only appends to the call log, only
removes objects from the heap, never raises the number of root-connected
objects, deallocates a removed object exactly once, and can only lower
tallies, touching nothing but the tallies of the root being disconnected. -/
def DiscEffect (s s' : State) (r : RootId) : Prop :=
  s'.expansions = s.expansions ∧
  (∃ ex, s'.calls = s.calls ++ ex) ∧
  (heapKeys s'.heap).Sublist (heapKeys s.heap) ∧
  posCount s'.heap r ≤ posCount s.heap r ∧
  ((heapKeys s.heap).Nodup →
    (∀ x, countId s'.freed x = countId s.freed x +
      (if x ∈ heapKeys s.heap ∧ x ∉ heapKeys s'.heap then 1 else 0)) ∧
    ∀ x ob, lookupHeap s.heap x = some ob →
      lookupHeap s'.heap x = none ∨
      ∃ ob', lookupHeap s'.heap x = some ob' ∧ ob'.strong = ob.strong ∧
        ob'.fields = ob.fields ∧
        (∀ q, lookupTally ob'.tally q ≤ lookupTally ob.tally q) ∧
        ∀ q, q ≠ r → lookupTally ob'.tally q = lookupTally ob.tally q)

/-- The targets of the tracked (owning) fields of a descriptor, in
traversal order. -/
def trackedTargets : List Field → List (Option ObjId)
  | [] => []
  | Field.tracked t :: fs => t :: trackedTargets fs
  | Field.raw _ :: fs => trackedTargets fs
  | Field.plain :: fs => trackedTargets fs

/-- Run the official `connect` over a worklist of pending objects. -/
def connSeq (r : RootId) : State → List (Option ObjId) → State
  | s, [] => s
  | s, x :: l => connSeq r (connect s x r) l

/-- Run the official `disconnect` (with `isRoot = false`) over a worklist
of pending objects. -/
def discSeq (r : RootId) : State → List (Option ObjId) → State
  | s, [] => s
  | s, x :: l => discSeq r (disconnect s x false r) l

/-- Bump an object's tally for a root in place (the effect of a connect
call on an already-connected object). -/
def bumpOnly (s : State) (p : ObjId) (r : RootId) : State :=
  match getObj s p with
  | none => s
  | some ob => setObj s p { ob with tally := bumpTally ob.tally r }

/-- Two heaps that agree everywhere except that one object's descriptor
field list has been replaced by a permutation of itself. -/
def heapPermAt (h h' : List (ObjId × Obj)) (o : ObjId) (fs' : List Field) : Prop :=
  ∃ ob, lookupHeap h o = some ob ∧ fs'.Perm ob.fields ∧
    h' = setHeap h o { ob with fields := fs' }

/-- Connect-pass simulation relation for descriptor permutation: the two
states agree except that object `o` carries the permuted field list. -/
def ConnRel (o : ObjId) (fs' : List Field) (s s' : State) : Prop :=
  s'.freed = s.freed ∧ s'.calls = s.calls ∧ s'.expansions = s.expansions ∧
  heapPermAt s.heap s'.heap o fs'

/-- Disconnect-pass outcome equivalence: equal heaps and expansion
counters, deallocation logs equal as multisets (the order in which a pass
frees objects may differ), call logs unconstrained. -/
def DEq (s s' : State) : Prop :=
  s'.heap = s.heap ∧ s'.freed.Perm s.freed ∧ s'.expansions = s.expansions

/-- Disconnect-pass simulation relation for descriptor permutation:
either object `o` still carries the permuted field list, or the heaps have
become equal (after `o` was deallocated); deallocation logs agree as
multisets, call logs are unconstrained. -/
def DiscRel (o : ObjId) (fs' : List Field) (s s' : State) : Prop :=
  s'.expansions = s.expansions ∧ s'.freed.Perm s.freed ∧
  (heapPermAt s.heap s'.heap o fs' ∨ s'.heap = s.heap)

/-- A pending unit of work in a flattened disconnect pass: either a
recursive `disconnect(target, false, root)` call, or the deferred
"deallocate if the tally map is now empty" test the engine performs on an
object after its children have been visited. -/
inductive Instr where
  | call : Option ObjId → Instr
  | check : ObjId → Instr
deriving DecidableEq, Repr

/-- The deferred deallocation test: free the object exactly when it is
still allocated and its root-tally map is empty for all roots (§4.3). -/
def checkState (s : State) (o : ObjId) : State :=
  match getObj s o with
  | none => s
  | some ob => if ob.tally = [] then deallocObj s o else s

/-- One local step of a disconnect pass: execute a single pending
instruction and return the new state together with the work it spawns
(children calls followed by the deferred deallocation test). The branch
structure mirrors `disconnectFuel` for `isRoot = false`. -/
def step1 (r : RootId) (s : State) : Instr → State × List Instr
  | Instr.check o => (checkState s o, [])
  | Instr.call none => (s, [])
  | Instr.call (some o) =>
    let s0 := logState s o false r
    match getObj s o with
    | none => (s0, [])
    | some ob =>
      let pre := lookupTally ob.tally r
      if pre = 0 then (s0, [])
      else
        let nt := setTally ob.tally r (pre - 1)
        let s1 := setObj s0 o { ob with tally := nt }
        if pre - 1 = 0 then
          (s1, (trackedTargets ob.fields).map Instr.call ++ [Instr.check o])
        else (s1, [])

/-- Weight of a heap for a root: each object the pass could still collapse
(non-zero tally for the root) contributes one unit per child call it would
spawn plus one for its deferred deallocation test. -/
def heapW : List (ObjId × Obj) → RootId → Nat
  | [], _ => 0
  | e :: h, r =>
    (if lookupTally e.2.tally r = 0 then 0
     else (trackedTargets e.2.fields).length + 1) + heapW h r

/-- Upper bound on the number of local steps a disconnect pass can still
take: pending instructions plus the heap weight. Every `step1` decreases
it by exactly one. -/
def Bmeas (r : RootId) (s : State) (w : List Instr) : Nat :=
  w.length + heapW s.heap r

/-- A complete schedule of a flattened disconnect pass: repeatedly pick
any pending instruction, execute it, and queue the work it spawns, until
no work remains. Different schedules of the same workload model the
different traversal orders a generated Descriptor may use. -/
inductive Run (r : RootId) : State → List Instr → State → Prop where
  | nil (s : State) : Run r s [] s
  | step (s : State) (w : List Instr) (x : Instr) (w' : List Instr) (t : State) :
      (x :: w').Perm w →
      Run r (step1 r s x).1 ((step1 r s x).2 ++ w') t → Run r s w t

/-- The engine's own depth-first schedule: each call is run to completion
(the full recursive `disconnect`) before the next pending instruction. -/
def execCode (r : RootId) : State → List Instr → State
  | s, [] => s
  | s, Instr.call x :: w => execCode r (disconnect s x false r) w
  | s, Instr.check o :: w => execCode r (checkState s o) w

/-- The object a pending instruction inspects, if any. -/
def instrTarget : Instr → Option ObjId
  | Instr.call t => t
  | Instr.check p => some p

/-- The heap after one local step, as a pure function of the heap: a local
step either leaves the heap alone, rewrites its target's tally in place, or
erases its target. -/
def stepH (r : RootId) (h : List (ObjId × Obj)) : Instr → List (ObjId × Obj)
  | Instr.check o =>
    match lookupHeap h o with
    | none => h
    | some ob => if ob.tally = [] then eraseHeap h o else h
  | Instr.call none => h
  | Instr.call (some o) =>
    match lookupHeap h o with
    | none => h
    | some ob =>
      if lookupTally ob.tally r = 0 then h
      else setHeap h o
        { ob with tally := setTally ob.tally r (lookupTally ob.tally r - 1) }

/-- The objects one local step frees, as a pure function of the heap. -/
def stepF (r : RootId) (h : List (ObjId × Obj)) : Instr → List ObjId
  | Instr.check o =>
    match lookupHeap h o with
    | none => []
    | some ob => if ob.tally = [] then [o] else []
  | Instr.call _ => []

/-- The work one local step spawns, as a pure function of the heap. -/
def stepW (r : RootId) (h : List (ObjId × Obj)) : Instr → List Instr
  | Instr.check _ => []
  | Instr.call none => []
  | Instr.call (some o) =>
    match lookupHeap h o with
    | none => []
    | some ob =>
      if lookupTally ob.tally r = 0 then []
      else if lookupTally ob.tally r - 1 = 0 then
        (trackedTargets ob.fields).map Instr.call ++ [Instr.check o]
      else []

/-- The pending deferred-deallocation tests may only concern objects whose
tally for the pass's root has already been dropped to zero (a `check` is
queued exactly when its object collapses). -/
def ChkInv (r : RootId) (s : State) (w : List Instr) : Prop :=
  ∀ p, Instr.check p ∈ w → ∀ ob, lookupHeap s.heap p = some ob →
    lookupTally ob.tally r = 0

/-- Two-object cycle of §8 / Test 0 of `main()`: object 1 owns object 2
through a tracked field and object 2 owns object 1 back (the shape the
assignment `a0_ptr_->b_ptr_->c_ptr_->a1_ptr_ = a0_ptr_` produces); a
single root handle holds object 1. -/
def cycleState : State :=
  ⟨[(1, ⟨1, [], [Field.tracked (some 2)]⟩),
    (2, ⟨0, [], [Field.tracked (some 1)]⟩)], [], [], 0⟩

/-- Diamond of §8: root 11 reaches object 3 through object 1, root 22
reaches object 3 through object 2. -/
def diamondState : State :=
  ⟨[(1, ⟨1, [], [Field.tracked (some 3)]⟩),
    (2, ⟨1, [], [Field.tracked (some 3)]⟩),
    (3, ⟨0, [], []⟩)], [], [], 0⟩

/-- A single acyclic object reachable from exactly one root (§8). -/
def singleState : State := ⟨[(1, ⟨1, [], [Field.plain]⟩)], [], [], 0⟩

/-- A graph with a non-owning back-reference: object 1 owns object 2
through a tracked field; object 2 refers back at object 1 only through a
raw pointer field (like `C::a0`) and holds plain data (like `C::array`). -/
def backrefState : State :=
  ⟨[(1, ⟨1, [], [Field.tracked (some 2)]⟩),
    (2, ⟨0, [], [Field.raw (some 1), Field.plain]⟩)], [], [], 0⟩

/-- Container scenario for field reassignment (`main()` lines 552-553):
container 1 is reachable from roots 11 and 22; its tracked field holds the
old target 2 (reachable only through the container); the new target 3 is
held by a handle but not yet root-connected. -/
def reassignState : State :=
  ⟨[(1, ⟨2, [(11, 1), (22, 1)], [Field.tracked (some 2)]⟩),
    (2, ⟨1, [(11, 1), (22, 1)], []⟩),
    (3, ⟨1, [], []⟩)], [], [], 0⟩

/-- The shape of `main.cpp`'s class `C`, whose two generated
`connectToRoot` blocks (lines 73-76 and lines 129-132) visit the two owned
fields `a0_ptr_`/`a1_ptr_` in opposite orders: object 1 is the `C`
instance owning object 2 and object 3 through its two tracked fields; a
single root 7 reaches all three objects. -/
def cState : State :=
  ⟨[(1, ⟨1, [(7, 1)], [Field.tracked (some 2), Field.tracked (some 3)]⟩),
    (2, ⟨1, [(7, 1)], []⟩),
    (3, ⟨1, [(7, 2)], [Field.tracked (some 2)]⟩)], [], [], 0⟩

/-- The header of object 1 of `cState`. -/
def cObj : Obj := ⟨1, [(7, 1)], [Field.tracked (some 2), Field.tracked (some 3)]⟩

theorem lookupTally_eraseTally_self (t : List (RootId × Nat)) (r : RootId) :
    lookupTally (eraseTally t r) r = 0 := by
  induction t with
  | nil => rfl
  | cons e t ih =>
    by_cases h : e.1 = r <;> simp [eraseTally, lookupTally, h, ih]

theorem lookupTally_eraseTally_ne (t : List (RootId × Nat)) {r q : RootId} (h : q ≠ r) :
    lookupTally (eraseTally t r) q = lookupTally t q := by
  induction t with
  | nil => rfl
  | cons e t ih =>
    by_cases he : e.1 = r
    · have hq : ¬ e.1 = q := fun hq => h (by rw [← hq, he])
      have h1 : eraseTally (e :: t) r = eraseTally t r := by simp [eraseTally, he]
      have h2 : lookupTally (e :: t) q = lookupTally t q := by simp [lookupTally, hq]
      rw [h1, h2, ih]
    · have h1 : eraseTally (e :: t) r = e :: eraseTally t r := by simp [eraseTally, he]
      rw [h1]
      by_cases hq : e.1 = q <;> simp [lookupTally, hq, ih]

theorem lookupTally_append_of_erased (t : List (RootId × Nat)) (r : RootId)
    (t₂ : List (RootId × Nat)) :
    lookupTally (eraseTally t r ++ t₂) r = lookupTally t₂ r := by
  induction t with
  | nil => rfl
  | cons e t ih =>
    by_cases h : e.1 = r <;> simp [eraseTally, lookupTally, h, ih]

theorem lookupTally_setTally_self (t : List (RootId × Nat)) (r : RootId) (v : Nat) :
    lookupTally (setTally t r v) r = v := by
  by_cases hv : v = 0
  · simp [setTally, hv, lookupTally_eraseTally_self]
  · simp [setTally, hv, lookupTally_append_of_erased, lookupTally]

theorem lookupTally_append_last_ne (t : List (RootId × Nat)) {r q : RootId} (v : Nat)
    (h : q ≠ r) : lookupTally (t ++ [(r, v)]) q = lookupTally t q := by
  induction t with
  | nil =>
    have : ¬ r = q := fun hq => h hq.symm
    simp [lookupTally, this]
  | cons e t ih =>
    by_cases he : e.1 = q <;> simp [lookupTally, he, ih]

theorem lookupTally_setTally_ne (t : List (RootId × Nat)) {r q : RootId} (v : Nat)
    (h : q ≠ r) : lookupTally (setTally t r v) q = lookupTally t q := by
  by_cases hv : v = 0
  · simp [setTally, hv, lookupTally_eraseTally_ne t h]
  · simp [setTally, hv, lookupTally_append_last_ne _ _ h, lookupTally_eraseTally_ne t h]

theorem lookupTally_bumpTally_self (t : List (RootId × Nat)) (r : RootId) :
    lookupTally (bumpTally t r) r = lookupTally t r + 1 := by
  simp [bumpTally, lookupTally_setTally_self]

theorem lookupTally_bumpTally_ne (t : List (RootId × Nat)) {r q : RootId} (h : q ≠ r) :
    lookupTally (bumpTally t r) q = lookupTally t q := by
  simp [bumpTally, lookupTally_setTally_ne _ _ h]

theorem setTally_eq_nil_iff (t : List (RootId × Nat)) (r : RootId) (v : Nat) :
    setTally t r v = [] ↔ eraseTally t r = [] ∧ v = 0 := by
  by_cases hv : v = 0 <;> simp [setTally, hv]

theorem heapKeys_setHeap (h : List (ObjId × Obj)) (o : ObjId) (ob : Obj) :
    heapKeys (setHeap h o ob) = heapKeys h := by
  induction h with
  | nil => rfl
  | cons e h ih =>
    by_cases he : e.1 = o
    · simp [setHeap, heapKeys, he]
    · simp only [setHeap, he, if_neg he, heapKeys, List.map]
      rw [show List.map Prod.fst (setHeap h o ob) = heapKeys (setHeap h o ob) from rfl, ih]
      rfl

theorem lookupHeap_eq_none_iff (h : List (ObjId × Obj)) (o : ObjId) :
    lookupHeap h o = none ↔ o ∉ heapKeys h := by
  induction h with
  | nil => simp [lookupHeap, heapKeys]
  | cons e h ih =>
    by_cases he : e.1 = o
    · simp [lookupHeap, heapKeys, he]
    · simp only [lookupHeap, if_neg he, heapKeys, List.map, List.mem_cons]
      rw [show List.map Prod.fst h = heapKeys h from rfl]
      constructor
      · intro hnone hmem
        rcases hmem with hmem | hmem
        · exact he hmem.symm
        · exact (ih.mp hnone) hmem
      · intro hmem
        exact ih.mpr (fun hm => hmem (Or.inr hm))

theorem lookupHeap_setHeap_self (h : List (ObjId × Obj)) {o : ObjId} (ob ob₀ : Obj)
    (hp : lookupHeap h o = some ob₀) : lookupHeap (setHeap h o ob) o = some ob := by
  induction h with
  | nil => simp [lookupHeap] at hp
  | cons e h ih =>
    by_cases he : e.1 = o
    · simp [setHeap, lookupHeap, he]
    · simp only [lookupHeap, if_neg he] at hp
      have h1 : setHeap (e :: h) o ob = e :: setHeap h o ob := by simp [setHeap, he]
      rw [h1]
      have h2 : lookupHeap (e :: setHeap h o ob) o = lookupHeap (setHeap h o ob) o := by
        simp [lookupHeap, he]
      rw [h2]
      exact ih hp

theorem lookupHeap_setHeap_ne (h : List (ObjId × Obj)) {o x : ObjId} (ob : Obj)
    (hx : x ≠ o) : lookupHeap (setHeap h o ob) x = lookupHeap h x := by
  induction h with
  | nil => rfl
  | cons e h ih =>
    by_cases he : e.1 = o
    · have : ¬ o = x := fun h' => hx h'.symm
      simp [setHeap, lookupHeap, he, this]
    · simp only [setHeap, if_neg he, lookupHeap]
      by_cases hex : e.1 = x
      · simp [hex]
      · rw [if_neg hex, if_neg hex]
        exact ih

theorem lookupHeap_eraseHeap_ne (h : List (ObjId × Obj)) {o x : ObjId}
    (hx : x ≠ o) : lookupHeap (eraseHeap h o) x = lookupHeap h x := by
  induction h with
  | nil => rfl
  | cons e h ih =>
    by_cases he : e.1 = o
    · have hex : ¬ e.1 = x := fun h' => hx (by rw [← h', he])
      have h1 : eraseHeap (e :: h) o = h := by simp [eraseHeap, he]
      have h2 : lookupHeap (e :: h) x = lookupHeap h x := by simp [lookupHeap, hex]
      rw [h1, h2]
    · have h1 : eraseHeap (e :: h) o = e :: eraseHeap h o := by simp [eraseHeap, he]
      rw [h1]
      by_cases hex : e.1 = x
      · simp [lookupHeap, hex]
      · simp only [lookupHeap, if_neg hex]
        exact ih

theorem heapKeys_eraseHeap_sublist (h : List (ObjId × Obj)) (o : ObjId) :
    (heapKeys (eraseHeap h o)).Sublist (heapKeys h) := by
  induction h with
  | nil => simp [eraseHeap, heapKeys]
  | cons e h ih =>
    by_cases he : e.1 = o
    · simp only [eraseHeap, if_pos he, heapKeys, List.map]
      exact List.Sublist.cons _ (List.Sublist.refl _)
    · simp only [eraseHeap, if_neg he, heapKeys, List.map]
      exact List.Sublist.cons₂ _ ih

theorem lookupHeap_eraseHeap_self (h : List (ObjId × Obj)) (o : ObjId)
    (hn : (heapKeys h).Nodup) : lookupHeap (eraseHeap h o) o = none := by
  induction h with
  | nil => rfl
  | cons e h ih =>
    simp only [heapKeys, List.map, List.nodup_cons] at hn
    by_cases he : e.1 = o
    · subst he
      simp only [eraseHeap, if_pos rfl]
      rw [lookupHeap_eq_none_iff]
      exact hn.1
    · simp [eraseHeap, lookupHeap, he, ih hn.2]

theorem zeroCount_setHeap (h : List (ObjId × Obj)) {o : ObjId} {ob : Obj} (ob' : Obj)
    (r : RootId) (hp : lookupHeap h o = some ob) :
    zeroCount (setHeap h o ob') r + (if lookupTally ob.tally r = 0 then 1 else 0)
      = zeroCount h r + (if lookupTally ob'.tally r = 0 then 1 else 0) := by
  induction h with
  | nil => simp [lookupHeap] at hp
  | cons e h ih =>
    by_cases he : e.1 = o
    · simp only [lookupHeap, if_pos he] at hp
      cases hp
      simp only [setHeap, if_pos he, zeroCount]
      omega
    · simp only [lookupHeap, if_neg he] at hp
      simp only [setHeap, if_neg he, zeroCount]
      have := ih hp
      omega

theorem posCount_setHeap (h : List (ObjId × Obj)) {o : ObjId} {ob : Obj} (ob' : Obj)
    (r : RootId) (hp : lookupHeap h o = some ob) :
    posCount (setHeap h o ob') r + (if lookupTally ob.tally r = 0 then 0 else 1)
      = posCount h r + (if lookupTally ob'.tally r = 0 then 0 else 1) := by
  induction h with
  | nil => simp [lookupHeap] at hp
  | cons e h ih =>
    by_cases he : e.1 = o
    · simp only [lookupHeap, if_pos he] at hp
      cases hp
      simp only [setHeap, if_pos he, posCount]
      omega
    · simp only [lookupHeap, if_neg he] at hp
      simp only [setHeap, if_neg he, posCount]
      have := ih hp
      omega

theorem zeroCount_eraseHeap (h : List (ObjId × Obj)) {o : ObjId} {ob : Obj}
    (r : RootId) (hp : lookupHeap h o = some ob) :
    zeroCount (eraseHeap h o) r + (if lookupTally ob.tally r = 0 then 1 else 0)
      = zeroCount h r := by
  induction h with
  | nil => simp [lookupHeap] at hp
  | cons e h ih =>
    by_cases he : e.1 = o
    · simp only [lookupHeap, if_pos he] at hp
      cases hp
      simp only [eraseHeap, if_pos he, zeroCount]
      omega
    · simp only [lookupHeap, if_neg he] at hp
      simp only [eraseHeap, if_neg he, zeroCount]
      have := ih hp
      omega

theorem posCount_eraseHeap (h : List (ObjId × Obj)) {o : ObjId} {ob : Obj}
    (r : RootId) (hp : lookupHeap h o = some ob) :
    posCount (eraseHeap h o) r + (if lookupTally ob.tally r = 0 then 0 else 1)
      = posCount h r := by
  induction h with
  | nil => simp [lookupHeap] at hp
  | cons e h ih =>
    by_cases he : e.1 = o
    · simp only [lookupHeap, if_pos he] at hp
      cases hp
      simp only [eraseHeap, if_pos he, posCount]
      omega
    · simp only [lookupHeap, if_neg he] at hp
      simp only [eraseHeap, if_neg he, posCount]
      have := ih hp
      omega

theorem connectFuel_none (f : Nat) (s : State) (r : RootId) :
    connectFuel f s none r = s := by cases f <;> rfl

theorem connectFuel_zero (s : State) (o : Option ObjId) (r : RootId) :
    connectFuel 0 s o r = s := by cases o <;> rfl

theorem connectFuel_succ (f : Nat) (s : State) (o : ObjId) (r : RootId) :
    connectFuel (f + 1) s (some o) r =
      match getObj s o with
      | none => s
      | some ob =>
        if lookupTally ob.tally r = 0 then
          connectFields (connectFuel f) (expState (bumpState s o ob r)) ob.fields r
        else bumpState s o ob r := rfl

theorem connEffect_refl (s : State) (r : RootId) : ConnEffect s s r :=
  ⟨Eq.refl _, Eq.refl _, Eq.refl _, Nat.le.refl, Eq.refl _,
    fun _ ob hp => ⟨ob, hp, Eq.refl _, Eq.refl _, fun _ => Nat.le.refl, fun _ _ => Eq.refl _⟩⟩

theorem connEffect_trans {s₁ s₂ s₃ : State} {r : RootId}
    (h₁ : ConnEffect s₁ s₂ r) (h₂ : ConnEffect s₂ s₃ r) : ConnEffect s₁ s₃ r := by
  obtain ⟨f₁, c₁, k₁, e₁, z₁, p₁⟩ := h₁
  obtain ⟨f₂, c₂, k₂, e₂, z₂, p₂⟩ := h₂
  refine ⟨f₂.trans f₁, c₂.trans c₁, k₂.trans k₁, e₁.trans e₂, by omega, ?_⟩
  intro x ob hp
  obtain ⟨ob', hp', hs', hf', ht', hq'⟩ := p₁ x ob hp
  obtain ⟨ob'', hp'', hs'', hf'', ht'', hq''⟩ := p₂ x ob' hp'
  exact ⟨ob'', hp'', hs''.trans hs', hf''.trans hf',
    fun q => (ht' q).trans (ht'' q), fun q hq => (hq'' q hq).trans (hq' q hq)⟩

theorem connectFields_effect (cf : State → Option ObjId → RootId → State) (r : RootId)
    (hcf : ∀ s t, ConnEffect s (cf s t r) r) :
    ∀ fs s, ConnEffect s (connectFields cf s fs r) r := by
  intro fs
  induction fs with
  | nil => intro s; exact connEffect_refl s r
  | cons fd fs ih =>
    intro s
    cases fd with
    | tracked t => exact connEffect_trans (hcf s t) (ih (cf s t r))
    | raw t => exact ih s
    | plain => exact ih s

theorem ConnEffect_bump (s : State) (o : ObjId) (ob : Obj) (r : RootId)
    (hp : lookupHeap s.heap o = some ob) :
    (lookupTally ob.tally r = 0 → ConnEffect s (expState (bumpState s o ob r)) r) ∧
    (lookupTally ob.tally r ≠ 0 → ConnEffect s (bumpState s o ob r) r) := by
  have hkeys : heapKeys (setHeap s.heap o { ob with tally := bumpTally ob.tally r })
      = heapKeys s.heap := heapKeys_setHeap _ _ _
  have hz := zeroCount_setHeap s.heap { ob with tally := bumpTally ob.tally r } r hp
  have hbump : lookupTally (bumpTally ob.tally r) r = lookupTally ob.tally r + 1 :=
    lookupTally_bumpTally_self _ _
  have hobj : ∀ x ob₀, lookupHeap s.heap x = some ob₀ →
      ∃ ob', lookupHeap (setHeap s.heap o { ob with tally := bumpTally ob.tally r }) x
          = some ob' ∧ ob'.strong = ob₀.strong ∧ ob'.fields = ob₀.fields ∧
        (∀ q, lookupTally ob₀.tally q ≤ lookupTally ob'.tally q) ∧
        ∀ q, q ≠ r → lookupTally ob'.tally q = lookupTally ob₀.tally q := by
    intro x ob₀ hx
    by_cases hxo : x = o
    · subst hxo
      have hob : ob₀ = ob := by
        rw [hx] at hp
        exact Option.some.inj hp
      subst hob
      refine ⟨{ ob₀ with tally := bumpTally ob₀.tally r },
        lookupHeap_setHeap_self _ _ _ hx, rfl, rfl, ?_, ?_⟩
      · intro q
        by_cases hq : q = r
        · subst hq
          rw [lookupTally_bumpTally_self]
          omega
        · rw [lookupTally_bumpTally_ne _ hq]
      · intro q hq
        exact lookupTally_bumpTally_ne _ hq
    · exact ⟨ob₀, by rw [lookupHeap_setHeap_ne _ _ hxo]; exact hx, rfl, rfl,
        fun _ => Nat.le.refl, fun _ _ => rfl⟩
  have hif1 : (if lookupTally (bumpTally ob.tally r) r = 0 then 1 else 0) = 0 := by
    rw [hbump]; simp
  rw [hif1] at hz
  constructor
  · intro hpre
    have hif0 : (if lookupTally ob.tally r = 0 then 1 else 0) = 1 := if_pos hpre
    rw [hif0] at hz
    refine ⟨rfl, rfl, hkeys, ?_, ?_, hobj⟩
    · simp [expState, bumpState, setObj]
    · simp only [expState, bumpState, setObj]
      omega
  · intro hpre
    have hif0 : (if lookupTally ob.tally r = 0 then 1 else 0) = 0 := if_neg hpre
    rw [hif0] at hz
    refine ⟨rfl, rfl, hkeys, Nat.le.refl, ?_, hobj⟩
    simp only [bumpState, setObj]
    omega

theorem connectFuel_effect : ∀ f, (∀ s o r, ConnEffect s (connectFuel f s o r) r) ∧
    (∀ s fs r, ConnEffect s (connectFields (connectFuel f) s fs r) r) := by
  intro f
  induction f with
  | zero =>
    refine ⟨fun s o r => by rw [connectFuel_zero]; exact connEffect_refl s r,
      fun s fs r => connectFields_effect _ r
        (fun s t => by rw [connectFuel_zero]; exact connEffect_refl s r) fs s⟩
  | succ f ih =>
    have hP : ∀ s o r, ConnEffect s (connectFuel (f + 1) s o r) r := by
      intro s o r
      cases o with
      | none => rw [connectFuel_none]; exact connEffect_refl s r
      | some o =>
        rw [connectFuel_succ]
        cases hob : getObj s o with
        | none => exact connEffect_refl s r
        | some ob =>
          simp only
          by_cases hpre : lookupTally ob.tally r = 0
          · rw [if_pos hpre]
            exact connEffect_trans ((ConnEffect_bump s o ob r hob).1 hpre)
              (ih.2 (expState (bumpState s o ob r)) ob.fields r)
          · rw [if_neg hpre]
            exact (ConnEffect_bump s o ob r hob).2 hpre
    exact ⟨hP, fun s fs r => connectFields_effect _ r (fun s t => hP s t r) fs s⟩

theorem connectFuel_zeroCount_le (f : Nat) (s : State) (o : Option ObjId) (r : RootId) :
    zeroCount (connectFuel f s o r).heap r ≤ zeroCount s.heap r := by
  obtain ⟨-, -, -, he, hz, -⟩ := (connectFuel_effect f).1 s o r
  omega

theorem countId_append (l₁ l₂ : List ObjId) (x : ObjId) :
    countId (l₁ ++ l₂) x = countId l₁ x + countId l₂ x := by
  induction l₁ with
  | nil => simp [countId]
  | cons y l₁ ih =>
    show (if y = x then 1 else 0) + countId (l₁ ++ l₂) x
      = ((if y = x then 1 else 0) + countId l₁ x) + countId l₂ x
    rw [ih]
    omega

theorem mem_heapKeys_iff_lookup (h : List (ObjId × Obj)) (x : ObjId) :
    x ∈ heapKeys h ↔ lookupHeap h x ≠ none := by
  rw [Ne, lookupHeap_eq_none_iff]
  exact (not_not).symm

theorem mem_heapKeys_eraseHeap_ne (h : List (ObjId × Obj)) {o x : ObjId} (hx : x ≠ o) :
    x ∈ heapKeys (eraseHeap h o) ↔ x ∈ heapKeys h := by
  rw [mem_heapKeys_iff_lookup, mem_heapKeys_iff_lookup, lookupHeap_eraseHeap_ne h hx]

theorem disconnectFuel_none (f : Nat) (s : State) (b : Bool) (r : RootId) :
    disconnectFuel f s none b r = s := by cases f <;> rfl

theorem disconnectFuel_zero (s : State) (o : Option ObjId) (b : Bool) (r : RootId) :
    disconnectFuel 0 s o b r = s := by cases o <;> rfl

theorem disconnectFuel_succ (f : Nat) (s : State) (o : ObjId) (b : Bool) (r : RootId) :
    disconnectFuel (f + 1) s (some o) b r =
      match getObj s o with
      | none => logState s o b r
      | some ob =>
        if lookupTally ob.tally r = 0 then logState s o b r
        else
          if setTally ob.tally r (dropVal b (lookupTally ob.tally r)) = [] then
            deallocObj (if dropVal b (lookupTally ob.tally r) = 0 then
                disconnectFields (disconnectFuel f)
                  (dropState (logState s o b r) o ob r (dropVal b (lookupTally ob.tally r)))
                  ob.fields r
              else dropState (logState s o b r) o ob r (dropVal b (lookupTally ob.tally r))) o
          else
            if dropVal b (lookupTally ob.tally r) = 0 then
              disconnectFields (disconnectFuel f)
                (dropState (logState s o b r) o ob r (dropVal b (lookupTally ob.tally r)))
                ob.fields r
            else dropState (logState s o b r) o ob r (dropVal b (lookupTally ob.tally r)) :=
  rfl

theorem discEffect_refl (s : State) (r : RootId) : DiscEffect s s r := by
  refine ⟨Eq.refl _, ⟨[], by simp⟩, List.Sublist.refl _, Nat.le.refl, fun _ => ⟨fun x => ?_, ?_⟩⟩
  · simp
  · intro x ob hp
    exact Or.inr ⟨ob, hp, rfl, rfl, fun _ => Nat.le.refl, fun _ _ => rfl⟩

theorem discEffect_trans {s₁ s₂ s₃ : State} {r : RootId}
    (h₁ : DiscEffect s₁ s₂ r) (h₂ : DiscEffect s₂ s₃ r) : DiscEffect s₁ s₃ r := by
  obtain ⟨e₁, ⟨x₁, c₁⟩, k₁, p₁, n₁⟩ := h₁
  obtain ⟨e₂, ⟨x₂, c₂⟩, k₂, p₂, n₂⟩ := h₂
  refine ⟨e₂.trans e₁, ⟨x₁ ++ x₂, by rw [c₂, c₁, List.append_assoc]⟩,
    k₂.trans k₁, p₂.trans p₁, fun hn => ?_⟩
  have hn₂ : (heapKeys s₂.heap).Nodup := hn.sublist k₁
  obtain ⟨cnt₁, obj₁⟩ := n₁ hn
  obtain ⟨cnt₂, obj₂⟩ := n₂ hn₂
  constructor
  · intro x
    rw [cnt₂ x, cnt₁ x]
    have hmem₁ : x ∈ heapKeys s₂.heap → x ∈ heapKeys s₁.heap := fun h => k₁.subset h
    have hmem₂ : x ∈ heapKeys s₃.heap → x ∈ heapKeys s₂.heap := fun h => k₂.subset h
    by_cases hA : x ∈ heapKeys s₁.heap <;> by_cases hB : x ∈ heapKeys s₂.heap <;>
      by_cases hC : x ∈ heapKeys s₃.heap <;>
      simp [hA, hB, hC] <;> first
      | omega
      | (exact absurd (hmem₁ hB) hA)
      | (exact absurd (hmem₂ hC) hB)
  · intro x ob hp
    rcases obj₁ x ob hp with hnone | ⟨ob', hp', hs', hf', ht', hq'⟩
    · left
      rw [lookupHeap_eq_none_iff] at hnone ⊢
      exact fun hm => hnone (k₂.subset hm)
    · rcases obj₂ x ob' hp' with hnone | ⟨ob'', hp'', hs'', hf'', ht'', hq''⟩
      · exact Or.inl hnone
      · exact Or.inr ⟨ob'', hp'', hs''.trans hs', hf''.trans hf',
          fun q => (ht'' q).trans (ht' q), fun q hq => (hq'' q hq).trans (hq' q hq)⟩

theorem disconnectFields_rel (df : State → Option ObjId → Bool → RootId → State)
    (r : RootId) (R : State → State → Prop)
    (hrefl : ∀ s, R s s) (htrans : ∀ {a b c : State}, R a b → R b c → R a c)
    (hdf : ∀ s t, R s (df s t false r)) :
    ∀ fs s, R s (disconnectFields df s fs r) := by
  intro fs
  induction fs with
  | nil => exact hrefl
  | cons fd fs ih =>
    intro s
    cases fd with
    | tracked t => exact htrans (hdf s t) (ih (df s t false r))
    | raw t => exact ih s
    | plain => exact ih s

theorem logState_heap (s : State) (o : ObjId) (b : Bool) (r : RootId) :
    (logState s o b r).heap = s.heap := rfl

theorem logState_freed (s : State) (o : ObjId) (b : Bool) (r : RootId) :
    (logState s o b r).freed = s.freed := rfl

theorem dropState_heap (s : State) (o : ObjId) (ob : Obj) (r : RootId) (v : Nat) :
    (dropState s o ob r v).heap = setHeap s.heap o { ob with tally := setTally ob.tally r v } :=
  rfl

theorem dropState_freed (s : State) (o : ObjId) (ob : Obj) (r : RootId) (v : Nat) :
    (dropState s o ob r v).freed = s.freed := rfl

theorem deallocObj_heap (s : State) (o : ObjId) :
    (deallocObj s o).heap = eraseHeap s.heap o := rfl

theorem deallocObj_freed (s : State) (o : ObjId) :
    (deallocObj s o).freed = s.freed ++ [o] := rfl

theorem dropVal_le (b : Bool) (pre : Nat) : dropVal b pre ≤ pre := by
  cases b <;> simp [dropVal]

theorem disconnect_frame_zero : ∀ f s (o : Option ObjId) b r x ob,
    lookupHeap s.heap x = some ob → lookupTally ob.tally r = 0 →
    lookupHeap (disconnectFuel f s o b r).heap x = some ob ∧
    countId (disconnectFuel f s o b r).freed x = countId s.freed x := by
  intro f
  induction f with
  | zero =>
    intro s o b r x ob hx h0
    rw [disconnectFuel_zero]
    exact ⟨hx, rfl⟩
  | succ f ih =>
    intro s o b r x ob hx h0
    cases o with
    | none =>
      rw [disconnectFuel_none]
      exact ⟨hx, rfl⟩
    | some o =>
      have hrec : ∀ fs s₀, ∀ x₀ ob₀, lookupHeap s₀.heap x₀ = some ob₀ →
          lookupTally ob₀.tally r = 0 →
          lookupHeap (disconnectFields (disconnectFuel f) s₀ fs r).heap x₀ = some ob₀ ∧
          countId (disconnectFields (disconnectFuel f) s₀ fs r).freed x₀
            = countId s₀.freed x₀ := by
        refine disconnectFields_rel _ r
          (fun a c => ∀ x₀ ob₀, lookupHeap a.heap x₀ = some ob₀ →
            lookupTally ob₀.tally r = 0 →
            lookupHeap c.heap x₀ = some ob₀ ∧ countId c.freed x₀ = countId a.freed x₀)
          (fun a x₀ ob₀ hx₀ _ => ⟨hx₀, rfl⟩) ?_ ?_
        · intro a c d hab hbc x₀ ob₀ hx₀ h0₀
          obtain ⟨hl, hc⟩ := hab x₀ ob₀ hx₀ h0₀
          obtain ⟨hl', hc'⟩ := hbc x₀ ob₀ hl h0₀
          exact ⟨hl', hc'.trans hc⟩
        · intro a t x₀ ob₀ hx₀ h0₀
          exact ih a t false r x₀ ob₀ hx₀ h0₀
      rw [disconnectFuel_succ]
      cases hob : getObj s o with
      | none => exact ⟨hx, rfl⟩
      | some obO =>
        simp only
        by_cases hpre : lookupTally obO.tally r = 0
        · rw [if_pos hpre]
          exact ⟨hx, rfl⟩
        · rw [if_neg hpre]
          have hxo : x ≠ o := by
            intro he
            subst he
            have : ob = obO := by
              have hob' : lookupHeap s.heap x = some obO := hob
              rw [hx] at hob'
              exact Option.some.inj hob'
            exact hpre (this ▸ h0)
          have hs1 : lookupHeap (dropState (logState s o b r) o obO r
              (dropVal b (lookupTally obO.tally r))).heap x = some ob := by
            rw [dropState_heap, logState_heap, lookupHeap_setHeap_ne _ _ hxo]
            exact hx
          have hs2 : ∀ s₂, lookupHeap s₂.heap x = some ob → countId s₂.freed x = countId s.freed x →
              lookupHeap (if setTally obO.tally r (dropVal b (lookupTally obO.tally r)) = []
                  then deallocObj s₂ o else s₂).heap x = some ob ∧
              countId (if setTally obO.tally r (dropVal b (lookupTally obO.tally r)) = []
                  then deallocObj s₂ o else s₂).freed x = countId s.freed x := by
            intro s₂ hl hc
            by_cases hnt : setTally obO.tally r (dropVal b (lookupTally obO.tally r)) = []
            · rw [if_pos hnt]
              constructor
              · rw [deallocObj_heap, lookupHeap_eraseHeap_ne _ hxo]
                exact hl
              · rw [deallocObj_freed, countId_append, hc]
                have hox : ¬ o = x := fun he => hxo he.symm
                simp [countId, hox]
            · rw [if_neg hnt]
              exact ⟨hl, hc⟩
          by_cases hv0 : dropVal b (lookupTally obO.tally r) = 0
          · rw [if_pos hv0]
            obtain ⟨hl₂, hc₂⟩ := hrec obO.fields _ x ob hs1 h0
            exact hs2 _ hl₂ (by rw [hc₂]; rfl)
          · rw [if_neg hv0]
            exact hs2 _ hs1 rfl

theorem disconnectFields_frame_zero (f : Nat) (r : RootId) :
    ∀ fs s x ob, lookupHeap s.heap x = some ob → lookupTally ob.tally r = 0 →
      lookupHeap (disconnectFields (disconnectFuel f) s fs r).heap x = some ob ∧
      countId (disconnectFields (disconnectFuel f) s fs r).freed x = countId s.freed x := by
  intro fs s
  refine disconnectFields_rel _ r
    (fun a c => ∀ x ob, lookupHeap a.heap x = some ob → lookupTally ob.tally r = 0 →
      lookupHeap c.heap x = some ob ∧ countId c.freed x = countId a.freed x)
    (fun a x ob hx _ => ⟨hx, rfl⟩) ?_ ?_ fs s
  · intro a c d hab hbc x ob hx h0
    obtain ⟨hl, hc⟩ := hab x ob hx h0
    obtain ⟨hl', hc'⟩ := hbc x ob hl h0
    exact ⟨hl', hc'.trans hc⟩
  · intro a t x ob hx h0
    exact disconnect_frame_zero f a t false r x ob hx h0

theorem DiscEffect_log (s : State) (o : ObjId) (b : Bool) (r : RootId) :
    DiscEffect s (logState s o b r) r := by
  refine ⟨rfl, ⟨[(o, b, r)], rfl⟩, List.Sublist.refl _, Nat.le.refl, fun hn => ⟨fun x => ?_, ?_⟩⟩
  · simp [logState]
  · intro x ob hp
    exact Or.inr ⟨ob, hp, rfl, rfl, fun _ => Nat.le.refl, fun _ _ => rfl⟩

theorem DiscEffect_drop (s : State) (o : ObjId) (ob : Obj) (r : RootId) (v : Nat)
    (hp : lookupHeap s.heap o = some ob) (hpre : lookupTally ob.tally r ≠ 0)
    (hv : v ≤ lookupTally ob.tally r) :
    DiscEffect s (dropState s o ob r v) r := by
  have hproj : lookupTally ({ ob with tally := setTally ob.tally r v } : Obj).tally r = v :=
    lookupTally_setTally_self _ _ _
  refine ⟨rfl, ⟨[], by simp [dropState, setObj]⟩, ?_, ?_, fun hn => ⟨fun x => ?_, ?_⟩⟩
  · rw [dropState_heap, heapKeys_setHeap]
  · rw [dropState_heap]
    have hbase := posCount_setHeap s.heap { ob with tally := setTally ob.tally r v } r hp
    rw [hproj, if_neg hpre] at hbase
    by_cases hv0 : v = 0
    · rw [if_pos hv0] at hbase
      omega
    · rw [if_neg hv0] at hbase
      omega
  · rw [dropState_heap, heapKeys_setHeap, dropState_freed]
    simp
  · intro x ob₀ hp₀
    by_cases hxo : x = o
    · subst hxo
      have hob : ob₀ = ob := by
        rw [hp₀] at hp
        exact Option.some.inj hp
      subst hob
      refine Or.inr ⟨{ ob₀ with tally := setTally ob₀.tally r v },
        by rw [dropState_heap]; exact lookupHeap_setHeap_self _ _ _ hp₀, rfl, rfl, ?_, ?_⟩
      · intro q
        by_cases hq : q = r
        · subst hq
          rw [hproj]
          exact hv
        · rw [lookupTally_setTally_ne _ _ hq]
      · intro q hq
        exact lookupTally_setTally_ne _ _ hq
    · exact Or.inr ⟨ob₀, by rw [dropState_heap, lookupHeap_setHeap_ne _ _ hxo]; exact hp₀,
        rfl, rfl, fun _ => Nat.le.refl, fun _ _ => rfl⟩

theorem DiscEffect_dealloc (s : State) (o : ObjId) (ob : Obj) (r : RootId)
    (hp : lookupHeap s.heap o = some ob) (h0 : lookupTally ob.tally r = 0) :
    DiscEffect s (deallocObj s o) r := by
  refine ⟨rfl, ⟨[], by simp [deallocObj]⟩, ?_, ?_, fun hn => ⟨fun x => ?_, ?_⟩⟩
  · rw [deallocObj_heap]
    exact heapKeys_eraseHeap_sublist _ _
  · rw [deallocObj_heap]
    have hbase := posCount_eraseHeap s.heap r hp
    rw [if_pos h0] at hbase
    omega
  · rw [deallocObj_freed, countId_append]
    by_cases hxo : x = o
    · subst hxo
      have hm : x ∈ heapKeys s.heap := by
        rw [mem_heapKeys_iff_lookup, hp]
        simp
      have hout : x ∉ heapKeys (deallocObj s x).heap := by
        rw [deallocObj_heap, ← lookupHeap_eq_none_iff]
        exact lookupHeap_eraseHeap_self _ _ hn
      rw [if_pos ⟨hm, hout⟩]
      simp [countId]
    · have hiff : x ∈ heapKeys (eraseHeap s.heap o) ↔ x ∈ heapKeys s.heap :=
        mem_heapKeys_eraseHeap_ne _ hxo
      have hcond : ¬ (x ∈ heapKeys s.heap ∧ x ∉ heapKeys (deallocObj s o).heap) := by
        rw [deallocObj_heap]
        exact fun hand => hand.2 (hiff.mpr hand.1)
      rw [if_neg hcond]
      have hox : ¬ o = x := fun he => hxo he.symm
      simp [countId, hox]
  · intro x ob₀ hp₀
    by_cases hxo : x = o
    · subst hxo
      left
      rw [deallocObj_heap]
      exact lookupHeap_eraseHeap_self _ _ hn
    · exact Or.inr ⟨ob₀, by rw [deallocObj_heap, lookupHeap_eraseHeap_ne _ hxo]; exact hp₀,
        rfl, rfl, fun _ => Nat.le.refl, fun _ _ => rfl⟩

theorem disconnectFuel_effect : ∀ f, ∀ s (o : Option ObjId) b r,
    DiscEffect s (disconnectFuel f s o b r) r := by
  intro f
  induction f with
  | zero =>
    intro s o b r
    rw [disconnectFuel_zero]
    exact discEffect_refl s r
  | succ f ih =>
    intro s o b r
    cases o with
    | none =>
      rw [disconnectFuel_none]
      exact discEffect_refl s r
    | some o =>
      have hfields : ∀ fs s₀, DiscEffect s₀ (disconnectFields (disconnectFuel f) s₀ fs r) r :=
        fun fs s₀ => disconnectFields_rel _ r (fun a c => DiscEffect a c r)
          (fun a => discEffect_refl a r) (fun hab hbc => discEffect_trans hab hbc)
          (fun a t => ih a t false r) fs s₀
      rw [disconnectFuel_succ]
      cases hob : getObj s o with
      | none => exact DiscEffect_log s o b r
      | some ob =>
        simp only
        by_cases hpre : lookupTally ob.tally r = 0
        · rw [if_pos hpre]
          exact DiscEffect_log s o b r
        · rw [if_neg hpre]
          have hp0 : lookupHeap (logState s o b r).heap o = some ob := hob
          have hd : DiscEffect s
              (dropState (logState s o b r) o ob r (dropVal b (lookupTally ob.tally r))) r :=
            discEffect_trans (DiscEffect_log s o b r)
              (DiscEffect_drop (logState s o b r) o ob r _ hp0 hpre (dropVal_le _ _))
          by_cases hv0 : dropVal b (lookupTally ob.tally r) = 0
          · rw [if_pos hv0, hv0]
            have hd0 : DiscEffect s (dropState (logState s o b r) o ob r 0) r :=
              discEffect_trans (DiscEffect_log s o b r)
                (DiscEffect_drop (logState s o b r) o ob r 0 hp0 hpre (Nat.zero_le _))
            have hs2 : DiscEffect s (disconnectFields (disconnectFuel f)
                (dropState (logState s o b r) o ob r 0) ob.fields r) r :=
              discEffect_trans hd0 (hfields ob.fields _)
            by_cases hnt : setTally ob.tally r 0 = []
            · rw [if_pos hnt]
              have ho_s1 : lookupHeap (dropState (logState s o b r) o ob r 0).heap o
                  = some { ob with tally := setTally ob.tally r 0 } := by
                rw [dropState_heap]
                exact lookupHeap_setHeap_self _ _ _ hp0
              have h0' : lookupTally ({ ob with tally := setTally ob.tally r 0 } : Obj).tally r
                  = 0 := by
                show lookupTally (setTally ob.tally r 0) r = 0
                exact lookupTally_setTally_self _ _ _
              obtain ⟨ho_s2, -⟩ := disconnectFields_frame_zero f r ob.fields
                (dropState (logState s o b r) o ob r 0) o _ ho_s1 h0'
              exact discEffect_trans hs2 (DiscEffect_dealloc _ o _ r ho_s2 h0')
            · rw [if_neg hnt]
              exact hs2
          · by_cases hnt : setTally ob.tally r (dropVal b (lookupTally ob.tally r)) = []
            · exact absurd ((setTally_eq_nil_iff _ _ _).mp hnt).2 hv0
            · rw [if_neg hnt, if_neg hv0]
              exact hd

theorem zeroCount_expand (s : State) (o : ObjId) (ob : Obj) (r : RootId)
    (hp : getObj s o = some ob) (hpre : lookupTally ob.tally r = 0) :
    zeroCount (expState (bumpState s o ob r)).heap r + 1 = zeroCount s.heap r := by
  have hz := zeroCount_setHeap s.heap { ob with tally := bumpTally ob.tally r } r hp
  have hif1 : (if lookupTally ({ ob with tally := bumpTally ob.tally r } : Obj).tally r = 0
      then 1 else 0) = 0 := by
    have : lookupTally (bumpTally ob.tally r) r = lookupTally ob.tally r + 1 :=
      lookupTally_bumpTally_self _ _
    show (if lookupTally (bumpTally ob.tally r) r = 0 then 1 else 0) = 0
    rw [this]
    simp
  rw [hif1, if_pos hpre] at hz
  show zeroCount (setHeap s.heap o { ob with tally := bumpTally ob.tally r }) r + 1
    = zeroCount s.heap r
  omega

theorem connectFuel_eq_aux : ∀ f, (∀ g s (o : Option ObjId) r,
      zeroCount s.heap r + 1 ≤ f → zeroCount s.heap r + 1 ≤ g →
      connectFuel f s o r = connectFuel g s o r) ∧
    (∀ g s fs r, zeroCount s.heap r + 1 ≤ f → zeroCount s.heap r + 1 ≤ g →
      connectFields (connectFuel f) s fs r = connectFields (connectFuel g) s fs r) := by
  intro f
  induction f with
  | zero =>
    exact ⟨fun g s o r h _ => absurd h (by omega),
      fun g s fs r h _ => absurd h (by omega)⟩
  | succ f ih =>
    have hFP : ∀ g s (o : Option ObjId) r, zeroCount s.heap r + 1 ≤ f + 1 →
        zeroCount s.heap r + 1 ≤ g → connectFuel (f + 1) s o r = connectFuel g s o r := by
      intro g s o r hf hg
      cases o with
      | none => rw [connectFuel_none, connectFuel_none]
      | some o =>
        obtain ⟨g', rfl⟩ : ∃ g', g = g' + 1 := ⟨g - 1, by omega⟩
        rw [connectFuel_succ, connectFuel_succ]
        cases hob : getObj s o with
        | none => rfl
        | some ob =>
          simp only
          by_cases hpre : lookupTally ob.tally r = 0
          · rw [if_pos hpre, if_pos hpre]
            have hz1 := zeroCount_expand s o ob r hob hpre
            exact ih.2 g' (expState (bumpState s o ob r)) ob.fields r (by omega) (by omega)
          · rw [if_neg hpre, if_neg hpre]
    refine ⟨hFP, ?_⟩
    intro g s fs r
    induction fs generalizing s with
    | nil => intro _ _; rfl
    | cons fd fs ihl =>
      intro hf hg
      cases fd with
      | tracked t =>
        have hhead := hFP g s t r hf hg
        show connectFields (connectFuel (f + 1)) (connectFuel (f + 1) s t r) fs r
          = connectFields (connectFuel g) (connectFuel g s t r) fs r
        rw [← hhead]
        have hZ : zeroCount (connectFuel (f + 1) s t r).heap r ≤ zeroCount s.heap r :=
          connectFuel_zeroCount_le _ _ _ _
        exact ihl (connectFuel (f + 1) s t r) (by omega) (by omega)
      | raw t => exact ihl s hf hg
      | plain => exact ihl s hf hg

theorem connectFuel_eq_connect (f : Nat) (s : State) (o : Option ObjId) (r : RootId)
    (h : zeroCount s.heap r + 1 ≤ f) : connectFuel f s o r = connect s o r :=
  (connectFuel_eq_aux f).1 (zeroCount s.heap r + 1) s o r h Nat.le.refl

theorem disconnect_calls_false : ∀ f s (o : Option ObjId) r,
    ∃ ex, (disconnectFuel f s o false r).calls = s.calls ++ ex ∧
      ∀ e ∈ ex, e.2.1 = false := by
  intro f
  induction f with
  | zero =>
    intro s o r
    rw [disconnectFuel_zero]
    exact ⟨[], by simp, by simp⟩
  | succ f ih =>
    intro s o r
    cases o with
    | none =>
      rw [disconnectFuel_none]
      exact ⟨[], by simp, by simp⟩
    | some o =>
      have hfields : ∀ fs s₀, ∃ ex,
          (disconnectFields (disconnectFuel f) s₀ fs r).calls = s₀.calls ++ ex ∧
          ∀ e ∈ ex, e.2.1 = false := by
        intro fs s₀
        refine disconnectFields_rel _ r
          (fun a c => ∃ ex, c.calls = a.calls ++ ex ∧ ∀ e ∈ ex, e.2.1 = false)
          (fun a => ⟨[], by simp, by simp⟩) ?_ ?_ fs s₀
        · intro a c d ⟨ex₁, hc₁, hf₁⟩ ⟨ex₂, hc₂, hf₂⟩
          refine ⟨ex₁ ++ ex₂, by rw [hc₂, hc₁, List.append_assoc], ?_⟩
          intro e he
          rcases List.mem_append.mp he with he | he
          · exact hf₁ e he
          · exact hf₂ e he
        · intro a t
          exact ih a t r
      rw [disconnectFuel_succ]
      cases hob : getObj s o with
      | none => exact ⟨[(o, false, r)], rfl, by simp⟩
      | some ob =>
        simp only
        by_cases hpre : lookupTally ob.tally r = 0
        · rw [if_pos hpre]
          exact ⟨[(o, false, r)], rfl, by simp⟩
        · rw [if_neg hpre]
          have hlog : (dropState (logState s o false r) o ob r
              (dropVal false (lookupTally ob.tally r))).calls
              = s.calls ++ [(o, false, r)] := rfl
          by_cases hv0 : dropVal false (lookupTally ob.tally r) = 0
          · rw [if_pos hv0, hv0]
            obtain ⟨ex₂, hc₂, hf₂⟩ := hfields ob.fields
              (dropState (logState s o false r) o ob r 0)
            have hcalls : (disconnectFields (disconnectFuel f)
                (dropState (logState s o false r) o ob r 0) ob.fields r).calls
                = s.calls ++ (o, false, r) :: ex₂ := by
              rw [hc₂]
              show (s.calls ++ [(o, false, r)]) ++ ex₂ = s.calls ++ (o, false, r) :: ex₂
              simp
            by_cases hnt : setTally ob.tally r 0 = []
            · rw [if_pos hnt]
              refine ⟨(o, false, r) :: ex₂, ?_, ?_⟩
              · show (disconnectFields (disconnectFuel f)
                    (dropState (logState s o false r) o ob r 0) ob.fields r).calls
                  = s.calls ++ (o, false, r) :: ex₂
                exact hcalls
              · intro e he
                rcases List.mem_cons.mp he with he | he
                · rw [he]
                · exact hf₂ e he
            · rw [if_neg hnt]
              refine ⟨(o, false, r) :: ex₂, hcalls, ?_⟩
              intro e he
              rcases List.mem_cons.mp he with he | he
              · rw [he]
              · exact hf₂ e he
          · by_cases hnt : setTally ob.tally r (dropVal false (lookupTally ob.tally r)) = []
            · exact absurd ((setTally_eq_nil_iff _ _ _).mp hnt).2 hv0
            · rw [if_neg hnt, if_neg hv0]
              exact ⟨[(o, false, r)], hlog, by simp⟩

theorem disconnect_isRoot_top (f : Nat) (s : State) (o : ObjId) (b : Bool) (r : RootId) :
    ∃ rest, (disconnectFuel (f + 1) s (some o) b r).calls
      = s.calls ++ (o, b, r) :: rest ∧ ∀ e ∈ rest, e.2.1 = false := by
  have hfields : ∀ fs s₀, ∃ ex,
      (disconnectFields (disconnectFuel f) s₀ fs r).calls = s₀.calls ++ ex ∧
      ∀ e ∈ ex, e.2.1 = false := by
    intro fs s₀
    refine disconnectFields_rel _ r
      (fun a c => ∃ ex, c.calls = a.calls ++ ex ∧ ∀ e ∈ ex, e.2.1 = false)
      (fun a => ⟨[], by simp, by simp⟩) ?_ ?_ fs s₀
    · intro a c d ⟨ex₁, hc₁, hf₁⟩ ⟨ex₂, hc₂, hf₂⟩
      refine ⟨ex₁ ++ ex₂, by rw [hc₂, hc₁, List.append_assoc], ?_⟩
      intro e he
      rcases List.mem_append.mp he with he | he
      · exact hf₁ e he
      · exact hf₂ e he
    · intro a t
      exact disconnect_calls_false f a t r
  rw [disconnectFuel_succ]
  cases hob : getObj s o with
  | none => exact ⟨[], by simp [logState], by simp⟩
  | some ob =>
    simp only
    by_cases hpre : lookupTally ob.tally r = 0
    · rw [if_pos hpre]
      exact ⟨[], by simp [logState], by simp⟩
    · rw [if_neg hpre]
      have hlog : (dropState (logState s o b r) o ob r
          (dropVal b (lookupTally ob.tally r))).calls = s.calls ++ [(o, b, r)] := rfl
      by_cases hv0 : dropVal b (lookupTally ob.tally r) = 0
      · rw [if_pos hv0, hv0]
        obtain ⟨ex₂, hc₂, hf₂⟩ := hfields ob.fields (dropState (logState s o b r) o ob r 0)
        have hcalls : (disconnectFields (disconnectFuel f)
            (dropState (logState s o b r) o ob r 0) ob.fields r).calls
            = s.calls ++ (o, b, r) :: ex₂ := by
          rw [hc₂]
          show (s.calls ++ [(o, b, r)]) ++ ex₂ = s.calls ++ (o, b, r) :: ex₂
          simp
        by_cases hnt : setTally ob.tally r 0 = []
        · rw [if_pos hnt]
          exact ⟨ex₂, hcalls, hf₂⟩
        · rw [if_neg hnt]
          exact ⟨ex₂, hcalls, hf₂⟩
      · by_cases hnt : setTally ob.tally r (dropVal b (lookupTally ob.tally r)) = []
        · exact absurd ((setTally_eq_nil_iff _ _ _).mp hnt).2 hv0
        · rw [if_neg hnt, if_neg hv0]
          exact ⟨[], by rw [hlog], by simp⟩

theorem lookupHeap_strongMap (φ : ObjId → Nat) (h : List (ObjId × Obj)) (x : ObjId) :
    lookupHeap (h.map (fun e => (e.1, { e.2 with strong := φ e.1 }))) x
      = (lookupHeap h x).map (fun ob => { ob with strong := φ x }) := by
  induction h with
  | nil => rfl
  | cons e h ih =>
    by_cases he : e.1 = x
    · subst he
      simp [lookupHeap]
    · simp only [List.map, lookupHeap, if_neg he]
      exact ih

theorem setHeap_strongMap (φ : ObjId → Nat) (h : List (ObjId × Obj)) (o : ObjId) (ob : Obj) :
    setHeap (h.map (fun e => (e.1, { e.2 with strong := φ e.1 }))) o
        { ob with strong := φ o }
      = (setHeap h o ob).map (fun e => (e.1, { e.2 with strong := φ e.1 })) := by
  induction h with
  | nil => rfl
  | cons e h ih =>
    by_cases he : e.1 = o
    · subst he
      simp [setHeap]
    · simp only [List.map, setHeap, if_neg he, List.map_cons]
      rw [ih]

theorem eraseHeap_strongMap (φ : ObjId → Nat) (h : List (ObjId × Obj)) (o : ObjId) :
    eraseHeap (h.map (fun e => (e.1, { e.2 with strong := φ e.1 }))) o
      = (eraseHeap h o).map (fun e => (e.1, { e.2 with strong := φ e.1 })) := by
  induction h with
  | nil => rfl
  | cons e h ih =>
    by_cases he : e.1 = o
    · subst he
      simp [eraseHeap]
    · simp only [List.map, eraseHeap, if_neg he, List.map_cons]
      rw [ih]

theorem disconnectFuel_succ_none (f : Nat) (s : State) (o : ObjId) (b : Bool) (r : RootId)
    (hob : getObj s o = none) : disconnectFuel (f + 1) s (some o) b r = logState s o b r := by
  rw [disconnectFuel_succ, hob]

theorem disconnectFuel_succ_some (f : Nat) (s : State) (o : ObjId) (b : Bool) (r : RootId)
    (ob : Obj) (hob : getObj s o = some ob) :
    disconnectFuel (f + 1) s (some o) b r =
      (if lookupTally ob.tally r = 0 then logState s o b r
      else
        if setTally ob.tally r (dropVal b (lookupTally ob.tally r)) = [] then
          deallocObj (if dropVal b (lookupTally ob.tally r) = 0 then
              disconnectFields (disconnectFuel f)
                (dropState (logState s o b r) o ob r (dropVal b (lookupTally ob.tally r)))
                ob.fields r
            else dropState (logState s o b r) o ob r (dropVal b (lookupTally ob.tally r))) o
        else
          if dropVal b (lookupTally ob.tally r) = 0 then
            disconnectFields (disconnectFuel f)
              (dropState (logState s o b r) o ob r (dropVal b (lookupTally ob.tally r)))
              ob.fields r
          else dropState (logState s o b r) o ob r (dropVal b (lookupTally ob.tally r))) := by
  rw [disconnectFuel_succ, hob]

theorem logState_strongMap (φ : ObjId → Nat) (s : State) (o : ObjId) (b : Bool) (r : RootId) :
    logState (strongMap φ s) o b r = strongMap φ (logState s o b r) := rfl

theorem deallocObj_strongMap (φ : ObjId → Nat) (s : State) (o : ObjId) :
    deallocObj (strongMap φ s) o = strongMap φ (deallocObj s o) := by
  refine State.ext ?_ rfl rfl rfl
  show eraseHeap (s.heap.map (fun e => (e.1, { e.2 with strong := φ e.1 }))) o
    = (eraseHeap s.heap o).map (fun e => (e.1, { e.2 with strong := φ e.1 }))
  exact eraseHeap_strongMap φ s.heap o

theorem dropState_strongMap (φ : ObjId → Nat) (s : State) (o : ObjId) (ob : Obj)
    (r : RootId) (v : Nat) :
    dropState (strongMap φ s) o { ob with strong := φ o } r v
      = strongMap φ (dropState s o ob r v) := by
  refine State.ext ?_ rfl rfl rfl
  show setHeap (s.heap.map (fun e => (e.1, { e.2 with strong := φ e.1 }))) o
      (Obj.mk (φ o) (setTally ob.tally r v) ob.fields)
    = (setHeap s.heap o (Obj.mk ob.strong (setTally ob.tally r v) ob.fields)).map
      (fun e => (e.1, { e.2 with strong := φ e.1 }))
  exact setHeap_strongMap φ s.heap o (Obj.mk ob.strong (setTally ob.tally r v) ob.fields)

theorem disconnectFuel_strongMap : ∀ f (φ : ObjId → Nat) s (o : Option ObjId) b r,
    disconnectFuel f (strongMap φ s) o b r = strongMap φ (disconnectFuel f s o b r) := by
  intro f
  induction f with
  | zero =>
    intro φ s o b r
    rw [disconnectFuel_zero, disconnectFuel_zero]
  | succ f ih =>
    intro φ s o b r
    cases o with
    | none => rw [disconnectFuel_none, disconnectFuel_none]
    | some o =>
      have hfields : ∀ fs s₀, disconnectFields (disconnectFuel f) (strongMap φ s₀) fs r
          = strongMap φ (disconnectFields (disconnectFuel f) s₀ fs r) := by
        intro fs
        induction fs with
        | nil => intro s₀; rfl
        | cons fd fs ihl =>
          intro s₀
          cases fd with
          | tracked t =>
            show disconnectFields (disconnectFuel f)
                (disconnectFuel f (strongMap φ s₀) t false r) fs r = _
            rw [ih φ s₀ t false r]
            exact ihl (disconnectFuel f s₀ t false r)
          | raw t => exact ihl s₀
          | plain => exact ihl s₀
      cases hob : getObj s o with
      | none =>
        have hget : getObj (strongMap φ s) o = none := by
          have := lookupHeap_strongMap φ s.heap o
          rw [show lookupHeap s.heap o = getObj s o from rfl, hob] at this
          exact this
        rw [disconnectFuel_succ_none f _ o b r hget, disconnectFuel_succ_none f s o b r hob]
        exact logState_strongMap φ s o b r
      | some ob =>
        have hget : getObj (strongMap φ s) o = some { ob with strong := φ o } := by
          have := lookupHeap_strongMap φ s.heap o
          rw [show lookupHeap s.heap o = getObj s o from rfl, hob] at this
          exact this
        rw [disconnectFuel_succ_some f _ o b r _ hget, disconnectFuel_succ_some f s o b r ob hob]
        have htal : ({ ob with strong := φ o } : Obj).tally = ob.tally := rfl
        have hfld : ({ ob with strong := φ o } : Obj).fields = ob.fields := rfl
        rw [htal, hfld]
        have hdrop : dropState (logState (strongMap φ s) o b r) o { ob with strong := φ o } r
            (dropVal b (lookupTally ob.tally r))
            = strongMap φ (dropState (logState s o b r) o ob r
              (dropVal b (lookupTally ob.tally r))) := by
          rw [logState_strongMap]
          exact dropState_strongMap φ (logState s o b r) o ob r _
        by_cases hpre : lookupTally ob.tally r = 0
        · rw [if_pos hpre, if_pos hpre]
          exact logState_strongMap φ s o b r
        · rw [if_neg hpre, if_neg hpre]
          by_cases hnt : setTally ob.tally r (dropVal b (lookupTally ob.tally r)) = []
          · rw [if_pos hnt, if_pos hnt]
            by_cases hv0 : dropVal b (lookupTally ob.tally r) = 0
            · rw [if_pos hv0, if_pos hv0, hdrop, hfields]
              exact deallocObj_strongMap φ _ o
            · rw [if_neg hv0, if_neg hv0, hdrop]
              exact deallocObj_strongMap φ _ o
          · rw [if_neg hnt, if_neg hnt]
            by_cases hv0 : dropVal b (lookupTally ob.tally r) = 0
            · rw [if_pos hv0, if_pos hv0, hdrop, hfields]
            · rw [if_neg hv0, if_neg hv0]
              exact hdrop

theorem connectFuel_succ_some (f : Nat) (s : State) (o : ObjId) (r : RootId) (ob : Obj)
    (hob : getObj s o = some ob) :
    connectFuel (f + 1) s (some o) r =
      (if lookupTally ob.tally r = 0 then
        connectFields (connectFuel f) (expState (bumpState s o ob r)) ob.fields r
      else bumpState s o ob r) := by
  rw [connectFuel_succ, hob]

theorem disconnectFields_effect (f : Nat) (r : RootId) : ∀ fs s,
    DiscEffect s (disconnectFields (disconnectFuel f) s fs r) r :=
  fun fs s => disconnectFields_rel _ r (fun a c => DiscEffect a c r)
    (fun a => discEffect_refl a r) (fun hab hbc => discEffect_trans hab hbc)
    (fun a t => disconnectFuel_effect f a t false r) fs s

/-- C10: for every root id, `connect` on a null pointer is a complete
no-op: the state is returned unchanged — no root tally, no strong count,
no heap entry and no deallocation log entry moves — both for any fuel and
for the official `connect`. -/
theorem connect_null_noop :
    (∀ (f : Nat) (s : State) (r : RootId), connectFuel f s none r = s) ∧
    (∀ (s : State) (r : RootId), connect s none r = s) :=
  ⟨fun f s r => connectFuel_none f s r, fun s r => connectFuel_none _ s r⟩

/-- C8: the descriptor's generated call for a non-owning field — a raw or
weak pointer field (`Field.raw`, like `C::a0`) or a field of non-tracked
data (`Field.plain`, like `C::array`) — is a no-op for both connect and
disconnect traversals: the state passes through unchanged, so no object's
root tally and no object's strong count moves. Concretely, in
`backrefState` the non-owning back-reference from object 2 to object 1
earns object 1 no extra tally during connect (its tally stays at a single
entry for the root), and releasing the only root still frees both objects:
the back-reference kept nothing alive. -/
theorem non_owning_field_noop :
    (∀ (cf : State → Option ObjId → RootId → State) (s : State) (t : Option ObjId)
      (fs : List Field) (r : RootId),
      connectFields cf s (Field.raw t :: fs) r = connectFields cf s fs r) ∧
    (∀ (cf : State → Option ObjId → RootId → State) (s : State)
      (fs : List Field) (r : RootId),
      connectFields cf s (Field.plain :: fs) r = connectFields cf s fs r) ∧
    (∀ (df : State → Option ObjId → Bool → RootId → State) (s : State) (t : Option ObjId)
      (fs : List Field) (r : RootId),
      disconnectFields df s (Field.raw t :: fs) r = disconnectFields df s fs r) ∧
    (∀ (df : State → Option ObjId → Bool → RootId → State) (s : State)
      (fs : List Field) (r : RootId),
      disconnectFields df s (Field.plain :: fs) r = disconnectFields df s fs r) ∧
    getObj (connect backrefState (some 1) 5) 1
      = some ⟨1, [(5, 1)], [Field.tracked (some 2)]⟩ ∧
    getObj (connect backrefState (some 1) 5) 2
      = some ⟨0, [(5, 1)], [Field.raw (some 1), Field.plain]⟩ ∧
    (disconnect (connect backrefState (some 1) 5) (some 1) true 5).heap = [] ∧
    (disconnect (connect backrefState (some 1) 5) (some 1) true 5).freed = [2, 1] :=
  ⟨fun _ _ _ _ _ => rfl, fun _ _ _ _ => rfl, fun _ _ _ _ _ => rfl, fun _ _ _ _ => rfl,
    by decide, by decide, by decide, by decide⟩

/-- C3: the diamond of §8: object 3 is reachable from root 11 (through
object 1) and from root 22 (through object 2) by different paths.
Releasing root 11 alone leaves object 3 allocated — it keeps its tally for
root 22 and is never entered into the deallocation log — while releasing
root 22 as well deallocates object 3, exactly once. -/
theorem diamond_two_roots :
    getObj (disconnect (connect (connect diamondState (some 1) 11) (some 2) 22)
        (some 1) true 11) 3 = some ⟨0, [(22, 1)], []⟩ ∧
    countId (disconnect (connect (connect diamondState (some 1) 11) (some 2) 22)
        (some 1) true 11).freed 3 = 0 ∧
    getObj (disconnect (disconnect (connect (connect diamondState (some 1) 11) (some 2) 22)
        (some 1) true 11) (some 2) true 22) 3 = none ∧
    countId (disconnect (disconnect (connect (connect diamondState (some 1) 11) (some 2) 22)
        (some 1) true 11) (some 2) true 22).freed 3 = 1 := by
  decide

/-- C4: the two-object cycle of §8: object 1 owns object 2, object 2 owns
object 1 back, and the cycle is reachable only through a single root on
object 1 (connect gives object 1 tally two — the root path plus the
back-edge — and object 2 tally one). Releasing that root deallocates both
objects, each exactly once, leaving the heap empty. -/
theorem cycle_collected_on_root_release :
    getObj (connect cycleState (some 1) 7) 1
      = some ⟨1, [(7, 2)], [Field.tracked (some 2)]⟩ ∧
    getObj (connect cycleState (some 1) 7) 2
      = some ⟨0, [(7, 1)], [Field.tracked (some 1)]⟩ ∧
    (disconnect (connect cycleState (some 1) 7) (some 1) true 7).heap = [] ∧
    countId (disconnect (connect cycleState (some 1) 7) (some 1) true 7).freed 1 = 1 ∧
    countId (disconnect (connect cycleState (some 1) 7) (some 1) true 7).freed 2 = 1 := by
  decide

/-- C1: the cycle-termination rule and the expansion bound of `connect`:
(1) when an object's tally for the root was already non-zero before the
bump, the call is exactly the single bump — it does not recurse into the
children; (2) `connect` terminates on every object graph, cycles included:
any fuel of at least one more than the number of objects not yet connected
to the root computes the same final state, namely the official `connect`;
(3) the conservation law behind the bound: every counted expansion
consumes exactly one zero-tally object, so a pass performs at most one
expansion per distinct object it newly connects — a number bounded by the
objects reachable from the root — and therefore runs in time proportional
to the reachable object count. -/
theorem connect_cycle_safe_terminating :
    (∀ (f : Nat) (s : State) (o : ObjId) (r : RootId) (ob : Obj),
      getObj s o = some ob → lookupTally ob.tally r ≠ 0 →
      connectFuel (f + 1) s (some o) r = bumpState s o ob r) ∧
    (∀ (f : Nat) (s : State) (o : Option ObjId) (r : RootId),
      zeroCount s.heap r + 1 ≤ f → connectFuel f s o r = connect s o r) ∧
    (∀ (f : Nat) (s : State) (o : Option ObjId) (r : RootId),
      (connectFuel f s o r).expansions + zeroCount (connectFuel f s o r).heap r
        = s.expansions + zeroCount s.heap r) := by
  refine ⟨?_, connectFuel_eq_connect, ?_⟩
  · intro f s o r ob hob hpre
    rw [connectFuel_succ_some f s o r ob hob, if_neg hpre]
  · intro f s o r
    obtain ⟨-, -, -, -, hz, -⟩ := (connectFuel_effect f).1 s o r
    exact hz

/-- Witness for C1 on the two-object cycle: after the connect pass object
1 holds tally two for root 7, so a further call is the pure bump; and fuel
3 (one more than the two zero-tally objects) already reaches the official
`connect` fixpoint. -/
theorem connect_cycle_safe_terminating_witness :
    connectFuel 4 (connect cycleState (some 1) 7) (some 1) 7
      = bumpState (connect cycleState (some 1) 7) 1
          ⟨1, [(7, 2)], [Field.tracked (some 2)]⟩ 7 ∧
    connectFuel 3 cycleState (some 1) 7 = connect cycleState (some 1) 7 :=
  ⟨connect_cycle_safe_terminating.1 3 (connect cycleState (some 1) 7) 1 7
      ⟨1, [(7, 2)], [Field.tracked (some 2)]⟩ (by decide) (by decide),
    connect_cycle_safe_terminating.2.1 3 cycleState (some 1) 7 (by decide)⟩

/-- C5: a single acyclic object reachable from exactly one root is
deallocated exactly once when that root is released — the deallocation
happens (the heap empties, no leak) and the log records it exactly once
(no double free). In general, on any heap with distinct object ids, a
disconnect pass enters an object into the deallocation log exactly once
when the pass removes it from the heap and never otherwise. -/
theorem single_object_freed_exactly_once :
    ((disconnect (connect singleState (some 1) 9) (some 1) true 9).freed = [1] ∧
     (disconnect (connect singleState (some 1) 9) (some 1) true 9).heap = [] ∧
     countId (disconnect (connect singleState (some 1) 9) (some 1) true 9).freed 1 = 1) ∧
    (∀ (f : Nat) (s : State) (o : Option ObjId) (b : Bool) (r : RootId) (x : ObjId),
      (heapKeys s.heap).Nodup →
      countId (disconnectFuel f s o b r).freed x = countId s.freed x +
        (if x ∈ heapKeys s.heap ∧ x ∉ heapKeys (disconnectFuel f s o b r).heap
          then 1 else 0)) := by
  constructor
  · exact ⟨by decide, by decide, by decide⟩
  · intro f s o b r x hn
    obtain ⟨-, -, -, -, hfn⟩ := disconnectFuel_effect f s o b r
    exact (hfn hn).1 x

/-- Witness for C5's general law, instantiated on the single-object state
after its root connect. -/
theorem single_object_freed_exactly_once_witness :
    countId (disconnectFuel 2 (connect singleState (some 1) 9) (some 1) true 9).freed 1
      = countId (connect singleState (some 1) 9).freed 1 +
        (if 1 ∈ heapKeys (connect singleState (some 1) 9).heap ∧
            1 ∉ heapKeys (disconnectFuel 2 (connect singleState (some 1) 9)
              (some 1) true 9).heap then 1 else 0) :=
  single_object_freed_exactly_once.2 2 (connect singleState (some 1) 9) (some 1) true 9 1
    (by decide)

/-- C2: a `disconnect(obj, isRoot, root)` call on an object whose tally
for the root is non-zero drops that tally — to zero for the initiating
root handle, by one otherwise — and: (1) when the dropped map is still
non-empty the object stays allocated, holding exactly the dropped map, and
is never entered into the deallocation log by the pass; (2) when the
dropped map is empty for all roots the object leaves the heap and enters
the deallocation log exactly once; (3) when the dropped tally for the root
stays positive the call does not recurse at all: the entire pass is the
single local header update (plus the call log entry); (4) the whole pass
commutes with arbitrarily rewriting every object's strong reference count,
so the deallocation decision is independent of the strong count. -/
theorem disconnect_drop_recurse_dealloc (f : Nat) (s : State) (o : ObjId) (b : Bool)
    (r : RootId) (ob : Obj) (hob : getObj s o = some ob)
    (hpre : lookupTally ob.tally r ≠ 0) (hn : (heapKeys s.heap).Nodup) :
    (setTally ob.tally r (dropVal b (lookupTally ob.tally r)) ≠ [] →
      getObj (disconnectFuel (f + 1) s (some o) b r) o
        = some { ob with
            tally := setTally ob.tally r (dropVal b (lookupTally ob.tally r)) } ∧
      countId (disconnectFuel (f + 1) s (some o) b r).freed o = countId s.freed o) ∧
    (setTally ob.tally r (dropVal b (lookupTally ob.tally r)) = [] →
      getObj (disconnectFuel (f + 1) s (some o) b r) o = none ∧
      countId (disconnectFuel (f + 1) s (some o) b r).freed o = countId s.freed o + 1) ∧
    (dropVal b (lookupTally ob.tally r) ≠ 0 →
      disconnectFuel (f + 1) s (some o) b r
        = dropState (logState s o b r) o ob r (dropVal b (lookupTally ob.tally r))) ∧
    (∀ φ, disconnectFuel (f + 1) (strongMap φ s) (some o) b r
      = strongMap φ (disconnectFuel (f + 1) s (some o) b r)) := by
  have heq := disconnectFuel_succ_some f s o b r ob hob
  have hs1 : lookupHeap (dropState (logState s o b r) o ob r
      (dropVal b (lookupTally ob.tally r))).heap o
      = some { ob with
          tally := setTally ob.tally r (dropVal b (lookupTally ob.tally r)) } := by
    rw [dropState_heap, logState_heap]
    exact lookupHeap_setHeap_self _ _ _ hob
  refine ⟨?_, ?_, ?_, fun φ => disconnectFuel_strongMap (f + 1) φ s (some o) b r⟩
  · intro hnt
    rw [heq, if_neg hpre, if_neg hnt]
    by_cases hv0 : dropVal b (lookupTally ob.tally r) = 0
    · rw [if_pos hv0]
      rw [hv0] at hs1
      have h0' : lookupTally ({ ob with tally := setTally ob.tally r 0 } : Obj).tally r
          = 0 := by
        show lookupTally (setTally ob.tally r 0) r = 0
        exact lookupTally_setTally_self _ _ _
      obtain ⟨hl, hc⟩ := disconnectFields_frame_zero f r ob.fields _ o _ hs1 h0'
      rw [hv0]
      exact ⟨hl, hc.trans rfl⟩
    · rw [if_neg hv0]
      exact ⟨hs1, rfl⟩
  · intro hnt
    have hv0 : dropVal b (lookupTally ob.tally r) = 0 :=
      ((setTally_eq_nil_iff _ _ _).mp hnt).2
    rw [heq, if_neg hpre, if_pos hnt, if_pos hv0, hv0]
    rw [hv0] at hs1
    have h0' : lookupTally ({ ob with tally := setTally ob.tally r 0 } : Obj).tally r
        = 0 := by
      show lookupTally (setTally ob.tally r 0) r = 0
      exact lookupTally_setTally_self _ _ _
    obtain ⟨hl, hc⟩ := disconnectFields_frame_zero f r ob.fields _ o _ hs1 h0'
    have hnods2 : (heapKeys (disconnectFields (disconnectFuel f)
        (dropState (logState s o b r) o ob r 0) ob.fields r).heap).Nodup := by
      obtain ⟨-, -, hsub, -, -⟩ := disconnectFields_effect f r ob.fields
        (dropState (logState s o b r) o ob r 0)
      have hkeys1 : heapKeys (dropState (logState s o b r) o ob r 0).heap
          = heapKeys s.heap := by
        rw [dropState_heap, logState_heap, heapKeys_setHeap]
      rw [hkeys1] at hsub
      exact hn.sublist hsub
    constructor
    · exact lookupHeap_eraseHeap_self _ _ hnods2
    · rw [deallocObj_freed, countId_append, hc]
      show countId s.freed o + countId [o] o = countId s.freed o + 1
      simp [countId]
  · intro hv0
    have hnt : setTally ob.tally r (dropVal b (lookupTally ob.tally r)) ≠ [] :=
      fun h => hv0 ((setTally_eq_nil_iff _ _ _).mp h).2
    rw [heq, if_neg hpre, if_neg hnt, if_neg hv0]

/-- Witness for C2 on the diamond after both roots are connected:
releasing root 11 at object 1 empties its tally map, so the object leaves
the heap and is logged exactly once. -/
theorem disconnect_drop_recurse_dealloc_witness :
    getObj (disconnectFuel 3 (connect (connect diamondState (some 1) 11) (some 2) 22)
        (some 1) true 11) 1 = none ∧
    countId (disconnectFuel 3 (connect (connect diamondState (some 1) 11) (some 2) 22)
        (some 1) true 11).freed 1
      = countId (connect (connect diamondState (some 1) 11) (some 2) 22).freed 1 + 1 :=
  (disconnect_drop_recurse_dealloc 2
      (connect (connect diamondState (some 1) 11) (some 2) 22) 1 true 11
      ⟨1, [(11, 1)], [Field.tracked (some 3)]⟩
      (by decide) (by decide) (by decide)).2.1 (by decide)

theorem connect_bumps (s : State) (t : ObjId) (r : RootId) (ob : Obj)
    (hob : getObj s t = some ob) :
    ∃ ob', getObj (connect s (some t) r) t = some ob' ∧
      lookupTally ob.tally r + 1 ≤ lookupTally ob'.tally r ∧
      ∀ q, lookupTally ob.tally q ≤ lookupTally ob'.tally q := by
  have hbumped : lookupHeap (bumpState s t ob r).heap t
      = some { ob with tally := bumpTally ob.tally r } := by
    show lookupHeap (setHeap s.heap t { ob with tally := bumpTally ob.tally r }) t = _
    exact lookupHeap_setHeap_self _ _ _ hob
  have hbs : lookupTally (bumpTally ob.tally r) r = lookupTally ob.tally r + 1 :=
    lookupTally_bumpTally_self _ _
  have hbq : ∀ q, lookupTally ob.tally q ≤ lookupTally (bumpTally ob.tally r) q := by
    intro q
    by_cases hq : q = r
    · subst hq
      rw [hbs]
      omega
    · rw [lookupTally_bumpTally_ne _ hq]
  show ∃ ob', getObj (connectFuel (zeroCount s.heap r + 1) s (some t) r) t = some ob' ∧ _
  rw [connectFuel_succ_some _ s t r ob hob]
  by_cases hpre : lookupTally ob.tally r = 0
  · rw [if_pos hpre]
    obtain ⟨-, -, -, -, -, hper⟩ := (connectFuel_effect (zeroCount s.heap r)).2
      (expState (bumpState s t ob r)) ob.fields r
    obtain ⟨ob', hp', -, -, ht', -⟩ := hper t { ob with tally := bumpTally ob.tally r } hbumped
    refine ⟨ob', hp', ?_, ?_⟩
    · have := ht' r
      rw [show lookupTally ({ ob with tally := bumpTally ob.tally r } : Obj).tally r
          = lookupTally ob.tally r + 1 from hbs] at this
      omega
    · intro q
      exact (hbq q).trans (ht' q)
  · rw [if_neg hpre]
    exact ⟨{ ob with tally := bumpTally ob.tally r }, hbumped, Nat.le_of_eq hbs.symm, hbq⟩

theorem connectEach_bumps : ∀ (rs : List RootId) (s : State) (t : ObjId) (ob : Obj),
    getObj s t = some ob →
    ∃ ob', getObj (connectEach s (some t) rs) t = some ob' ∧
      (∀ q, lookupTally ob.tally q ≤ lookupTally ob'.tally q) ∧
      ∀ r ∈ rs, 1 ≤ lookupTally ob'.tally r := by
  intro rs
  induction rs with
  | nil =>
    intro s t ob hob
    exact ⟨ob, hob, fun _ => Nat.le.refl, by simp⟩
  | cons r rs ih =>
    intro s t ob hob
    obtain ⟨ob₁, hp₁, hb₁, hm₁⟩ := connect_bumps s t r ob hob
    obtain ⟨ob₂, hp₂, hm₂, hall⟩ := ih (connect s (some t) r) t ob₁ hp₁
    refine ⟨ob₂, hp₂, fun q => (hm₁ q).trans (hm₂ q), ?_⟩
    intro q hq
    rcases List.mem_cons.mp hq with hq | hq
    · subst hq
      have h1 : 1 ≤ lookupTally ob₁.tally q := by omega
      exact h1.trans (hm₂ q)
    · exact hall q hq

/-- C6: reassigning a tracked field nested in a root-reachable container
is scoped to the container's whole current root set, not to one root:
`reassignField` disconnects the old target from every root currently
reaching the container and then connects the new target to each of those
same roots. In general, the connect phase leaves the new target with a
tally of at least one for every root in the set (and never lowers any of
its tallies). Concretely, on the two-root container of `reassignState`:
the container keeps both root tallies and now owns object 3; the old
target 2 has its tallies for roots 11 and 22 dropped to zero and, being
otherwise unreachable, is deallocated exactly once; the new target 3 ends
with tally one for each of the two roots. -/
theorem reassign_field_scoped_to_root_set :
    (∀ (rs : List RootId) (s : State) (t : ObjId) (ob : Obj),
      getObj s t = some ob →
      ∃ ob', getObj (connectEach s (some t) rs) t = some ob' ∧
        (∀ q, lookupTally ob.tally q ≤ lookupTally ob'.tally q) ∧
        ∀ r ∈ rs, 1 ≤ lookupTally ob'.tally r) ∧
    getObj (reassignField reassignState 1 0 (some 3)) 1
      = some ⟨2, [(11, 1), (22, 1)], [Field.tracked (some 3)]⟩ ∧
    getObj (reassignField reassignState 1 0 (some 3)) 3
      = some ⟨1, [(11, 1), (22, 1)], []⟩ ∧
    getObj (reassignField reassignState 1 0 (some 3)) 2 = none ∧
    countId (reassignField reassignState 1 0 (some 3)).freed 2 = 1 :=
  ⟨connectEach_bumps, by decide, by decide, by decide, by decide⟩

/-- Witness for C6's general connect-phase law, instantiated on the new
target of the reassignment scenario. -/
theorem reassign_field_scoped_to_root_set_witness :
    ∃ ob', getObj (connectEach reassignState (some 3) [11, 22]) 3 = some ob' ∧
      (∀ q, lookupTally (([] : List (RootId × Nat))) q ≤ lookupTally ob'.tally q) ∧
      ∀ r ∈ [11, 22], 1 ≤ lookupTally ob'.tally r :=
  reassign_field_scoped_to_root_set.1 [11, 22] reassignState 3 ⟨1, [], []⟩ (by decide)

/-- C7: in every disconnect pass, `isRoot` is true only for the single
handle whose own root release directly initiated the pass: a pass started
with `isRoot = true` on an object logs that call first and every further
call it logs — all the recursive calls made on children — carries
`isRoot = false`; a pass started with `isRoot = false` logs only
`isRoot = false` calls. This holds for every fuel and in particular for
the official `disconnect`. -/
theorem disconnect_isRoot_only_initiator :
    (∀ (f : Nat) (s : State) (o : ObjId) (r : RootId),
      ∃ rest, (disconnectFuel (f + 1) s (some o) true r).calls
        = s.calls ++ (o, true, r) :: rest ∧ ∀ e ∈ rest, e.2.1 = false) ∧
    (∀ (f : Nat) (s : State) (o : Option ObjId) (r : RootId),
      ∃ ex, (disconnectFuel f s o false r).calls = s.calls ++ ex ∧
        ∀ e ∈ ex, e.2.1 = false) ∧
    (∀ (s : State) (o : ObjId) (r : RootId),
      ∃ rest, (disconnect s (some o) true r).calls
        = s.calls ++ (o, true, r) :: rest ∧ ∀ e ∈ rest, e.2.1 = false) :=
  ⟨fun f s o r => disconnect_isRoot_top f s o true r,
   disconnect_calls_false,
   fun s o r => disconnect_isRoot_top (posCount s.heap r) s o true r⟩

theorem setHeap_setHeap_same (h : List (ObjId × Obj)) (o : ObjId) (a b : Obj) :
    setHeap (setHeap h o a) o b = setHeap h o b := by
  induction h with
  | nil => rfl
  | cons e h ih =>
    by_cases he : e.1 = o
    · simp [setHeap, he]
    · simp only [setHeap, if_neg he]
      rw [ih]

theorem setHeap_setHeap_ne (h : List (ObjId × Obj)) {p q : ObjId} (a b : Obj)
    (hpq : p ≠ q) : setHeap (setHeap h p a) q b = setHeap (setHeap h q b) p a := by
  induction h with
  | nil => rfl
  | cons e h ih =>
    by_cases hep : e.1 = p
    · have heq : ¬ e.1 = q := fun hq => hpq (by rw [← hep, hq])
      have h1 : setHeap (e :: h) p a = (p, a) :: h := by simp [setHeap, hep]
      have h2 : setHeap (e :: h) q b = e :: setHeap h q b := by simp [setHeap, heq]
      rw [h1, h2]
      have h3 : setHeap ((p, a) :: h) q b = (p, a) :: setHeap h q b := by
        simp [setHeap, hpq]
      have h4 : setHeap (e :: setHeap h q b) p a = (p, a) :: setHeap h q b := by
        simp [setHeap, hep]
      rw [h3, h4]
    · by_cases heq : e.1 = q
      · have h1 : setHeap (e :: h) p a = e :: setHeap h p a := by simp [setHeap, hep]
        have h2 : setHeap (e :: h) q b = (q, b) :: h := by simp [setHeap, heq]
        rw [h1, h2]
        have h3 : setHeap (e :: setHeap h p a) q b = (q, b) :: setHeap h p a := by
          simp [setHeap, heq]
        have h4 : setHeap ((q, b) :: h) p a = (q, b) :: setHeap h p a := by
          have hqp : ¬ q = p := fun hp => hpq hp.symm
          simp [setHeap, hqp]
        rw [h3, h4]
      · simp only [setHeap, if_neg hep, if_neg heq]
        rw [ih]

theorem eraseHeap_setHeap_same (h : List (ObjId × Obj)) (o : ObjId) (a : Obj) :
    eraseHeap (setHeap h o a) o = eraseHeap h o := by
  induction h with
  | nil => rfl
  | cons e h ih =>
    by_cases he : e.1 = o
    · simp [setHeap, eraseHeap, he]
    · simp only [setHeap, eraseHeap, if_neg he]
      rw [ih]

theorem eraseHeap_setHeap_ne (h : List (ObjId × Obj)) {x o : ObjId} (a : Obj)
    (hxo : x ≠ o) : eraseHeap (setHeap h o a) x = setHeap (eraseHeap h x) o a := by
  induction h with
  | nil => rfl
  | cons e h ih =>
    by_cases heo : e.1 = o
    · have hex : ¬ e.1 = x := fun hx => hxo (by rw [← hx, heo])
      have h1 : setHeap (e :: h) o a = (o, a) :: h := by simp [setHeap, heo]
      have h2 : eraseHeap ((o, a) :: h) x = (o, a) :: eraseHeap h x := by
        have hox : ¬ o = x := fun ho => hxo ho.symm
        simp [eraseHeap, hox]
      have h3 : eraseHeap (e :: h) x = e :: eraseHeap h x := by simp [eraseHeap, hex]
      have h4 : setHeap (e :: eraseHeap h x) o a = (o, a) :: eraseHeap h x := by
        simp [setHeap, heo]
      rw [h1, h2, h3, h4]
    · by_cases hex : e.1 = x
      · have h1 : setHeap (e :: h) o a = e :: setHeap h o a := by simp [setHeap, heo]
        have h2 : eraseHeap (e :: setHeap h o a) x = setHeap h o a := by
          simp [eraseHeap, hex]
        have h3 : eraseHeap (e :: h) x = h := by simp [eraseHeap, hex]
        rw [h1, h2, h3]
      · simp only [setHeap, eraseHeap, if_neg heo, if_neg hex]
        rw [ih]

theorem eraseHeap_comm_ne (h : List (ObjId × Obj)) {x y : ObjId} (hxy : x ≠ y) :
    eraseHeap (eraseHeap h x) y = eraseHeap (eraseHeap h y) x := by
  induction h with
  | nil => rfl
  | cons e h ih =>
    by_cases hex : e.1 = x
    · have hey : ¬ e.1 = y := fun hy => hxy (by rw [← hex, hy])
      have h1 : eraseHeap (e :: h) x = h := by simp [eraseHeap, hex]
      have h2 : eraseHeap (e :: h) y = e :: eraseHeap h y := by simp [eraseHeap, hey]
      have h3 : eraseHeap (e :: eraseHeap h y) x = eraseHeap h y := by
        simp [eraseHeap, hex]
      rw [h1, h2, h3]
    · by_cases hey : e.1 = y
      · have h1 : eraseHeap (e :: h) y = h := by simp [eraseHeap, hey]
        have h2 : eraseHeap (e :: h) x = e :: eraseHeap h x := by simp [eraseHeap, hex]
        have h3 : eraseHeap (e :: eraseHeap h x) y = eraseHeap h x := by
          simp [eraseHeap, hey]
        rw [h1, h2, h3]
      · simp only [eraseHeap, if_neg hex, if_neg hey]
        rw [ih]

theorem connSeq_append (r : RootId) (l₁ l₂ : List (Option ObjId)) : ∀ s,
    connSeq r s (l₁ ++ l₂) = connSeq r (connSeq r s l₁) l₂ := by
  induction l₁ with
  | nil => intro s; rfl
  | cons x l₁ ih =>
    intro s
    exact ih (connect s x r)

theorem discSeq_append (r : RootId) (l₁ l₂ : List (Option ObjId)) : ∀ s,
    discSeq r s (l₁ ++ l₂) = discSeq r (discSeq r s l₁) l₂ := by
  induction l₁ with
  | nil => intro s; rfl
  | cons x l₁ ih =>
    intro s
    exact ih (disconnect s x false r)

theorem connect_eq_fuel (s : State) (o : Option ObjId) (r : RootId) :
    connect s o r = connectFuel (zeroCount s.heap r + 1) s o r := rfl

theorem connect_none (s : State) (r : RootId) : connect s none r = s :=
  connectFuel_none _ s r

theorem connect_dead (s : State) (o : ObjId) (r : RootId) (hob : getObj s o = none) :
    connect s (some o) r = s := by
  rw [connect_eq_fuel, connectFuel_succ, hob]

theorem connect_marked (s : State) (o : ObjId) (r : RootId) (ob : Obj)
    (hob : getObj s o = some ob) (hpre : lookupTally ob.tally r ≠ 0) :
    connect s (some o) r = bumpOnly s o r := by
  rw [connect_eq_fuel, connectFuel_succ_some _ s o r ob hob, if_neg hpre]
  unfold bumpOnly
  rw [hob]
  rfl

theorem connectFields_eq_connSeq (r : RootId) : ∀ fs s f,
    zeroCount s.heap r + 1 ≤ f →
    connectFields (connectFuel f) s fs r = connSeq r s (trackedTargets fs) := by
  intro fs
  induction fs with
  | nil => intro s f _; rfl
  | cons fd fs ih =>
    intro s f h
    cases fd with
    | tracked t =>
      show connectFields (connectFuel f) (connectFuel f s t r) fs r
        = connSeq r (connect s t r) (trackedTargets fs)
      rw [connectFuel_eq_connect f s t r h]
      have hz : zeroCount (connect s t r).heap r ≤ zeroCount s.heap r := by
        rw [connect_eq_fuel]
        exact connectFuel_zeroCount_le _ _ _ _
      exact ih (connect s t r) f (by omega)
    | raw t => exact ih s f h
    | plain => exact ih s f h

theorem connect_expand (s : State) (o : ObjId) (r : RootId) (ob : Obj)
    (hob : getObj s o = some ob) (hpre : lookupTally ob.tally r = 0) :
    connect s (some o) r
      = connSeq r (expState (bumpState s o ob r)) (trackedTargets ob.fields) := by
  rw [connect_eq_fuel, connectFuel_succ_some _ s o r ob hob, if_pos hpre]
  exact connectFields_eq_connSeq r ob.fields _ _
    (Nat.le_of_eq (zeroCount_expand s o ob r hob hpre))

theorem connect_effect (s : State) (o : Option ObjId) (r : RootId) :
    ConnEffect s (connect s o r) r := by
  rw [connect_eq_fuel]
  exact (connectFuel_effect _).1 s o r

theorem connect_Z_le (s : State) (o : Option ObjId) (r : RootId) :
    zeroCount (connect s o r).heap r ≤ zeroCount s.heap r := by
  rw [connect_eq_fuel]
  exact connectFuel_zeroCount_le _ _ _ _

theorem connSeq_Z_le (r : RootId) : ∀ l s,
    zeroCount (connSeq r s l).heap r ≤ zeroCount s.heap r := by
  intro l
  induction l with
  | nil => intro s; exact Nat.le.refl
  | cons x l ih =>
    intro s
    exact (ih (connect s x r)).trans (connect_Z_le s x r)

theorem zeroCount_pos (h : List (ObjId × Obj)) (o : ObjId) (ob : Obj) (r : RootId)
    (hp : lookupHeap h o = some ob) (h0 : lookupTally ob.tally r = 0) :
    1 ≤ zeroCount h r := by
  induction h with
  | nil => simp [lookupHeap] at hp
  | cons e h ih =>
    by_cases he : e.1 = o
    · simp only [lookupHeap, if_pos he] at hp
      cases hp
      simp only [zeroCount, if_pos h0]
      omega
    · simp only [lookupHeap, if_neg he] at hp
      have := ih hp
      simp only [zeroCount]
      omega

theorem getObj_bumpOnly_ne (s : State) (p : ObjId) (r : RootId) {x : ObjId}
    (hx : x ≠ p) : getObj (bumpOnly s p r) x = getObj s x := by
  unfold bumpOnly
  cases hp : getObj s p with
  | none => rfl
  | some ob =>
    show lookupHeap (setHeap s.heap p { ob with tally := bumpTally ob.tally r }) x = _
    exact lookupHeap_setHeap_ne _ _ hx

theorem getObj_bumpOnly_self (s : State) (p : ObjId) (r : RootId) (ob : Obj)
    (hp : getObj s p = some ob) :
    getObj (bumpOnly s p r) p = some { ob with tally := bumpTally ob.tally r } := by
  unfold bumpOnly
  rw [hp]
  exact lookupHeap_setHeap_self _ _ _ hp

theorem zeroCount_bumpOnly_marked (s : State) (p : ObjId) (r : RootId) (ob : Obj)
    (hp : getObj s p = some ob) (hpre : lookupTally ob.tally r ≠ 0) :
    zeroCount (bumpOnly s p r).heap r = zeroCount s.heap r := by
  unfold bumpOnly
  rw [hp]
  show zeroCount (setHeap s.heap p { ob with tally := bumpTally ob.tally r }) r = _
  have hz := zeroCount_setHeap s.heap { ob with tally := bumpTally ob.tally r } r hp
  have h1 : (if lookupTally ob.tally r = 0 then 1 else 0) = 0 := if_neg hpre
  have h2 : (if lookupTally ({ ob with tally := bumpTally ob.tally r } : Obj).tally r = 0
      then 1 else 0) = 0 := by
    show (if lookupTally (bumpTally ob.tally r) r = 0 then 1 else 0) = 0
    rw [lookupTally_bumpTally_self]
    simp
  rw [h1, h2] at hz
  omega

theorem bumpOnly_of_none (s : State) (p : ObjId) (r : RootId)
    (hp : getObj s p = none) : bumpOnly s p r = s := by
  unfold bumpOnly
  rw [hp]

theorem bumpOnly_of_some (s : State) (p : ObjId) (r : RootId) (ob : Obj)
    (hp : getObj s p = some ob) :
    bumpOnly s p r = setObj s p { ob with tally := bumpTally ob.tally r } := by
  unfold bumpOnly
  rw [hp]

theorem bumpOnly_comm (s : State) (p q : ObjId) (r : RootId) :
    bumpOnly (bumpOnly s p r) q r = bumpOnly (bumpOnly s q r) p r := by
  by_cases hpq : p = q
  · rw [hpq]
  · cases hp : getObj s p with
    | none =>
      rw [bumpOnly_of_none s p r hp]
      cases hq : getObj s q with
      | none =>
        rw [bumpOnly_of_none s q r hq, bumpOnly_of_none s p r hp]
      | some obq =>
        have h2 : getObj (bumpOnly s q r) p = none := by
          rw [getObj_bumpOnly_ne s q r hpq]
          exact hp
        rw [bumpOnly_of_none _ p r h2]
    | some obp =>
      cases hq : getObj s q with
      | none =>
        have h2 : getObj (bumpOnly s p r) q = none := by
          rw [getObj_bumpOnly_ne s p r (fun h => hpq h.symm)]
          exact hq
        rw [bumpOnly_of_none s q r hq, bumpOnly_of_none _ q r h2]
      | some obq =>
        have hq' : getObj (bumpOnly s p r) q = some obq := by
          rw [getObj_bumpOnly_ne s p r (fun h => hpq h.symm)]
          exact hq
        have hp' : getObj (bumpOnly s q r) p = some obp := by
          rw [getObj_bumpOnly_ne s q r hpq]
          exact hp
        rw [bumpOnly_of_some _ q r obq hq', bumpOnly_of_some _ p r obp hp',
          bumpOnly_of_some s p r obp hp, bumpOnly_of_some s q r obq hq]
        refine State.ext ?_ rfl rfl rfl
        show setHeap (setHeap s.heap p _) q _ = setHeap (setHeap s.heap q _) p _
        exact setHeap_setHeap_ne s.heap _ _ hpq

theorem bumpState_bumpOnly_ne (s : State) (p o : ObjId) (r : RootId) (ob₂ : Obj)
    (hop : o ≠ p) : bumpState (bumpOnly s p r) o ob₂ r
      = bumpOnly (bumpState s o ob₂ r) p r := by
  cases hp : getObj s p with
  | none =>
    have h2 : getObj (bumpState s o ob₂ r) p = none := by
      show lookupHeap (setHeap s.heap o _) p = none
      rw [lookupHeap_setHeap_ne _ _ (fun h => hop h.symm)]
      exact hp
    rw [bumpOnly_of_none s p r hp, bumpOnly_of_none _ p r h2]
  | some obp =>
    have h2 : getObj (bumpState s o ob₂ r) p = some obp := by
      show lookupHeap (setHeap s.heap o _) p = some obp
      rw [lookupHeap_setHeap_ne _ _ (fun h => hop h.symm)]
      exact hp
    rw [bumpOnly_of_some s p r obp hp, bumpOnly_of_some _ p r obp h2]
    refine State.ext ?_ rfl rfl rfl
    show setHeap (setHeap s.heap p _) o _ = setHeap (setHeap s.heap o _) p _
    exact setHeap_setHeap_ne s.heap _ _ (fun h => hop h.symm)

theorem bumpOnly_expState (s : State) (p : ObjId) (r : RootId) :
    bumpOnly (expState s) p r = expState (bumpOnly s p r) := by
  cases hp : getObj s p with
  | none =>
    have h2 : getObj (expState s) p = none := hp
    rw [bumpOnly_of_none s p r hp, bumpOnly_of_none _ p r h2]
  | some ob =>
    have h2 : getObj (expState s) p = some ob := hp
    rw [bumpOnly_of_some s p r ob hp, bumpOnly_of_some _ p r ob h2]
    rfl

theorem connSeq_bumpOnly_comm (r : RootId) : ∀ n l s p ob,
    zeroCount s.heap r ≤ n → getObj s p = some ob → lookupTally ob.tally r ≠ 0 →
    connSeq r (bumpOnly s p r) l = bumpOnly (connSeq r s l) p r := by
  intro n
  induction n using Nat.strong_induction_on with
  | _ n ihn =>
    intro l
    induction l with
    | nil => intro s p ob _ _ _; rfl
    | cons x l ihl =>
      intro s p ob hZ hp hpre
      cases x with
      | none =>
        show connSeq r (connect (bumpOnly s p r) none r) l
          = bumpOnly (connSeq r (connect s none r) l) p r
        rw [connect_none, connect_none]
        exact ihl s p ob hZ hp hpre
      | some o =>
        show connSeq r (connect (bumpOnly s p r) (some o) r) l
          = bumpOnly (connSeq r (connect s (some o) r) l) p r
        by_cases hop : o = p
        · subst hop
          have hbs : getObj (bumpOnly s o r) o
              = some { ob with tally := bumpTally ob.tally r } :=
            getObj_bumpOnly_self s o r ob hp
          have hbpre : lookupTally ({ ob with
              tally := bumpTally ob.tally r } : Obj).tally r ≠ 0 := by
            show lookupTally (bumpTally ob.tally r) r ≠ 0
            rw [lookupTally_bumpTally_self]
            omega
          rw [connect_marked s o r ob hp hpre,
              connect_marked (bumpOnly s o r) o r _ hbs hbpre]
          have hZ' : zeroCount (bumpOnly s o r).heap r ≤ n := by
            rw [zeroCount_bumpOnly_marked s o r ob hp hpre]
            exact hZ
          exact ihl (bumpOnly s o r) o _ hZ' hbs hbpre
        · have hgo : getObj (bumpOnly s p r) o = getObj s o :=
            getObj_bumpOnly_ne s p r hop
          cases hO : getObj s o with
          | none =>
            rw [connect_dead s o r hO, connect_dead _ o r (by rw [hgo]; exact hO)]
            exact ihl s p ob hZ hp hpre
          | some obO =>
            by_cases hTo : lookupTally obO.tally r = 0
            · have hZpos : 1 ≤ zeroCount s.heap r := zeroCount_pos s.heap o obO r hO hTo
              rw [connect_expand s o r obO hO hTo,
                  connect_expand (bumpOnly s p r) o r obO (by rw [hgo]; exact hO) hTo]
              rw [← connSeq_append, ← connSeq_append]
              rw [bumpState_bumpOnly_ne s p o r obO hop, ← bumpOnly_expState]
              have hZ1 : zeroCount (expState (bumpState s o obO r)).heap r + 1
                  = zeroCount s.heap r := zeroCount_expand s o obO r hO hTo
              have hp1 : getObj (expState (bumpState s o obO r)) p = some ob := by
                show lookupHeap (setHeap s.heap o _) p = some ob
                rw [lookupHeap_setHeap_ne _ _ (fun h => hop h.symm)]
                exact hp
              exact ihn (zeroCount (expState (bumpState s o obO r)).heap r) (by omega)
                (trackedTargets obO.fields ++ l) (expState (bumpState s o obO r)) p ob
                Nat.le.refl hp1 hpre
            · rw [connect_marked s o r obO hO hTo,
                  connect_marked (bumpOnly s p r) o r obO (by rw [hgo]; exact hO) hTo]
              rw [bumpOnly_comm s p o r]
              have hZ' : zeroCount (bumpOnly s o r).heap r ≤ n := by
                rw [zeroCount_bumpOnly_marked s o r obO hO hTo]
                exact hZ
              have hp' : getObj (bumpOnly s o r) p = some ob := by
                rw [getObj_bumpOnly_ne s o r (fun h => hop h.symm)]
                exact hp
              exact ihl (bumpOnly s o r) p ob hZ' hp' hpre

theorem connSeq_cons (r : RootId) (s : State) (x : Option ObjId) (l : List (Option ObjId)) :
    connSeq r s (x :: l) = connSeq r (connect s x r) l := rfl

theorem connect_dead_pres (s : State) (x : Option ObjId) (r : RootId) (y : ObjId)
    (h : getObj s y = none) : getObj (connect s x r) y = none := by
  obtain ⟨-, -, hkeys, -, -, -⟩ := connect_effect s x r
  show lookupHeap (connect s x r).heap y = none
  rw [lookupHeap_eq_none_iff, hkeys, ← lookupHeap_eq_none_iff]
  exact h

theorem expBump_comm (s : State) (p q : ObjId) (r : RootId) (obp obq : Obj)
    (hpq : p ≠ q) :
    expState (bumpState (expState (bumpState s p obp r)) q obq r)
      = expState (bumpState (expState (bumpState s q obq r)) p obp r) := by
  refine State.ext ?_ rfl rfl rfl
  show setHeap (setHeap s.heap p _) q _ = setHeap (setHeap s.heap q _) p _
  exact setHeap_setHeap_ne s.heap _ _ hpq

theorem connSeq_comm_perm (r : RootId) : ∀ n,
    (∀ s (a b : Option ObjId), zeroCount s.heap r ≤ n →
      connect (connect s a r) b r = connect (connect s b r) a r) ∧
    (∀ (l l' : List (Option ObjId)), l.Perm l' → ∀ s, zeroCount s.heap r ≤ n →
      connSeq r s l = connSeq r s l') := by
  intro n
  induction n using Nat.strong_induction_on with
  | _ n ihn =>
    have hCOMM : ∀ s (a b : Option ObjId), zeroCount s.heap r ≤ n →
        connect (connect s a r) b r = connect (connect s b r) a r := by
      intro s a b hZ
      cases a with
      | none => rw [connect_none, connect_none]
      | some oa =>
        cases b with
        | none => rw [connect_none, connect_none]
        | some obI =>
          by_cases hab : oa = obI
          · rw [hab]
          · cases hA : getObj s oa with
            | none =>
              rw [connect_dead s oa r hA,
                connect_dead _ oa r (connect_dead_pres s (some obI) r oa hA)]
            | some obA =>
              cases hB : getObj s obI with
              | none =>
                rw [connect_dead s obI r hB,
                  connect_dead _ obI r (connect_dead_pres s (some oa) r obI hB)]
              | some obB =>
                by_cases hTA : lookupTally obA.tally r = 0
                · by_cases hTB : lookupTally obB.tally r = 0
                  · -- both expandable
                    have hZposA : 1 ≤ zeroCount s.heap r :=
                      zeroCount_pos s.heap oa obA r hA hTA
                    have hB_Sa : getObj (expState (bumpState s oa obA r)) obI
                        = some obB := by
                      show lookupHeap (setHeap s.heap oa _) obI = some obB
                      rw [lookupHeap_setHeap_ne _ _ (fun h => hab h.symm)]
                      exact hB
                    have hA_Sb : getObj (expState (bumpState s obI obB r)) oa
                        = some obA := by
                      show lookupHeap (setHeap s.heap obI _) oa = some obA
                      rw [lookupHeap_setHeap_ne _ _ hab]
                      exact hA
                    have hZSa : zeroCount (expState (bumpState s oa obA r)).heap r + 1
                        = zeroCount s.heap r := zeroCount_expand s oa obA r hA hTA
                    have hZSb : zeroCount (expState (bumpState s obI obB r)).heap r + 1
                        = zeroCount s.heap r := zeroCount_expand s obI obB r hB hTB
                    have hZSba : zeroCount (expState (bumpState (expState
                        (bumpState s obI obB r)) oa obA r)).heap r + 1
                        = zeroCount (expState (bumpState s obI obB r)).heap r :=
                      zeroCount_expand _ oa obA r hA_Sb hTA
                    have hPERM := (ihn (zeroCount s.heap r - 1) (by omega)).2
                    show connSeq r (connect s (some oa) r) [some obI]
                      = connSeq r (connect s (some obI) r) [some oa]
                    rw [connect_expand s oa r obA hA hTA,
                        connect_expand s obI r obB hB hTB]
                    rw [← connSeq_append, ← connSeq_append]
                    rw [hPERM (trackedTargets obA.fields ++ [some obI])
                        (some obI :: trackedTargets obA.fields)
                        (List.perm_append_singleton _ _) _ (by omega)]
                    rw [hPERM (trackedTargets obB.fields ++ [some oa])
                        (some oa :: trackedTargets obB.fields)
                        (List.perm_append_singleton _ _) _ (by omega)]
                    rw [connSeq_cons, connSeq_cons]
                    rw [connect_expand _ obI r obB hB_Sa hTB,
                        connect_expand _ oa r obA hA_Sb hTA]
                    rw [← connSeq_append, ← connSeq_append]
                    rw [expBump_comm s oa obI r obA obB hab]
                    exact hPERM (trackedTargets obB.fields ++ trackedTargets obA.fields)
                      (trackedTargets obA.fields ++ trackedTargets obB.fields)
                      List.perm_append_comm _ (by omega)
                  · -- b marked
                    obtain ⟨-, -, -, -, -, hper⟩ := connect_effect s (some oa) r
                    obtain ⟨obB', hB', -, -, ht', -⟩ := hper obI obB hB
                    have hTB' : lookupTally obB'.tally r ≠ 0 := by
                      have := ht' r
                      omega
                    rw [connect_marked s obI r obB hB hTB,
                        connect_marked (connect s (some oa) r) obI r obB' hB' hTB']
                    exact (connSeq_bumpOnly_comm r n [some oa] s obI obB hZ hB hTB).symm
                · -- a marked
                  obtain ⟨-, -, -, -, -, hper⟩ := connect_effect s (some obI) r
                  obtain ⟨obA', hA', -, -, ht', -⟩ := hper oa obA hA
                  have hTA' : lookupTally obA'.tally r ≠ 0 := by
                    have := ht' r
                    omega
                  rw [connect_marked s oa r obA hA hTA,
                      connect_marked (connect s (some obI) r) oa r obA' hA' hTA']
                  exact connSeq_bumpOnly_comm r n [some obI] s oa obA hZ hA hTA
    refine ⟨hCOMM, ?_⟩
    intro l l' hperm
    induction hperm with
    | nil => intro s _; rfl
    | cons x hp ih =>
      intro s hZ
      show connSeq r (connect s x r) _ = connSeq r (connect s x r) _
      exact ih (connect s x r) ((connect_Z_le s x r).trans hZ)
    | swap x y l =>
      intro s hZ
      show connSeq r (connect (connect s y r) x r) l
        = connSeq r (connect (connect s x r) y r) l
      rw [hCOMM s y x hZ]
    | trans h₁ h₂ ih₁ ih₂ =>
      intro s hZ
      exact (ih₁ s hZ).trans (ih₂ s hZ)

theorem trackedTargets_perm {fs fs' : List Field} (h : fs'.Perm fs) :
    (trackedTargets fs').Perm (trackedTargets fs) := by
  induction h with
  | nil => exact List.Perm.refl _
  | cons x h ih =>
    cases x with
    | tracked t => exact List.Perm.cons t ih
    | raw t => exact ih
    | plain => exact ih
  | swap x y l =>
    cases x <;> cases y <;> first
      | exact List.Perm.refl _
      | exact List.Perm.swap _ _ _
  | trans h₁ h₂ ih₁ ih₂ => exact ih₁.trans ih₂

theorem heapPermAt_lookup_ne {h h' : List (ObjId × Obj)} {o : ObjId}
    {fs' : List Field} (hp : heapPermAt h h' o fs') {p : ObjId} (hpo : p ≠ o) :
    lookupHeap h' p = lookupHeap h p := by
  obtain ⟨ob, hob, hperm, heq⟩ := hp
  rw [heq, lookupHeap_setHeap_ne _ _ hpo]

theorem heapPermAt_lookup_self {h h' : List (ObjId × Obj)} {o : ObjId}
    {fs' : List Field} (hp : heapPermAt h h' o fs') :
    ∃ ob, lookupHeap h o = some ob ∧ fs'.Perm ob.fields ∧
      lookupHeap h' o = some { ob with fields := fs' } := by
  obtain ⟨ob, hob, hperm, heq⟩ := hp
  refine ⟨ob, hob, hperm, ?_⟩
  rw [heq]
  exact lookupHeap_setHeap_self h _ ob hob

theorem heapPermAt_keys {h h' : List (ObjId × Obj)} {o : ObjId}
    {fs' : List Field} (hp : heapPermAt h h' o fs') : heapKeys h' = heapKeys h := by
  obtain ⟨ob, hob, -, heq⟩ := hp
  rw [heq, heapKeys_setHeap]

theorem heapPermAt_zeroCount {h h' : List (ObjId × Obj)} {o : ObjId}
    {fs' : List Field} (hp : heapPermAt h h' o fs') (r : RootId) :
    zeroCount h' r = zeroCount h r := by
  obtain ⟨ob, hob, -, heq⟩ := hp
  have hz := zeroCount_setHeap h { ob with fields := fs' } r hob
  have hind : lookupTally (Obj.tally { ob with fields := fs' }) r
      = lookupTally ob.tally r := rfl
  rw [hind] at hz
  rw [heq]
  omega

theorem heapPermAt_posCount {h h' : List (ObjId × Obj)} {o : ObjId}
    {fs' : List Field} (hp : heapPermAt h h' o fs') (r : RootId) :
    posCount h' r = posCount h r := by
  obtain ⟨ob, hob, -, heq⟩ := hp
  have hz := posCount_setHeap h { ob with fields := fs' } r hob
  have hind : lookupTally (Obj.tally { ob with fields := fs' }) r
      = lookupTally ob.tally r := rfl
  rw [hind] at hz
  rw [heq]
  omega

theorem heapPermAt_set_ne {h h' : List (ObjId × Obj)} {o : ObjId}
    {fs' : List Field} (hp : heapPermAt h h' o fs') {p : ObjId} (hpo : p ≠ o)
    (v : Obj) : heapPermAt (setHeap h p v) (setHeap h' p v) o fs' := by
  obtain ⟨ob, hob, hperm, heq⟩ := hp
  refine ⟨ob, ?_, hperm, ?_⟩
  · rw [lookupHeap_setHeap_ne _ _ (fun hh => hpo hh.symm)]
    exact hob
  · rw [heq]
    exact setHeap_setHeap_ne h _ _ (fun hh => hpo hh.symm)

theorem heapPermAt_set_self {h h' : List (ObjId × Obj)} {o : ObjId}
    {fs' : List Field} (hp : heapPermAt h h' o fs') (ob : Obj)
    (hob : lookupHeap h o = some ob) (st : Nat) (t : List (RootId × Nat)) :
    heapPermAt (setHeap h o (Obj.mk st t ob.fields))
      (setHeap h' o (Obj.mk st t fs')) o fs' := by
  obtain ⟨ob₀, hob₀, hperm, heq⟩ := hp
  have hoo : ob₀ = ob := Option.some.inj (hob₀.symm.trans hob)
  subst hoo
  refine ⟨Obj.mk st t ob₀.fields, lookupHeap_setHeap_self h _ ob₀ hob₀, hperm, ?_⟩
  rw [heq, setHeap_setHeap_same, setHeap_setHeap_same]

/-- Descriptor-permutation simulation, connect side: if two states differ
only in that object `o` carries a permuted field list, then any connect
call, and any connect worklist, preserves that relation. -/
theorem connRel_connect (o : ObjId) (fs' : List Field) (r : RootId) : ∀ n,
    (∀ s s' (x : Option ObjId), ConnRel o fs' s s' → zeroCount s.heap r ≤ n →
      ConnRel o fs' (connect s x r) (connect s' x r)) ∧
    (∀ (l : List (Option ObjId)) s s', ConnRel o fs' s s' →
      zeroCount s.heap r ≤ n →
      ConnRel o fs' (connSeq r s l) (connSeq r s' l)) := by
  intro n
  induction n using Nat.strong_induction_on with
  | _ n ihn =>
    have hC : ∀ s s' (x : Option ObjId), ConnRel o fs' s s' →
        zeroCount s.heap r ≤ n →
        ConnRel o fs' (connect s x r) (connect s' x r) := by
      intro s s' x hrel hZ
      obtain ⟨hfr, hca, hex, hhp⟩ := hrel
      cases x with
      | none =>
        rw [connect_none, connect_none]
        exact ⟨hfr, hca, hex, hhp⟩
      | some p =>
        by_cases hpo : p = o
        · subst hpo
          obtain ⟨ob, hob, hperm, hlk'⟩ := heapPermAt_lookup_self hhp
          by_cases hT : lookupTally ob.tally r = 0
          · rw [connect_expand s p r ob hob hT,
                connect_expand s' p r { ob with fields := fs' } hlk' hT]
            have hstep :
                connSeq r (expState (bumpState s' p { ob with fields := fs' } r))
                  (trackedTargets (Obj.fields { ob with fields := fs' }))
                = connSeq r (expState (bumpState s' p { ob with fields := fs' } r))
                  (trackedTargets ob.fields) :=
              (connSeq_comm_perm r (zeroCount (expState
                  (bumpState s' p { ob with fields := fs' } r)).heap r)).2
                _ _ (trackedTargets_perm hperm) _ le_rfl
            rw [hstep]
            have hrel₁ : ConnRel p fs' (expState (bumpState s p ob r))
                (expState (bumpState s' p { ob with fields := fs' } r)) := by
              refine ⟨hfr, hca, ?_, ?_⟩
              · show s'.expansions + 1 = s.expansions + 1
                rw [hex]
              · show heapPermAt (setHeap s.heap p _) (setHeap s'.heap p _) p fs'
                exact heapPermAt_set_self hhp ob hob ob.strong
                  (bumpTally ob.tally r)
            have hZ1 := zeroCount_expand s p ob r hob hT
            have hn1 : 1 ≤ n := le_trans (zeroCount_pos s.heap p ob r hob hT) hZ
            exact (ihn (n - 1) (by omega)).2 _ _ _ hrel₁ (by omega)
          · rw [connect_marked s p r ob hob hT,
                connect_marked s' p r { ob with fields := fs' } hlk' hT,
                bumpOnly_of_some s p r ob hob,
                bumpOnly_of_some s' p r { ob with fields := fs' } hlk']
            refine ⟨hfr, hca, hex, ?_⟩
            show heapPermAt (setHeap s.heap p _) (setHeap s'.heap p _) p fs'
            exact heapPermAt_set_self hhp ob hob ob.strong (bumpTally ob.tally r)
        · have hlk : lookupHeap s'.heap p = lookupHeap s.heap p :=
            heapPermAt_lookup_ne hhp hpo
          cases hob : getObj s p with
          | none =>
            have hob' : getObj s' p = none := by
              show lookupHeap s'.heap p = none
              rw [hlk]
              exact hob
            rw [connect_dead s p r hob, connect_dead s' p r hob']
            exact ⟨hfr, hca, hex, hhp⟩
          | some obp =>
            have hob' : getObj s' p = some obp := by
              show lookupHeap s'.heap p = some obp
              rw [hlk]
              exact hob
            by_cases hT : lookupTally obp.tally r = 0
            · rw [connect_expand s p r obp hob hT,
                  connect_expand s' p r obp hob' hT]
              have hrel₁ : ConnRel o fs' (expState (bumpState s p obp r))
                  (expState (bumpState s' p obp r)) := by
                refine ⟨hfr, hca, ?_, ?_⟩
                · show s'.expansions + 1 = s.expansions + 1
                  rw [hex]
                · show heapPermAt (setHeap s.heap p _) (setHeap s'.heap p _) o fs'
                  exact heapPermAt_set_ne hhp hpo _
              have hZ1 := zeroCount_expand s p obp r hob hT
              have hn1 : 1 ≤ n :=
                le_trans (zeroCount_pos s.heap p obp r hob hT) hZ
              exact (ihn (n - 1) (by omega)).2 _ _ _ hrel₁ (by omega)
            · rw [connect_marked s p r obp hob hT,
                  connect_marked s' p r obp hob' hT,
                  bumpOnly_of_some s p r obp hob,
                  bumpOnly_of_some s' p r obp hob']
              exact ⟨hfr, hca, hex, heapPermAt_set_ne hhp hpo _⟩
    refine ⟨hC, ?_⟩
    intro l
    induction l with
    | nil => intro s s' hrel _; exact hrel
    | cons x l ih =>
      intro s s' hrel hZ
      show ConnRel o fs' (connSeq r (connect s x r) l)
        (connSeq r (connect s' x r) l)
      exact ih _ _ (hC s s' x hrel hZ) ((connect_Z_le s x r).trans hZ)

theorem posCount_collapse (s : State) (o : ObjId) (ob : Obj) (b : Bool) (r : RootId)
    (hob : getObj s o = some ob) (hpre : lookupTally ob.tally r ≠ 0) :
    posCount (dropState (logState s o b r) o ob r 0).heap r + 1
      = posCount s.heap r := by
  have hz := posCount_setHeap s.heap { ob with tally := setTally ob.tally r 0 } r hob
  have hind : lookupTally (Obj.tally { ob with tally := setTally ob.tally r 0 }) r
      = 0 := by
    show lookupTally (setTally ob.tally r 0) r = 0
    exact lookupTally_setTally_self _ _ _
  rw [hind, if_neg hpre, if_pos rfl] at hz
  show posCount (setHeap s.heap o { ob with tally := setTally ob.tally r 0 }) r + 1
    = posCount s.heap r
  omega

theorem disconnectFuel_eq_aux : ∀ f, (∀ g s (o : Option ObjId) b r,
      posCount s.heap r + 1 ≤ f → posCount s.heap r + 1 ≤ g →
      disconnectFuel f s o b r = disconnectFuel g s o b r) ∧
    (∀ g s fs r, posCount s.heap r + 1 ≤ f → posCount s.heap r + 1 ≤ g →
      disconnectFields (disconnectFuel f) s fs r
        = disconnectFields (disconnectFuel g) s fs r) := by
  intro f
  induction f with
  | zero =>
    exact ⟨fun g s o b r h _ => absurd h (by omega),
      fun g s fs r h _ => absurd h (by omega)⟩
  | succ f ih =>
    have hFP : ∀ g s (o : Option ObjId) b r, posCount s.heap r + 1 ≤ f + 1 →
        posCount s.heap r + 1 ≤ g →
        disconnectFuel (f + 1) s o b r = disconnectFuel g s o b r := by
      intro g s o b r hf hg
      cases o with
      | none => rw [disconnectFuel_none, disconnectFuel_none]
      | some o =>
        obtain ⟨g', rfl⟩ : ∃ g', g = g' + 1 := ⟨g - 1, by omega⟩
        rw [disconnectFuel_succ, disconnectFuel_succ]
        cases hob : getObj s o with
        | none => rfl
        | some ob =>
          simp only
          by_cases hpre : lookupTally ob.tally r = 0
          · rw [if_pos hpre, if_pos hpre]
          · by_cases hv : dropVal b (lookupTally ob.tally r) = 0
            · have hpc : posCount (dropState (logState s o b r) o ob r
                  (dropVal b (lookupTally ob.tally r))).heap r + 1
                  = posCount s.heap r := by
                rw [hv]
                exact posCount_collapse s o ob b r hob hpre
              have hfields : disconnectFields (disconnectFuel f)
                    (dropState (logState s o b r) o ob r
                      (dropVal b (lookupTally ob.tally r))) ob.fields r
                  = disconnectFields (disconnectFuel g')
                    (dropState (logState s o b r) o ob r
                      (dropVal b (lookupTally ob.tally r))) ob.fields r :=
                ih.2 g' _ ob.fields r (by omega) (by omega)
              rw [if_neg hpre, if_neg hpre, if_pos hv, if_pos hv, hfields]
            · rw [if_neg hpre, if_neg hpre, if_neg hv, if_neg hv]
    refine ⟨hFP, ?_⟩
    intro g s fs r
    induction fs generalizing s with
    | nil => intro _ _; rfl
    | cons fd fs ihl =>
      intro hf hg
      cases fd with
      | tracked t =>
        have hhead := hFP g s t false r hf hg
        show disconnectFields (disconnectFuel (f + 1))
            (disconnectFuel (f + 1) s t false r) fs r
          = disconnectFields (disconnectFuel g) (disconnectFuel g s t false r) fs r
        rw [← hhead]
        have hP : posCount (disconnectFuel (f + 1) s t false r).heap r
            ≤ posCount s.heap r :=
          (disconnectFuel_effect (f + 1) s t false r).2.2.2.1
        exact ihl (disconnectFuel (f + 1) s t false r) (by omega) (by omega)
      | raw t => exact ihl s hf hg
      | plain => exact ihl s hf hg

theorem disconnectFuel_eq_disconnect (f : Nat) (s : State) (o : Option ObjId)
    (b : Bool) (r : RootId) (h : posCount s.heap r + 1 ≤ f) :
    disconnectFuel f s o b r = disconnect s o b r :=
  (disconnectFuel_eq_aux f).1 (posCount s.heap r + 1) s o b r h Nat.le.refl

theorem disconnect_effect (s : State) (o : Option ObjId) (b : Bool) (r : RootId) :
    DiscEffect s (disconnect s o b r) r :=
  disconnectFuel_effect _ s o b r

theorem disconnect_P_le (s : State) (o : Option ObjId) (b : Bool) (r : RootId) :
    posCount (disconnect s o b r).heap r ≤ posCount s.heap r :=
  (disconnect_effect s o b r).2.2.2.1

theorem discSeq_P_le (r : RootId) : ∀ l s,
    posCount (discSeq r s l).heap r ≤ posCount s.heap r := by
  intro l
  induction l with
  | nil => exact fun s => Nat.le.refl
  | cons x l ih =>
    intro s
    exact (ih (disconnect s x false r)).trans (disconnect_P_le s x false r)

theorem disc_none (s : State) (b : Bool) (r : RootId) : disconnect s none b r = s :=
  disconnectFuel_none _ s b r

theorem disc_dead (s : State) (o : ObjId) (b : Bool) (r : RootId)
    (hob : getObj s o = none) : disconnect s (some o) b r = logState s o b r :=
  disconnectFuel_succ_none _ s o b r hob

theorem disc_absorb (s : State) (o : ObjId) (b : Bool) (r : RootId) (ob : Obj)
    (hob : getObj s o = some ob) (hpre : lookupTally ob.tally r = 0) :
    disconnect s (some o) b r = logState s o b r := by
  rw [show disconnect s (some o) b r
      = disconnectFuel (posCount s.heap r + 1) s (some o) b r from rfl,
    disconnectFuel_succ_some _ s o b r ob hob, if_pos hpre]

theorem disc_drop (s : State) (o : ObjId) (b : Bool) (r : RootId) (ob : Obj)
    (hob : getObj s o = some ob) (hpre : lookupTally ob.tally r ≠ 0)
    (hv : dropVal b (lookupTally ob.tally r) ≠ 0) :
    disconnect s (some o) b r
      = dropState (logState s o b r) o ob r (dropVal b (lookupTally ob.tally r)) := by
  have hnt : setTally ob.tally r (dropVal b (lookupTally ob.tally r)) ≠ [] :=
    fun hc => hv ((setTally_eq_nil_iff _ _ _).mp hc).2
  rw [show disconnect s (some o) b r
      = disconnectFuel (posCount s.heap r + 1) s (some o) b r from rfl,
    disconnectFuel_succ_some _ s o b r ob hob, if_neg hpre, if_neg hnt, if_neg hv]

theorem disconnectFields_eq_discSeq (r : RootId) : ∀ fs f s,
    posCount s.heap r + 1 ≤ f →
    disconnectFields (disconnectFuel f) s fs r = discSeq r s (trackedTargets fs) := by
  intro fs
  induction fs with
  | nil => intro f s _; rfl
  | cons fd fs ih =>
    intro f s hf
    cases fd with
    | tracked t =>
      have hhead : disconnectFuel f s t false r = disconnect s t false r :=
        disconnectFuel_eq_disconnect f s t false r hf
      show disconnectFields (disconnectFuel f) (disconnectFuel f s t false r) fs r
        = discSeq r (disconnect s t false r) (trackedTargets fs)
      rw [hhead]
      exact ih f (disconnect s t false r)
        ((Nat.add_le_add_right (disconnect_P_le s t false r) 1).trans hf)
    | raw t => exact ih f s hf
    | plain => exact ih f s hf

theorem discSeq_frame_zero (r : RootId) : ∀ l s x ob,
    lookupHeap s.heap x = some ob → lookupTally ob.tally r = 0 →
    lookupHeap (discSeq r s l).heap x = some ob := by
  intro l
  induction l with
  | nil => exact fun s x ob hx _ => hx
  | cons y l ih =>
    intro s x ob hx h0
    exact ih (disconnect s y false r) x ob
      (disconnect_frame_zero _ s y false r x ob hx h0).1 h0

theorem disc_collapse (s : State) (o : ObjId) (r : RootId) (ob : Obj)
    (hob : getObj s o = some ob) (hpre : lookupTally ob.tally r ≠ 0)
    (hv : dropVal false (lookupTally ob.tally r) = 0) :
    disconnect s (some o) false r
      = checkState (discSeq r (dropState (logState s o false r) o ob r 0)
          (trackedTargets ob.fields)) o := by
  have hpc : posCount (dropState (logState s o false r) o ob r 0).heap r + 1
      = posCount s.heap r := posCount_collapse s o ob false r hob hpre
  have hfields : disconnectFields (disconnectFuel (posCount s.heap r))
        (dropState (logState s o false r) o ob r 0) ob.fields r
      = discSeq r (dropState (logState s o false r) o ob r 0)
        (trackedTargets ob.fields) :=
    disconnectFields_eq_discSeq r ob.fields _ _ (by omega)
  have hs1 : lookupHeap (dropState (logState s o false r) o ob r 0).heap o
      = some { ob with tally := setTally ob.tally r 0 } := by
    rw [dropState_heap]
    exact lookupHeap_setHeap_self _ _ ob hob
  have hz0 : lookupTally (Obj.tally { ob with tally := setTally ob.tally r 0 }) r
      = 0 := by
    show lookupTally (setTally ob.tally r 0) r = 0
    exact lookupTally_setTally_self _ _ _
  have hs2 : lookupHeap (discSeq r (dropState (logState s o false r) o ob r 0)
        (trackedTargets ob.fields)).heap o
      = some { ob with tally := setTally ob.tally r 0 } :=
    discSeq_frame_zero r (trackedTargets ob.fields) _ o _ hs1 hz0
  rw [show disconnect s (some o) false r
      = disconnectFuel (posCount s.heap r + 1) s (some o) false r from rfl,
    disconnectFuel_succ_some _ s o false r ob hob, if_neg hpre, if_pos hv, hv,
    hfields]
  unfold checkState
  rw [show getObj (discSeq r (dropState (logState s o false r) o ob r 0)
      (trackedTargets ob.fields)) o
      = some { ob with tally := setTally ob.tally r 0 } from hs2]

theorem heapW_setHeap (h : List (ObjId × Obj)) {o : ObjId} {ob : Obj} (ob' : Obj)
    (r : RootId) (hp : lookupHeap h o = some ob) :
    heapW (setHeap h o ob') r
        + (if lookupTally ob.tally r = 0 then 0
           else (trackedTargets ob.fields).length + 1)
      = heapW h r
        + (if lookupTally ob'.tally r = 0 then 0
           else (trackedTargets ob'.fields).length + 1) := by
  induction h with
  | nil => simp [lookupHeap] at hp
  | cons e h ih =>
    by_cases he : e.1 = o
    · simp only [lookupHeap, if_pos he] at hp
      cases hp
      simp only [setHeap, if_pos he, heapW]
      omega
    · simp only [lookupHeap, if_neg he] at hp
      simp only [setHeap, if_neg he, heapW]
      have := ih hp
      omega

theorem heapW_eraseHeap (h : List (ObjId × Obj)) {o : ObjId} {ob : Obj}
    (r : RootId) (hp : lookupHeap h o = some ob) :
    heapW (eraseHeap h o) r
        + (if lookupTally ob.tally r = 0 then 0
           else (trackedTargets ob.fields).length + 1)
      = heapW h r := by
  induction h with
  | nil => simp [lookupHeap] at hp
  | cons e h ih =>
    by_cases he : e.1 = o
    · simp only [lookupHeap, if_pos he] at hp
      cases hp
      simp only [eraseHeap, if_pos he, heapW]
      omega
    · simp only [lookupHeap, if_neg he] at hp
      simp only [eraseHeap, if_neg he, heapW]
      have := ih hp
      omega

theorem step1_check (r : RootId) (s : State) (o : ObjId) :
    step1 r s (Instr.check o) = (checkState s o, []) := rfl

theorem step1_callNone (r : RootId) (s : State) :
    step1 r s (Instr.call none) = (s, []) := rfl

theorem step1_callSome (r : RootId) (s : State) (o : ObjId) :
    step1 r s (Instr.call (some o)) =
      match getObj s o with
      | none => (logState s o false r, [])
      | some ob =>
        if lookupTally ob.tally r = 0 then (logState s o false r, [])
        else
          if lookupTally ob.tally r - 1 = 0 then
            (dropState (logState s o false r) o ob r (lookupTally ob.tally r - 1),
              (trackedTargets ob.fields).map Instr.call ++ [Instr.check o])
          else
            (dropState (logState s o false r) o ob r (lookupTally ob.tally r - 1),
              []) := rfl

theorem step1_dead (r : RootId) (s : State) (o : ObjId)
    (hob : getObj s o = none) :
    step1 r s (Instr.call (some o)) = (logState s o false r, []) := by
  rw [step1_callSome, hob]

theorem step1_absorb (r : RootId) (s : State) (o : ObjId) (ob : Obj)
    (hob : getObj s o = some ob) (hpre : lookupTally ob.tally r = 0) :
    step1 r s (Instr.call (some o)) = (logState s o false r, []) := by
  rw [step1_callSome, hob]
  simp only
  rw [if_pos hpre]

theorem step1_drop (r : RootId) (s : State) (o : ObjId) (ob : Obj)
    (hob : getObj s o = some ob) (hpre : lookupTally ob.tally r ≠ 0)
    (hv : lookupTally ob.tally r - 1 ≠ 0) :
    step1 r s (Instr.call (some o))
      = (dropState (logState s o false r) o ob r (lookupTally ob.tally r - 1),
        []) := by
  rw [step1_callSome, hob]
  simp only
  rw [if_neg hpre, if_neg hv]

theorem step1_collapse (r : RootId) (s : State) (o : ObjId) (ob : Obj)
    (hob : getObj s o = some ob) (hpre : lookupTally ob.tally r ≠ 0)
    (hv : lookupTally ob.tally r - 1 = 0) :
    step1 r s (Instr.call (some o))
      = (dropState (logState s o false r) o ob r (lookupTally ob.tally r - 1),
        (trackedTargets ob.fields).map Instr.call ++ [Instr.check o]) := by
  rw [step1_callSome, hob]
  simp only
  rw [if_neg hpre, if_pos hv]

theorem checkState_of_dead (s : State) (o : ObjId) (hob : getObj s o = none) :
    checkState s o = s := by
  unfold checkState
  rw [hob]

theorem checkState_of_live (s : State) (o : ObjId) (ob : Obj)
    (hob : getObj s o = some ob) (hnt : ob.tally ≠ []) : checkState s o = s := by
  unfold checkState
  rw [hob]
  simp only
  rw [if_neg hnt]

theorem checkState_of_empty (s : State) (o : ObjId) (ob : Obj)
    (hob : getObj s o = some ob) (hnt : ob.tally = []) :
    checkState s o = deallocObj s o := by
  unfold checkState
  rw [hob]
  simp only
  rw [if_pos hnt]

theorem heapW_checkState (r : RootId) (s : State) (o : ObjId) :
    heapW (checkState s o).heap r = heapW s.heap r := by
  cases hob : getObj s o with
  | none => rw [checkState_of_dead s o hob]
  | some ob =>
    by_cases hnt : ob.tally = []
    · rw [checkState_of_empty s o ob hob hnt]
      have := heapW_eraseHeap s.heap r hob
      have h0 : lookupTally ob.tally r = 0 := by rw [hnt]; rfl
      rw [if_pos h0] at this
      show heapW (eraseHeap s.heap o) r = heapW s.heap r
      omega
    · rw [checkState_of_live s o ob hob hnt]

theorem Bmeas_step1 (r : RootId) (s : State) (x : Instr) (w : List Instr) :
    Bmeas r (step1 r s x).1 ((step1 r s x).2 ++ w) + 1 = Bmeas r s (x :: w) := by
  cases x with
  | check o =>
    rw [step1_check]
    show ([] ++ w : List Instr).length + heapW (checkState s o).heap r + 1
      = (Instr.check o :: w).length + heapW s.heap r
    rw [heapW_checkState]
    simp only [List.length_cons, List.nil_append]
    omega
  | call t =>
    cases t with
    | none =>
      rw [step1_callNone]
      show ([] ++ w : List Instr).length + heapW s.heap r + 1
        = (Instr.call none :: w).length + heapW s.heap r
      simp only [List.length_cons, List.nil_append]
      omega
    | some o =>
      cases hob : getObj s o with
      | none =>
        rw [step1_dead r s o hob]
        show ([] ++ w : List Instr).length + heapW (logState s o false r).heap r + 1
          = (Instr.call (some o) :: w).length + heapW s.heap r
        rw [logState_heap]
        simp only [List.length_cons, List.nil_append]
        omega
      | some ob =>
        by_cases hpre : lookupTally ob.tally r = 0
        · rw [step1_absorb r s o ob hob hpre]
          show ([] ++ w : List Instr).length + heapW (logState s o false r).heap r + 1
            = (Instr.call (some o) :: w).length + heapW s.heap r
          rw [logState_heap]
          simp only [List.length_cons, List.nil_append]
          omega
        · have hW := heapW_setHeap s.heap
            { ob with tally := setTally ob.tally r (lookupTally ob.tally r - 1) }
            r hob
          rw [if_neg hpre] at hW
          by_cases hv : lookupTally ob.tally r - 1 = 0
          · rw [step1_collapse r s o ob hob hpre hv]
            show ((trackedTargets ob.fields).map Instr.call
                  ++ [Instr.check o] ++ w).length
                + heapW (dropState (logState s o false r) o ob r
                    (lookupTally ob.tally r - 1)).heap r + 1
              = (Instr.call (some o) :: w).length + heapW s.heap r
            have hTnew : lookupTally (Obj.tally { ob with
                tally := setTally ob.tally r (lookupTally ob.tally r - 1) }) r
                = 0 := by
              show lookupTally (setTally ob.tally r (lookupTally ob.tally r - 1)) r
                = 0
              rw [lookupTally_setTally_self]
              exact hv
            rw [hTnew, if_pos rfl] at hW
            rw [dropState_heap, logState_heap]
            simp only [List.length_append, List.length_map, List.length_cons,
              List.length_nil]
            omega
          · rw [step1_drop r s o ob hob hpre hv]
            show ([] ++ w : List Instr).length
                + heapW (dropState (logState s o false r) o ob r
                    (lookupTally ob.tally r - 1)).heap r + 1
              = (Instr.call (some o) :: w).length + heapW s.heap r
            have hTnew : lookupTally (Obj.tally { ob with
                tally := setTally ob.tally r (lookupTally ob.tally r - 1) }) r
                ≠ 0 := by
              show lookupTally (setTally ob.tally r (lookupTally ob.tally r - 1)) r
                ≠ 0
              rw [lookupTally_setTally_self]
              exact hv
            rw [if_neg hTnew] at hW
            have hfe : trackedTargets (Obj.fields { ob with
                tally := setTally ob.tally r (lookupTally ob.tally r - 1) })
                = trackedTargets ob.fields := rfl
            rw [hfe] at hW
            rw [dropState_heap, logState_heap]
            simp only [List.length_cons, List.nil_append]
            omega

theorem step1_nodup (r : RootId) (s : State) (x : Instr)
    (hnd : (heapKeys s.heap).Nodup) : (heapKeys (step1 r s x).1.heap).Nodup := by
  cases x with
  | check o =>
    rw [step1_check]
    cases hob : getObj s o with
    | none =>
      rw [checkState_of_dead s o hob]
      exact hnd
    | some ob =>
      by_cases hnt : ob.tally = []
      · rw [checkState_of_empty s o ob hob hnt]
        show (heapKeys (eraseHeap s.heap o)).Nodup
        exact (heapKeys_eraseHeap_sublist s.heap o).nodup hnd
      · rw [checkState_of_live s o ob hob hnt]
        exact hnd
  | call t =>
    cases t with
    | none => exact hnd
    | some o =>
      cases hob : getObj s o with
      | none =>
        rw [step1_dead r s o hob]
        exact hnd
      | some ob =>
        by_cases hpre : lookupTally ob.tally r = 0
        · rw [step1_absorb r s o ob hob hpre]
          exact hnd
        · by_cases hv : lookupTally ob.tally r - 1 = 0
          · rw [step1_collapse r s o ob hob hpre hv]
            show (heapKeys (setHeap s.heap o _)).Nodup
            rw [heapKeys_setHeap]
            exact hnd
          · rw [step1_drop r s o ob hob hpre hv]
            show (heapKeys (setHeap s.heap o _)).Nodup
            rw [heapKeys_setHeap]
            exact hnd

theorem run_total (r : RootId) : ∀ n s w, Bmeas r s w ≤ n → ∃ t, Run r s w t := by
  intro n
  induction n using Nat.strong_induction_on with
  | _ n ihn =>
    intro s w hB
    cases w with
    | nil => exact ⟨s, Run.nil s⟩
    | cons x w =>
      have hstep := Bmeas_step1 r s x w
      obtain ⟨t, ht⟩ := ihn (n - 1) (by omega) (step1 r s x).1
        ((step1 r s x).2 ++ w) (by omega)
      exact ⟨t, Run.step s (x :: w) x w t (List.Perm.refl _) ht⟩

theorem execCode_append (r : RootId) : ∀ w₁ w₂ s,
    execCode r s (w₁ ++ w₂) = execCode r (execCode r s w₁) w₂ := by
  intro w₁
  induction w₁ with
  | nil => intro w₂ s; rfl
  | cons x w₁ ih =>
    intro w₂ s
    cases x with
    | call t => exact ih w₂ (disconnect s t false r)
    | check o => exact ih w₂ (checkState s o)

theorem execCode_calls (r : RootId) : ∀ l s,
    execCode r s (l.map Instr.call) = discSeq r s l := by
  intro l
  induction l with
  | nil => intro s; rfl
  | cons x l ih => intro s; exact ih (disconnect s x false r)

theorem run_execCode (r : RootId) : ∀ n s w, Bmeas r s w ≤ n →
    Run r s w (execCode r s w) := by
  intro n
  induction n using Nat.strong_induction_on with
  | _ n ihn =>
    intro s w hB
    cases w with
    | nil => exact Run.nil s
    | cons x w =>
      have hstep := Bmeas_step1 r s x w
      have hrec : Run r (step1 r s x).1 ((step1 r s x).2 ++ w)
          (execCode r (step1 r s x).1 ((step1 r s x).2 ++ w)) :=
        ihn (n - 1) (by omega) _ _ (by omega)
      have hEQ : execCode r s (x :: w)
          = execCode r (step1 r s x).1 ((step1 r s x).2 ++ w) := by
        cases x with
        | check o => rfl
        | call t =>
          cases t with
          | none =>
            show execCode r (disconnect s none false r) w
              = execCode r (step1 r s (Instr.call none)).1
                ((step1 r s (Instr.call none)).2 ++ w)
            rw [disc_none]
            rfl
          | some o =>
            cases hob : getObj s o with
            | none =>
              show execCode r (disconnect s (some o) false r) w
                = execCode r (step1 r s (Instr.call (some o))).1
                  ((step1 r s (Instr.call (some o))).2 ++ w)
              rw [disc_dead s o false r hob, step1_dead r s o hob]
              rfl
            | some ob =>
              by_cases hpre : lookupTally ob.tally r = 0
              · show execCode r (disconnect s (some o) false r) w
                  = execCode r (step1 r s (Instr.call (some o))).1
                    ((step1 r s (Instr.call (some o))).2 ++ w)
                rw [disc_absorb s o false r ob hob hpre,
                  step1_absorb r s o ob hob hpre]
                rfl
              · by_cases hv : lookupTally ob.tally r - 1 = 0
                · show execCode r (disconnect s (some o) false r) w
                    = execCode r (step1 r s (Instr.call (some o))).1
                      ((step1 r s (Instr.call (some o))).2 ++ w)
                  rw [disc_collapse s o r ob hob hpre hv,
                    step1_collapse r s o ob hob hpre hv]
                  rw [List.append_assoc, execCode_append r, execCode_calls r, hv]
                  rfl
                · show execCode r (disconnect s (some o) false r) w
                    = execCode r (step1 r s (Instr.call (some o))).1
                      ((step1 r s (Instr.call (some o))).2 ++ w)
                  rw [disc_drop s o false r ob hob hpre hv,
                    step1_drop r s o ob hob hpre hv]
                  rfl
      refine Run.step s (x :: w) x w (execCode r s (x :: w)) (List.Perm.refl _) ?_
      rw [hEQ]
      exact hrec

theorem run_discSeq (r : RootId) (l : List (Option ObjId)) (s : State) :
    Run r s (l.map Instr.call) (discSeq r s l) := by
  have h := run_execCode r (Bmeas r s (l.map Instr.call)) s
    (l.map Instr.call) Nat.le.refl
  rw [execCode_calls] at h
  exact h

theorem stepH_call_none (r : RootId) (h : List (ObjId × Obj)) :
    stepH r h (Instr.call none) = h := rfl

theorem stepH_call_dead (r : RootId) (h : List (ObjId × Obj)) {p : ObjId}
    (hl : lookupHeap h p = none) : stepH r h (Instr.call (some p)) = h := by
  simp [stepH, hl]

theorem stepH_call_absorb (r : RootId) (h : List (ObjId × Obj)) {p : ObjId}
    {ob : Obj} (hl : lookupHeap h p = some ob)
    (hpre : lookupTally ob.tally r = 0) :
    stepH r h (Instr.call (some p)) = h := by
  simp [stepH, hl, hpre]

theorem stepH_call_drop (r : RootId) (h : List (ObjId × Obj)) {p : ObjId}
    {ob : Obj} (hl : lookupHeap h p = some ob)
    (hpre : lookupTally ob.tally r ≠ 0) :
    stepH r h (Instr.call (some p)) = setHeap h p
      { ob with tally := setTally ob.tally r (lookupTally ob.tally r - 1) } := by
  simp [stepH, hl, hpre]

theorem stepH_check_dead (r : RootId) (h : List (ObjId × Obj)) {p : ObjId}
    (hl : lookupHeap h p = none) : stepH r h (Instr.check p) = h := by
  simp [stepH, hl]

theorem stepH_check_live (r : RootId) (h : List (ObjId × Obj)) {p : ObjId}
    {ob : Obj} (hl : lookupHeap h p = some ob) (hnt : ob.tally ≠ []) :
    stepH r h (Instr.check p) = h := by
  simp [stepH, hl, hnt]

theorem stepH_check_empty (r : RootId) (h : List (ObjId × Obj)) {p : ObjId}
    {ob : Obj} (hl : lookupHeap h p = some ob) (hnt : ob.tally = []) :
    stepH r h (Instr.check p) = eraseHeap h p := by
  simp [stepH, hl, hnt]

theorem stepF_call (r : RootId) (h : List (ObjId × Obj)) (t : Option ObjId) :
    stepF r h (Instr.call t) = [] := rfl

theorem stepF_check_dead (r : RootId) (h : List (ObjId × Obj)) {p : ObjId}
    (hl : lookupHeap h p = none) : stepF r h (Instr.check p) = [] := by
  simp [stepF, hl]

theorem stepF_check_live (r : RootId) (h : List (ObjId × Obj)) {p : ObjId}
    {ob : Obj} (hl : lookupHeap h p = some ob) (hnt : ob.tally ≠ []) :
    stepF r h (Instr.check p) = [] := by
  simp [stepF, hl, hnt]

theorem stepF_check_empty (r : RootId) (h : List (ObjId × Obj)) {p : ObjId}
    {ob : Obj} (hl : lookupHeap h p = some ob) (hnt : ob.tally = []) :
    stepF r h (Instr.check p) = [p] := by
  simp [stepF, hl, hnt]

theorem stepW_check (r : RootId) (h : List (ObjId × Obj)) (p : ObjId) :
    stepW r h (Instr.check p) = [] := rfl

theorem stepW_call_none (r : RootId) (h : List (ObjId × Obj)) :
    stepW r h (Instr.call none) = [] := rfl

theorem stepW_call_dead (r : RootId) (h : List (ObjId × Obj)) {p : ObjId}
    (hl : lookupHeap h p = none) : stepW r h (Instr.call (some p)) = [] := by
  simp [stepW, hl]

theorem stepW_call_absorb (r : RootId) (h : List (ObjId × Obj)) {p : ObjId}
    {ob : Obj} (hl : lookupHeap h p = some ob)
    (hpre : lookupTally ob.tally r = 0) :
    stepW r h (Instr.call (some p)) = [] := by
  simp [stepW, hl, hpre]

theorem stepW_call_drop (r : RootId) (h : List (ObjId × Obj)) {p : ObjId}
    {ob : Obj} (hl : lookupHeap h p = some ob)
    (hpre : lookupTally ob.tally r ≠ 0)
    (hv : lookupTally ob.tally r - 1 ≠ 0) :
    stepW r h (Instr.call (some p)) = [] := by
  simp [stepW, hl, hpre, hv]

theorem stepW_call_collapse (r : RootId) (h : List (ObjId × Obj)) {p : ObjId}
    {ob : Obj} (hl : lookupHeap h p = some ob)
    (hpre : lookupTally ob.tally r ≠ 0)
    (hv : lookupTally ob.tally r - 1 = 0) :
    stepW r h (Instr.call (some p))
      = (trackedTargets ob.fields).map Instr.call ++ [Instr.check p] := by
  simp [stepW, hl, hpre, hv]

theorem step1_decomp (r : RootId) (s : State) (x : Instr) :
    (step1 r s x).1.heap = stepH r s.heap x ∧
    (step1 r s x).1.freed = s.freed ++ stepF r s.heap x ∧
    (step1 r s x).1.expansions = s.expansions ∧
    (step1 r s x).2 = stepW r s.heap x := by
  cases x with
  | check o =>
    rw [step1_check]
    cases hob : getObj s o with
    | none =>
      rw [checkState_of_dead s o hob, stepH_check_dead r s.heap hob,
        stepF_check_dead r s.heap hob, stepW_check]
      exact ⟨rfl, by simp [dropState_freed, logState_freed], rfl, rfl⟩
    | some ob =>
      by_cases hnt : ob.tally = []
      · rw [checkState_of_empty s o ob hob hnt, stepH_check_empty r s.heap hob hnt,
          stepF_check_empty r s.heap hob hnt, stepW_check]
        exact ⟨rfl, rfl, rfl, rfl⟩
      · rw [checkState_of_live s o ob hob hnt, stepH_check_live r s.heap hob hnt,
          stepF_check_live r s.heap hob hnt, stepW_check]
        exact ⟨rfl, by simp [dropState_freed, logState_freed], rfl, rfl⟩
  | call t =>
    cases t with
    | none =>
      rw [step1_callNone, stepH_call_none, stepF_call, stepW_call_none]
      exact ⟨rfl, by simp [dropState_freed, logState_freed], rfl, rfl⟩
    | some o =>
      cases hob : getObj s o with
      | none =>
        rw [step1_dead r s o hob, stepH_call_dead r s.heap hob, stepF_call,
          stepW_call_dead r s.heap hob]
        exact ⟨rfl, by simp [dropState_freed, logState_freed], rfl, rfl⟩
      | some ob =>
        by_cases hpre : lookupTally ob.tally r = 0
        · rw [step1_absorb r s o ob hob hpre, stepH_call_absorb r s.heap hob hpre,
            stepF_call, stepW_call_absorb r s.heap hob hpre]
          exact ⟨rfl, by simp [dropState_freed, logState_freed], rfl, rfl⟩
        · by_cases hv : lookupTally ob.tally r - 1 = 0
          · rw [step1_collapse r s o ob hob hpre hv,
              stepH_call_drop r s.heap hob hpre, stepF_call,
              stepW_call_collapse r s.heap hob hpre hv]
            exact ⟨rfl, by simp [dropState_freed, logState_freed], rfl, rfl⟩
          · rw [step1_drop r s o ob hob hpre hv,
              stepH_call_drop r s.heap hob hpre, stepF_call,
              stepW_call_drop r s.heap hob hpre hv]
            exact ⟨rfl, by simp [dropState_freed, logState_freed], rfl, rfl⟩

theorem stepH_lookup_ne (r : RootId) (h : List (ObjId × Obj)) (x : Instr)
    (q : ObjId) (hq : instrTarget x ≠ some q) :
    lookupHeap (stepH r h x) q = lookupHeap h q := by
  cases x with
  | call t =>
    cases t with
    | none => rfl
    | some p =>
      have hpq : q ≠ p := fun hh => hq (by rw [hh]; rfl)
      cases hl : lookupHeap h p with
      | none => rw [stepH_call_dead r h hl]
      | some ob =>
        by_cases hpre : lookupTally ob.tally r = 0
        · rw [stepH_call_absorb r h hl hpre]
        · rw [stepH_call_drop r h hl hpre]
          exact lookupHeap_setHeap_ne h _ hpq
  | check p =>
    have hpq : q ≠ p := fun hh => hq (by rw [hh]; rfl)
    cases hl : lookupHeap h p with
    | none => rw [stepH_check_dead r h hl]
    | some ob =>
      by_cases hnt : ob.tally = []
      · rw [stepH_check_empty r h hl hnt]
        exact lookupHeap_eraseHeap_ne h hpq
      · rw [stepH_check_live r h hl hnt]

theorem stepH_pair (r : RootId) (h h' : List (ObjId × Obj)) (y : Instr)
    (q : ObjId) (ht : instrTarget y = some q)
    (hcong : lookupHeap h' q = lookupHeap h q) :
    (stepH r h' y = h' ∧ stepH r h y = h) ∨
    (∃ v, stepH r h' y = setHeap h' q v ∧ stepH r h y = setHeap h q v) ∨
    (stepH r h' y = eraseHeap h' q ∧ stepH r h y = eraseHeap h q) := by
  cases y with
  | call t =>
    cases t with
    | none => exact Option.noConfusion ht
    | some p =>
      obtain rfl : p = q := Option.some.inj ht
      cases hl : lookupHeap h p with
      | none =>
        exact Or.inl ⟨stepH_call_dead r h' (hcong.trans hl),
          stepH_call_dead r h hl⟩
      | some ob =>
        have hl' : lookupHeap h' p = some ob := hcong.trans hl
        by_cases hpre : lookupTally ob.tally r = 0
        · exact Or.inl ⟨stepH_call_absorb r h' hl' hpre,
            stepH_call_absorb r h hl hpre⟩
        · exact Or.inr (Or.inl ⟨_, stepH_call_drop r h' hl' hpre,
            stepH_call_drop r h hl hpre⟩)
  | check p =>
    obtain rfl : p = q := Option.some.inj ht
    cases hl : lookupHeap h p with
    | none =>
      exact Or.inl ⟨stepH_check_dead r h' (hcong.trans hl),
        stepH_check_dead r h hl⟩
    | some ob =>
      have hl' : lookupHeap h' p = some ob := hcong.trans hl
      by_cases hnt : ob.tally = []
      · exact Or.inr (Or.inr ⟨stepH_check_empty r h' hl' hnt,
          stepH_check_empty r h hl hnt⟩)
      · exact Or.inl ⟨stepH_check_live r h' hl' hnt,
          stepH_check_live r h hl hnt⟩

theorem stepW_congr (r : RootId) (h h' : List (ObjId × Obj)) (y : Instr)
    (hcong : ∀ q, instrTarget y = some q → lookupHeap h' q = lookupHeap h q) :
    stepW r h' y = stepW r h y := by
  cases y with
  | check p => rfl
  | call t =>
    cases t with
    | none => rfl
    | some p =>
      have hc := hcong p rfl
      cases hl : lookupHeap h p with
      | none => rw [stepW_call_dead r h' (hc.trans hl), stepW_call_dead r h hl]
      | some ob =>
        have hl' : lookupHeap h' p = some ob := hc.trans hl
        by_cases hpre : lookupTally ob.tally r = 0
        · rw [stepW_call_absorb r h' hl' hpre, stepW_call_absorb r h hl hpre]
        · by_cases hv : lookupTally ob.tally r - 1 = 0
          · rw [stepW_call_collapse r h' hl' hpre hv,
              stepW_call_collapse r h hl hpre hv]
          · rw [stepW_call_drop r h' hl' hpre hv, stepW_call_drop r h hl hpre hv]

theorem stepF_congr (r : RootId) (h h' : List (ObjId × Obj)) (y : Instr)
    (hcong : ∀ q, instrTarget y = some q → lookupHeap h' q = lookupHeap h q) :
    stepF r h' y = stepF r h y := by
  cases y with
  | call t => rfl
  | check p =>
    have hc := hcong p rfl
    cases hl : lookupHeap h p with
    | none => rw [stepF_check_dead r h' (hc.trans hl), stepF_check_dead r h hl]
    | some ob =>
      have hl' : lookupHeap h' p = some ob := hc.trans hl
      by_cases hnt : ob.tally = []
      · rw [stepF_check_empty r h' hl' hnt, stepF_check_empty r h hl hnt]
      · rw [stepF_check_live r h' hl' hnt, stepF_check_live r h hl hnt]

theorem stepH_call_id (r : RootId) (h : List (ObjId × Obj)) (p : ObjId)
    (hz : ∀ ob, lookupHeap h p = some ob → lookupTally ob.tally r = 0) :
    stepH r h (Instr.call (some p)) = h := by
  cases hl : lookupHeap h p with
  | none => exact stepH_call_dead r h hl
  | some ob => exact stepH_call_absorb r h hl (hz ob hl)

theorem stepW_call_id (r : RootId) (h : List (ObjId × Obj)) (p : ObjId)
    (hz : ∀ ob, lookupHeap h p = some ob → lookupTally ob.tally r = 0) :
    stepW r h (Instr.call (some p)) = [] := by
  cases hl : lookupHeap h p with
  | none => exact stepW_call_dead r h hl
  | some ob => exact stepW_call_absorb r h hl (hz ob hl)

theorem stepH_comm_ne (r : RootId) (h : List (ObjId × Obj)) (x y : Instr)
    (p q : ObjId) (htx : instrTarget x = some p) (hty : instrTarget y = some q)
    (hpq : p ≠ q) : stepH r (stepH r h x) y = stepH r (stepH r h y) x := by
  have hlx : lookupHeap (stepH r h x) q = lookupHeap h q :=
    stepH_lookup_ne r h x q (fun hh => hpq (Option.some.inj (htx.symm.trans hh)))
  have hly : lookupHeap (stepH r h y) p = lookupHeap h p :=
    stepH_lookup_ne r h y p
      (fun hh => hpq (Option.some.inj (hty.symm.trans hh)).symm)
  rcases stepH_pair r h (stepH r h x) y q hty hlx with
    ⟨e1, e2⟩ | ⟨v, e1, e2⟩ | ⟨e1, e2⟩ <;>
  rcases stepH_pair r h (stepH r h y) x p htx hly with
    ⟨f1, f2⟩ | ⟨u, f1, f2⟩ | ⟨f1, f2⟩
  · rw [e1, f2, f1, e2]
  · rw [e1, f2, f1, e2]
  · rw [e1, f2, f1, e2]
  · rw [e1, f2, f1, e2]
  · rw [e1, f2, f1, e2]
    exact setHeap_setHeap_ne h _ _ hpq
  · rw [e1, f2, f1, e2]
    exact (eraseHeap_setHeap_ne h _ hpq).symm
  · rw [e1, f2, f1, e2]
  · rw [e1, f2, f1, e2]
    exact eraseHeap_setHeap_ne h _ (fun hh => hpq hh.symm)
  · rw [e1, f2, f1, e2]
    exact eraseHeap_comm_ne h hpq

theorem stepH_comm (r : RootId) (h : List (ObjId × Obj)) (x y : Instr)
    (hnd : (heapKeys h).Nodup)
    (hzx : ∀ p, x = Instr.call (some p) → y = Instr.check p →
        ∀ ob, lookupHeap h p = some ob → lookupTally ob.tally r = 0)
    (hzy : ∀ p, y = Instr.call (some p) → x = Instr.check p →
        ∀ ob, lookupHeap h p = some ob → lookupTally ob.tally r = 0) :
    stepH r (stepH r h x) y = stepH r (stepH r h y) x := by
  by_cases hxy : x = y
  · rw [hxy]
  · cases x with
    | call tx =>
      cases tx with
      | none => rw [stepH_call_none, stepH_call_none]
      | some p =>
        cases y with
        | call ty =>
          cases ty with
          | none => rw [stepH_call_none, stepH_call_none]
          | some q =>
            have hpq : p ≠ q := fun hh => hxy (by rw [hh])
            exact stepH_comm_ne r h _ _ p q rfl rfl hpq
        | check q =>
          by_cases hpq : p = q
          · subst hpq
            have hid : stepH r h (Instr.call (some p)) = h :=
              stepH_call_id r h p (hzx p rfl rfl)
            rw [hid]
            cases hl : lookupHeap h p with
            | none =>
              rw [stepH_check_dead r h hl, hid]
            | some ob =>
              by_cases hnt : ob.tally = []
              · rw [stepH_check_empty r h hl hnt]
                rw [stepH_call_dead r _ (lookupHeap_eraseHeap_self h p hnd)]
              · rw [stepH_check_live r h hl hnt, hid]
          · exact stepH_comm_ne r h _ _ p q rfl rfl hpq
    | check p =>
      cases y with
      | call ty =>
        cases ty with
        | none => rw [stepH_call_none, stepH_call_none]
        | some q =>
          by_cases hpq : p = q
          · subst hpq
            have hid : stepH r h (Instr.call (some p)) = h :=
              stepH_call_id r h p (hzy p rfl rfl)
            rw [hid]
            cases hl : lookupHeap h p with
            | none =>
              rw [stepH_check_dead r h hl, hid]
            | some ob =>
              by_cases hnt : ob.tally = []
              · rw [stepH_check_empty r h hl hnt]
                rw [stepH_call_dead r _ (lookupHeap_eraseHeap_self h p hnd)]
              · rw [stepH_check_live r h hl hnt, hid]
          · exact stepH_comm_ne r h _ _ p q rfl rfl hpq
      | check q =>
        have hpq : p ≠ q := fun hh => hxy (by rw [hh])
        exact stepH_comm_ne r h _ _ p q rfl rfl hpq

theorem stepW_after (r : RootId) (h : List (ObjId × Obj)) (x y : Instr)
    (hnd : (heapKeys h).Nodup) (hxy : x ≠ y)
    (hzy : ∀ p, y = Instr.call (some p) → x = Instr.check p →
        ∀ ob, lookupHeap h p = some ob → lookupTally ob.tally r = 0) :
    stepW r (stepH r h x) y = stepW r h y := by
  cases y with
  | check q => rfl
  | call ty =>
    cases ty with
    | none => rfl
    | some q =>
      cases x with
      | call tx =>
        cases tx with
        | none => rw [stepH_call_none]
        | some p =>
          have hpq : p ≠ q := fun hh => hxy (by rw [hh])
          exact stepW_congr r h _ _ (fun z hz => stepH_lookup_ne r h _ z
            (fun hh => hpq (Option.some.inj (hh.trans hz.symm))))
      | check p =>
        by_cases hpq : p = q
        · subst hpq
          have hz := hzy p rfl rfl
          have h2 : stepW r h (Instr.call (some p)) = [] := stepW_call_id r h p hz
          rw [h2]
          cases hl : lookupHeap h p with
          | none =>
            rw [stepH_check_dead r h hl]
            exact stepW_call_dead r h hl
          | some ob =>
            by_cases hnt : ob.tally = []
            · rw [stepH_check_empty r h hl hnt]
              exact stepW_call_dead r _ (lookupHeap_eraseHeap_self h p hnd)
            · rw [stepH_check_live r h hl hnt]
              exact stepW_call_id r h p hz
        · exact stepW_congr r h _ _ (fun z hz => stepH_lookup_ne r h _ z
            (fun hh => hpq (Option.some.inj (hh.trans hz.symm))))

theorem stepF_after (r : RootId) (h : List (ObjId × Obj)) (x y : Instr)
    (hxy : x ≠ y)
    (hzx : ∀ p, x = Instr.call (some p) → y = Instr.check p →
        ∀ ob, lookupHeap h p = some ob → lookupTally ob.tally r = 0) :
    stepF r (stepH r h x) y = stepF r h y := by
  cases y with
  | call ty => rfl
  | check q =>
    cases x with
    | call tx =>
      cases tx with
      | none => rw [stepH_call_none]
      | some p =>
        by_cases hpq : p = q
        · subst hpq
          rw [stepH_call_id r h p (hzx p rfl rfl)]
        · exact stepF_congr r h _ _ (fun z hz => stepH_lookup_ne r h _ z
            (fun hh => hpq (Option.some.inj (hh.trans hz.symm))))
    | check p =>
      have hpq : p ≠ q := fun hh => hxy (by rw [hh])
      exact stepF_congr r h _ _ (fun z hz => stepH_lookup_ne r h _ z
        (fun hh => hpq (Option.some.inj (hh.trans hz.symm))))

theorem setHeap_self_id (h : List (ObjId × Obj)) (o : ObjId) {v : Obj}
    (hp : lookupHeap h o = some v) : setHeap h o v = h := by
  induction h with
  | nil => simp [lookupHeap] at hp
  | cons e h ih =>
    by_cases he : e.1 = o
    · simp only [lookupHeap, if_pos he] at hp
      obtain rfl : v = e.2 := (Option.some.inj hp).symm
      simp only [setHeap, if_pos he]
      rw [← he, Prod.mk.eta]
    · simp only [lookupHeap, if_neg he] at hp
      simp only [setHeap, if_neg he]
      rw [ih hp]

theorem heapPermAt_erase_ne {h h' : List (ObjId × Obj)} {o : ObjId}
    {fs' : List Field} (hp : heapPermAt h h' o fs') {p : ObjId} (hpo : p ≠ o) :
    heapPermAt (eraseHeap h p) (eraseHeap h' p) o fs' := by
  obtain ⟨ob, hob, hperm, heq⟩ := hp
  refine ⟨ob, ?_, hperm, ?_⟩
  · rw [lookupHeap_eraseHeap_ne h (fun hh => hpo hh.symm)]
    exact hob
  · rw [heq, eraseHeap_setHeap_ne h _ hpo]

theorem heapPermAt_erase_self {h h' : List (ObjId × Obj)} {o : ObjId}
    {fs' : List Field} (hp : heapPermAt h h' o fs') :
    eraseHeap h' o = eraseHeap h o := by
  obtain ⟨ob, hob, -, heq⟩ := hp
  rw [heq, eraseHeap_setHeap_same]

theorem discRel_refl (o : ObjId) (fs' : List Field) (s : State) :
    DiscRel o fs' s s := ⟨rfl, List.Perm.refl _, Or.inr rfl⟩

theorem discRel_trans {o : ObjId} {fs' : List Field} {a b c : State}
    (h₁ : DiscRel o fs' a b) (h₂ : DiscRel o fs' b c) : DiscRel o fs' a c := by
  obtain ⟨e₁, f₁, hh₁⟩ := h₁
  obtain ⟨e₂, f₂, hh₂⟩ := h₂
  refine ⟨e₂.trans e₁, f₂.trans f₁, ?_⟩
  rcases hh₁ with hp₁ | he₁
  · rcases hh₂ with hp₂ | he₂
    · obtain ⟨ob, hob, hperm, heq⟩ := hp₁
      obtain ⟨ob₂, hob₂, hperm₂, heq₂⟩ := hp₂
      have hb : lookupHeap b.heap o = some { ob with fields := fs' } := by
        rw [heq]
        exact lookupHeap_setHeap_self a.heap _ ob hob
      obtain rfl : ob₂ = { ob with fields := fs' } :=
        Option.some.inj (hob₂.symm.trans hb)
      have hc : c.heap = b.heap := by
        rw [heq₂]
        exact setHeap_self_id b.heap o hob₂
      left
      rw [hc]
      exact ⟨ob, hob, hperm, heq⟩
    · left
      rw [he₂]
      exact hp₁
  · rcases hh₂ with hp₂ | he₂
    · left
      obtain ⟨ob, hob, hperm, heq⟩ := hp₂
      refine ⟨ob, ?_, hperm, ?_⟩
      · rw [← he₁]
        exact hob
      · rw [heq, he₁]
    · right
      rw [he₂, he₁]

theorem step1_rel (o : ObjId) (fs' : List Field) (r : RootId) (s s' : State)
    (x : Instr) (hrel : DiscRel o fs' s s') :
    DiscRel o fs' (step1 r s x).1 (step1 r s' x).1 ∧
    ((step1 r s' x).2).Perm ((step1 r s x).2) := by
  obtain ⟨hex, hfr, hhp⟩ := hrel
  obtain ⟨dh, df, de, dw⟩ := step1_decomp r s x
  obtain ⟨dh', df', de', dw'⟩ := step1_decomp r s' x
  have hexp : (step1 r s' x).1.expansions = (step1 r s x).1.expansions :=
    de'.trans (hex.trans de.symm)
  rcases hhp with hperm | heq
  · by_cases hto : instrTarget x = some o
    · obtain ⟨ob₀, hob₀, hpm, hlk'⟩ := heapPermAt_lookup_self hperm
      cases x with
      | call t =>
        cases t with
        | none => exact absurd hto (fun hh => Option.noConfusion hh)
        | some p =>
          obtain rfl : o = p := (Option.some.inj hto).symm
          by_cases hpre : lookupTally ob₀.tally r = 0
          · have h1 : stepH r s.heap (Instr.call (some o)) = s.heap :=
              stepH_call_absorb r s.heap hob₀ hpre
            have h1' : stepH r s'.heap (Instr.call (some o)) = s'.heap :=
              stepH_call_absorb r s'.heap hlk' hpre
            have h2 : stepW r s.heap (Instr.call (some o)) = [] :=
              stepW_call_absorb r s.heap hob₀ hpre
            have h2' : stepW r s'.heap (Instr.call (some o)) = [] :=
              stepW_call_absorb r s'.heap hlk' hpre
            refine ⟨⟨hexp, ?_, ?_⟩, ?_⟩
            · rw [df, df', stepF_call, stepF_call]
              simp only [List.append_nil]
              exact hfr
            · rw [dh, dh', h1, h1']
              exact Or.inl hperm
            · rw [dw, dw', h2, h2']
          · have h1 : stepH r s.heap (Instr.call (some o))
                = setHeap s.heap o { ob₀ with
                    tally := setTally ob₀.tally r (lookupTally ob₀.tally r - 1) } :=
              stepH_call_drop r s.heap hob₀ hpre
            have h1' : stepH r s'.heap (Instr.call (some o))
                = setHeap s'.heap o { { ob₀ with fields := fs' } with
                    tally := setTally ob₀.tally r (lookupTally ob₀.tally r - 1) } :=
              stepH_call_drop r s'.heap hlk' hpre
            refine ⟨⟨hexp, ?_, ?_⟩, ?_⟩
            · rw [df, df', stepF_call, stepF_call]
              simp only [List.append_nil]
              exact hfr
            · rw [dh, dh', h1, h1']
              exact Or.inl (heapPermAt_set_self hperm ob₀ hob₀ ob₀.strong
                (setTally ob₀.tally r (lookupTally ob₀.tally r - 1)))
            · rw [dw, dw']
              by_cases hv : lookupTally ob₀.tally r - 1 = 0
              · rw [stepW_call_collapse r s.heap hob₀ hpre hv,
                  stepW_call_collapse r s'.heap hlk' hpre hv]
                exact ((trackedTargets_perm hpm).map Instr.call).append
                  (List.Perm.refl _)
              · rw [stepW_call_drop r s.heap hob₀ hpre hv,
                  stepW_call_drop r s'.heap hlk' hpre hv]
      | check p =>
        obtain rfl : o = p := (Option.some.inj hto).symm
        by_cases hnt : ob₀.tally = []
        · have h1 : stepH r s.heap (Instr.check o) = eraseHeap s.heap o :=
            stepH_check_empty r s.heap hob₀ hnt
          have h1' : stepH r s'.heap (Instr.check o) = eraseHeap s'.heap o :=
            stepH_check_empty r s'.heap hlk' hnt
          refine ⟨⟨hexp, ?_, ?_⟩, ?_⟩
          · rw [df, df', stepF_check_empty r s.heap hob₀ hnt,
              stepF_check_empty r s'.heap hlk' hnt]
            exact hfr.append_right [o]
          · rw [dh, dh', h1, h1']
            exact Or.inr (heapPermAt_erase_self hperm)
          · rw [dw, dw', stepW_check, stepW_check]
        · have h1 : stepH r s.heap (Instr.check o) = s.heap :=
            stepH_check_live r s.heap hob₀ hnt
          have h1' : stepH r s'.heap (Instr.check o) = s'.heap :=
            stepH_check_live r s'.heap hlk' hnt
          refine ⟨⟨hexp, ?_, ?_⟩, ?_⟩
          · rw [df, df', stepF_check_live r s.heap hob₀ hnt,
              stepF_check_live r s'.heap hlk' hnt]
            simp only [List.append_nil]
            exact hfr
          · rw [dh, dh', h1, h1']
            exact Or.inl hperm
          · rw [dw, dw', stepW_check, stepW_check]
    · have hcong : ∀ q, instrTarget x = some q →
          lookupHeap s'.heap q = lookupHeap s.heap q := by
        intro q hq
        have hqo : q ≠ o := fun hh => hto (by rw [hq, hh])
        exact heapPermAt_lookup_ne hperm hqo
      refine ⟨⟨hexp, ?_, ?_⟩, ?_⟩
      · rw [df, df', stepF_congr r s.heap s'.heap x hcong]
        exact hfr.append_right _
      · rw [dh, dh']
        cases hx : instrTarget x with
        | none =>
          cases x with
          | call t =>
            cases t with
            | none =>
              rw [stepH_call_none, stepH_call_none]
              exact Or.inl hperm
            | some p => exact absurd hx (fun hh => Option.noConfusion hh)
          | check p => exact absurd hx (fun hh => Option.noConfusion hh)
        | some q =>
          have hqo : q ≠ o := fun hh => hto (by rw [hx, hh])
          rcases stepH_pair r s.heap s'.heap x q hx (hcong q hx) with
            ⟨e1, e2⟩ | ⟨v, e1, e2⟩ | ⟨e1, e2⟩
          · rw [e1, e2]
            exact Or.inl hperm
          · rw [e1, e2]
            exact Or.inl (heapPermAt_set_ne hperm hqo v)
          · rw [e1, e2]
            exact Or.inl (heapPermAt_erase_ne hperm hqo)
      · rw [dw, dw', stepW_congr r s.heap s'.heap x hcong]
  · have hcong : ∀ q, instrTarget x = some q →
        lookupHeap s'.heap q = lookupHeap s.heap q := fun q _ => by rw [heq]
    refine ⟨⟨hexp, ?_, ?_⟩, ?_⟩
    · rw [df, df', stepF_congr r s.heap s'.heap x hcong]
      exact hfr.append_right _
    · rw [dh, dh', heq]
      exact Or.inr rfl
    · rw [dw, dw', stepW_congr r s.heap s'.heap x hcong]

theorem chkInv_perm (r : RootId) (s : State) {w w' : List Instr}
    (hperm : w'.Perm w) (hinv : ChkInv r s w) : ChkInv r s w' :=
  fun p hp ob hob => hinv p (hperm.subset hp) ob hob

theorem chkInv_calls (r : RootId) (s : State) (l : List (Option ObjId)) :
    ChkInv r s (l.map Instr.call) := by
  intro p hp ob _
  obtain ⟨t, -, ht⟩ := List.mem_map.mp hp
  exact Instr.noConfusion ht

theorem chkInv_rel {o : ObjId} {fs' : List Field} {r : RootId} {s s' : State}
    {w : List Instr} (hrel : DiscRel o fs' s s') (hinv : ChkInv r s w) :
    ChkInv r s' w := by
  intro p hp ob hob
  obtain ⟨-, -, hhp⟩ := hrel
  rcases hhp with hperm | heq
  · by_cases hpo : p = o
    · obtain ⟨ob₀, hob₀, -, hlk'⟩ := heapPermAt_lookup_self hperm
      rw [hpo] at hob
      obtain rfl : ob = { ob₀ with fields := fs' } :=
        Option.some.inj (hob.symm.trans hlk')
      have hbase : lookupTally ob₀.tally r = 0 := by
        refine hinv p hp ob₀ ?_
        rw [hpo]
        exact hob₀
      exact hbase

    · refine hinv p hp ob ?_
      rw [← heapPermAt_lookup_ne hperm hpo]
      exact hob
  · refine hinv p hp ob ?_
    rw [← heq]
    exact hob

theorem chkInv_step (r : RootId) (s : State) (x : Instr) (w w' : List Instr)
    (hperm : (x :: w').Perm w) (hnd : (heapKeys s.heap).Nodup)
    (hinv : ChkInv r s w) :
    ChkInv r (step1 r s x).1 ((step1 r s x).2 ++ w') := by
  obtain ⟨dh, -, -, dw⟩ := step1_decomp r s x
  intro p hp ob hob
  rw [dh] at hob
  rw [dw] at hp
  rcases List.mem_append.mp hp with hsp | hw'
  · cases x with
    | check q =>
      rw [stepW_check] at hsp
      exact absurd hsp (List.not_mem_nil _)
    | call t =>
      cases t with
      | none =>
        rw [stepW_call_none] at hsp
        exact absurd hsp (List.not_mem_nil _)
      | some q =>
        cases hl : lookupHeap s.heap q with
        | none =>
          rw [stepW_call_dead r s.heap hl] at hsp
          exact absurd hsp (List.not_mem_nil _)
        | some obq =>
          by_cases hpre : lookupTally obq.tally r = 0
          · rw [stepW_call_absorb r s.heap hl hpre] at hsp
            exact absurd hsp (List.not_mem_nil _)
          · by_cases hv : lookupTally obq.tally r - 1 = 0
            · rw [stepW_call_collapse r s.heap hl hpre hv] at hsp
              rcases List.mem_append.mp hsp with hmap | hself
              · obtain ⟨t₀, -, ht₀⟩ := List.mem_map.mp hmap
                exact Instr.noConfusion ht₀
              · have hq := List.mem_singleton.mp hself
                injection hq with hq₂
                subst hq₂
                rw [stepH_call_drop r s.heap hl hpre] at hob
                have hself' := lookupHeap_setHeap_self s.heap
                  (Obj.mk obq.strong
                    (setTally obq.tally r (lookupTally obq.tally r - 1))
                    obq.fields) obq hl
                obtain rfl : ob = Obj.mk obq.strong
                    (setTally obq.tally r (lookupTally obq.tally r - 1))
                    obq.fields :=
                  Option.some.inj (hob.symm.trans hself')
                show lookupTally (setTally obq.tally r
                  (lookupTally obq.tally r - 1)) r = 0
                rw [lookupTally_setTally_self]
                exact hv
            · rw [stepW_call_drop r s.heap hl hpre hv] at hsp
              exact absurd hsp (List.not_mem_nil _)
  · have hpw : Instr.check p ∈ w := hperm.subset (List.mem_cons_of_mem x hw')
    have hz := hinv p hpw
    by_cases hxp : instrTarget x = some p
    · cases x with
      | check q =>
        obtain rfl : q = p := Option.some.inj hxp
        cases hl : lookupHeap s.heap q with
        | none =>
          rw [stepH_check_dead r s.heap hl] at hob
          exact absurd (hl.symm.trans hob) (fun hh => Option.noConfusion hh)
        | some obq =>
          by_cases hnt : obq.tally = []
          · rw [stepH_check_empty r s.heap hl hnt] at hob
            rw [lookupHeap_eraseHeap_self s.heap q hnd] at hob
            exact Option.noConfusion hob
          · rw [stepH_check_live r s.heap hl hnt] at hob
            exact hz ob hob
      | call t =>
        cases t with
        | none => exact Option.noConfusion hxp
        | some q =>
          obtain rfl : q = p := Option.some.inj hxp
          rw [stepH_call_id r s.heap q hz] at hob
          exact hz ob hob
    · rw [stepH_lookup_ne r s.heap x p hxp] at hob
      exact hz ob hob

theorem heapW_permAt {h h' : List (ObjId × Obj)} {o : ObjId} {fs' : List Field}
    (hp : heapPermAt h h' o fs') (r : RootId) : heapW h' r = heapW h r := by
  obtain ⟨ob, hob, hperm, heq⟩ := hp
  have hw := heapW_setHeap h { ob with fields := fs' } r hob
  have h1 : (Obj.tally { ob with fields := fs' }) = ob.tally := rfl
  have h2 : trackedTargets (Obj.fields { ob with fields := fs' })
      = trackedTargets fs' := rfl
  have hlen : (trackedTargets fs').length = (trackedTargets ob.fields).length :=
    (trackedTargets_perm hperm).length_eq
  rw [h1, h2, hlen] at hw
  rw [heq]
  omega

theorem discRel_nodup {o : ObjId} {fs' : List Field} {s s' : State}
    (hrel : DiscRel o fs' s s') (hnd : (heapKeys s.heap).Nodup) :
    (heapKeys s'.heap).Nodup := by
  obtain ⟨-, -, hh⟩ := hrel
  rcases hh with hp | he
  · rw [heapPermAt_keys hp]
    exact hnd
  · rw [he]
    exact hnd

theorem Bmeas_congr (r : RootId) (s : State) {w w' : List Instr}
    (hp : w.Perm w') : Bmeas r s w = Bmeas r s w' := by
  show w.length + _ = w'.length + _
  rw [hp.length_eq]

theorem Bmeas_rel {o : ObjId} {fs' : List Field} {r : RootId} {s s' : State}
    (hrel : DiscRel o fs' s s') (w : List Instr) :
    Bmeas r s' w = Bmeas r s w := by
  obtain ⟨-, -, hh⟩ := hrel
  show w.length + heapW s'.heap r = w.length + heapW s.heap r
  rcases hh with hp | he
  · rw [heapW_permAt hp]
  · rw [he]

theorem step1_comm_state (o : ObjId) (fs' : List Field) (r : RootId) (s : State)
    (x y : Instr) (hnd : (heapKeys s.heap).Nodup)
    (hzx : ∀ p, x = Instr.call (some p) → y = Instr.check p →
        ∀ ob, lookupHeap s.heap p = some ob → lookupTally ob.tally r = 0)
    (hzy : ∀ p, y = Instr.call (some p) → x = Instr.check p →
        ∀ ob, lookupHeap s.heap p = some ob → lookupTally ob.tally r = 0) :
    DiscRel o fs' (step1 r (step1 r s x).1 y).1 (step1 r (step1 r s y).1 x).1 := by
  by_cases hxy : x = y
  · rw [hxy]
    exact discRel_refl o fs' _
  · obtain ⟨dhx, dfx, dex, -⟩ := step1_decomp r s x
    obtain ⟨dhy, dfy, dey, -⟩ := step1_decomp r s y
    obtain ⟨dhxy, dfxy, dexy, -⟩ := step1_decomp r (step1 r s x).1 y
    obtain ⟨dhyx, dfyx, deyx, -⟩ := step1_decomp r (step1 r s y).1 x
    refine ⟨?_, ?_, Or.inr ?_⟩
    · exact (deyx.trans dey).trans (dexy.trans dex).symm
    · rw [dfxy, dfx, dfyx, dfy, dhy, dhx]
      rw [stepF_after r s.heap y x (fun hh => hxy hh.symm) hzy,
        stepF_after r s.heap x y hxy hzx]
      rw [List.append_assoc, List.append_assoc]
      exact List.Perm.append_left s.freed List.perm_append_comm
    · rw [dhxy, dhx, dhyx, dhy]
      exact (stepH_comm r s.heap x y hnd hzx hzy).symm

theorem run_confluence (o : ObjId) (fs' : List Field) (r : RootId) : ∀ n,
    ∀ s s' (w w' : List Instr) t t', DiscRel o fs' s s' → w'.Perm w →
    (heapKeys s.heap).Nodup → ChkInv r s w → Bmeas r s w ≤ n →
    Run r s w t → Run r s' w' t' → DiscRel o fs' t t' := by
  intro n
  induction n using Nat.strong_induction_on with
  | _ n ihn =>
    intro s s' w w' t t' hrel hwp hnd hinv hB hrun hrun'
    cases hrun with
    | nil =>
      have hw' : w' = [] := List.Perm.eq_nil hwp
      subst hw'
      cases hrun' with
      | nil => exact hrel
      | step _ _ y w₂ _ hp₂ hcont₂ =>
        exact absurd (List.Perm.eq_nil hp₂) (List.cons_ne_nil y w₂)
    | step _ _ x w₁ _ hp₁ hcont₁ =>
      cases hrun' with
      | nil =>
        have hw : w = [] := List.Perm.eq_nil hwp.symm
        subst hw
        exact absurd (List.Perm.eq_nil hp₁) (List.cons_ne_nil x w₁)
      | step _ _ y w₂ _ hp₂ hcont₂ =>
        have hstep := Bmeas_step1 r s x w₁
        have hBx : Bmeas r s (x :: w₁) = Bmeas r s w := Bmeas_congr r s hp₁
        have hnd1 : (heapKeys (step1 r s x).1.heap).Nodup := step1_nodup r s x hnd
        have hinv1 : ChkInv r (step1 r s x).1 ((step1 r s x).2 ++ w₁) :=
          chkInv_step r s x w w₁ hp₁ hnd hinv
        have hndR : (heapKeys s'.heap).Nodup := discRel_nodup hrel hnd
        have hinvR : ChkInv r s' w' := chkInv_rel hrel (chkInv_perm r s hwp hinv)
        have hBR : Bmeas r s' w' = Bmeas r s w :=
          (Bmeas_rel hrel w').trans (Bmeas_congr r s hwp)
        have hstep' := Bmeas_step1 r s' y w₂
        have hBy : Bmeas r s' (y :: w₂) = Bmeas r s' w' := Bmeas_congr r s' hp₂
        by_cases hxy : x = y
        · subst hxy
          have h12 : (x :: w₂).Perm (x :: w₁) := hp₂.trans (hwp.trans hp₁.symm)
          have hw12 : w₂.Perm w₁ := h12.cons_inv
          obtain ⟨hrel1, hcperm⟩ := step1_rel o fs' r s s' x hrel
          exact ihn (n - 1) (by omega) _ _ _ _ _ _ hrel1 (hcperm.append hw12)
            hnd1 hinv1 (by omega) hcont₁ hcont₂
        · -- two different pending instructions were scheduled first
          have hxw : x ∈ w := hp₁.subset (List.mem_cons_self x w₁)
          have hyw : y ∈ w := hwp.subset (hp₂.subset (List.mem_cons_self y w₂))
          have hy1 : y ∈ w₁ := by
            rcases List.mem_cons.mp (hp₁.symm.subset hyw) with h | h
            · exact absurd h.symm hxy
            · exact h
          have hx2 : x ∈ w₂ := by
            rcases List.mem_cons.mp
              (hp₂.symm.subset (hwp.symm.subset hxw)) with h | h
            · exact absurd h hxy
            · exact h
          have hw₁e : w₁.Perm (y :: w₁.erase y) := List.perm_cons_erase hy1
          have hw₂e : w₂.Perm (x :: w₂.erase x) := List.perm_cons_erase hx2
          have hchain : (y :: w₂).Perm (x :: w₁) := hp₂.trans (hwp.trans hp₁.symm)
          have h34 : (w₂.erase x).Perm (w₁.erase y) := by
            have hA : (y :: x :: w₂.erase x).Perm (x :: y :: w₁.erase y) :=
              ((hw₂e.cons y).symm.trans hchain).trans (hw₁e.cons x)
            have hB2 : (x :: y :: w₁.erase y).Perm (y :: x :: w₁.erase y) :=
              (List.Perm.swap x y (w₁.erase y)).symm
            exact ((hA.trans hB2).cons_inv).cons_inv
          -- the zero-tally side conditions for the same-object call/check pair
          have hzx : ∀ p, x = Instr.call (some p) → y = Instr.check p →
              ∀ ob, lookupHeap s.heap p = some ob →
              lookupTally ob.tally r = 0 := by
            intro p _ hyv ob hob
            exact hinv p (hyv ▸ hyw) ob hob
          have hzy : ∀ p, y = Instr.call (some p) → x = Instr.check p →
              ∀ ob, lookupHeap s.heap p = some ob →
              lookupTally ob.tally r = 0 := by
            intro p _ hxv ob hob
            exact hinv p (hxv ▸ hxw) ob hob
          have hzy' : ∀ p, x = Instr.call (some p) → y = Instr.check p →
              ∀ ob, lookupHeap s'.heap p = some ob →
              lookupTally ob.tally r = 0 := by
            intro p hxv hyv ob hob
            exact hinvR p (hyv ▸ (hp₂.subset (List.mem_cons_self y w₂))) ob hob
          -- strip on the first derivation: process y next on the s side
          have harr : (y :: ((step1 r s x).2 ++ w₁.erase y)).Perm
              ((step1 r s x).2 ++ w₁) := by
            have h1 : ((step1 r s x).2 ++ w₁).Perm
                ((step1 r s x).2 ++ (y :: w₁.erase y)) :=
              hw₁e.append_left _
            exact (h1.trans List.perm_middle).symm
          obtain ⟨u, hu⟩ := run_total r
            (Bmeas r (step1 r (step1 r s x).1 y).1
              ((step1 r (step1 r s x).1 y).2 ++ ((step1 r s x).2 ++ w₁.erase y)))
            (step1 r (step1 r s x).1 y).1
            ((step1 r (step1 r s x).1 y).2 ++ ((step1 r s x).2 ++ w₁.erase y))
            Nat.le.refl
          have hE1 : Run r (step1 r s x).1 ((step1 r s x).2 ++ w₁) u :=
            Run.step _ _ y ((step1 r s x).2 ++ w₁.erase y) u harr hu
          have hrel_tu : DiscRel o fs' t u :=
            ihn (n - 1) (by omega) _ _ _ _ _ _ (discRel_refl o fs' _)
              (List.Perm.refl _) hnd1 hinv1 (by omega) hcont₁ hE1
          -- strip on the second derivation: process x next on the s' side
          have harr' : (x :: ((step1 r s' y).2 ++ w₂.erase x)).Perm
              ((step1 r s' y).2 ++ w₂) := by
            have h1 : ((step1 r s' y).2 ++ w₂).Perm
                ((step1 r s' y).2 ++ (x :: w₂.erase x)) :=
              hw₂e.append_left _
            exact (h1.trans List.perm_middle).symm
          obtain ⟨u', hu'⟩ := run_total r
            (Bmeas r (step1 r (step1 r s' y).1 x).1
              ((step1 r (step1 r s' y).1 x).2 ++ ((step1 r s' y).2 ++ w₂.erase x)))
            (step1 r (step1 r s' y).1 x).1
            ((step1 r (step1 r s' y).1 x).2 ++ ((step1 r s' y).2 ++ w₂.erase x))
            Nat.le.refl
          have hE2 : Run r (step1 r s' y).1 ((step1 r s' y).2 ++ w₂) u' :=
            Run.step _ _ x ((step1 r s' y).2 ++ w₂.erase x) u' harr' hu'
          have hnd1' : (heapKeys (step1 r s' y).1.heap).Nodup :=
            step1_nodup r s' y hndR
          have hinv1' : ChkInv r (step1 r s' y).1 ((step1 r s' y).2 ++ w₂) :=
            chkInv_step r s' y w' w₂ hp₂ hndR hinvR
          have hBRs' : Bmeas r (step1 r s' y).1 ((step1 r s' y).2 ++ w₂) + 1
              ≤ Bmeas r s w := by
            rw [hstep', hBy, hBR]
          have hrel_u't' : DiscRel o fs' u' t' :=
            ihn (n - 1) (by omega) _ _ _ _ _ _ (discRel_refl o fs' _)
              (List.Perm.refl _) hnd1' hinv1' (by omega) hE2 hcont₂
          -- middle comparison between the two constructed runs
          have hmidrel : DiscRel o fs' (step1 r (step1 r s x).1 y).1
              (step1 r (step1 r s' y).1 x).1 :=
            discRel_trans (step1_comm_state o fs' r s x y hnd hzx hzy)
              (step1_rel o fs' r _ _ x (step1_rel o fs' r s s' y hrel).1).1
          -- the two middle worklists are permutations of each other
          obtain ⟨dhx, -, -, dwx⟩ := step1_decomp r s x
          obtain ⟨dhy', -, -, dwy'⟩ := step1_decomp r s' y
          obtain ⟨-, -, -, dwxy⟩ := step1_decomp r (step1 r s x).1 y
          obtain ⟨-, -, -, dwyx'⟩ := step1_decomp r (step1 r s' y).1 x
          have hcy : (step1 r (step1 r s x).1 y).2 = stepW r s.heap y := by
            rw [dwxy, dhx]
            exact stepW_after r s.heap x y hnd hxy hzy
          have hcx' : (step1 r (step1 r s' y).1 x).2 = stepW r s'.heap x := by
            rw [dwyx', dhy']
            exact stepW_after r s'.heap y x hndR (fun hh => hxy hh.symm) hzy'
          have hpx : (stepW r s'.heap x).Perm (stepW r s.heap x) := by
            have h := (step1_rel o fs' r s s' x hrel).2
            obtain ⟨-, -, -, dA⟩ := step1_decomp r s x
            obtain ⟨-, -, -, dB⟩ := step1_decomp r s' x
            rw [dA, dB] at h
            exact h
          have hpy : (stepW r s'.heap y).Perm (stepW r s.heap y) := by
            have h := (step1_rel o fs' r s s' y hrel).2
            obtain ⟨-, -, -, dA⟩ := step1_decomp r s y
            obtain ⟨-, -, -, dB⟩ := step1_decomp r s' y
            rw [dA, dB] at h
            exact h
          have hLperm : ((step1 r (step1 r s' y).1 x).2
                ++ ((step1 r s' y).2 ++ w₂.erase x)).Perm
              ((step1 r (step1 r s x).1 y).2
                ++ ((step1 r s x).2 ++ w₁.erase y)) := by
            rw [hcy, hcx', dwx, dwy']
            have h1 : (stepW r s'.heap x ++ (stepW r s'.heap y ++ w₂.erase x)).Perm
                (stepW r s.heap x ++ (stepW r s.heap y ++ w₁.erase y)) :=
              hpx.append (hpy.append h34)
            refine h1.trans ?_
            rw [← List.append_assoc, ← List.append_assoc]
            exact List.Perm.append_right (w₁.erase y) List.perm_append_comm
          have hinvM : ChkInv r (step1 r (step1 r s x).1 y).1
              ((step1 r (step1 r s x).1 y).2 ++ ((step1 r s x).2 ++ w₁.erase y)) :=
            chkInv_step r (step1 r s x).1 y ((step1 r s x).2 ++ w₁)
              ((step1 r s x).2 ++ w₁.erase y) harr hnd1 hinv1
          have hndM : (heapKeys (step1 r (step1 r s x).1 y).1.heap).Nodup :=
            step1_nodup r (step1 r s x).1 y hnd1
          have hBM : Bmeas r (step1 r (step1 r s x).1 y).1
              ((step1 r (step1 r s x).1 y).2 ++ ((step1 r s x).2 ++ w₁.erase y))
              + 2 ≤ Bmeas r s w := by
            have h2 := Bmeas_step1 r (step1 r s x).1 y
              ((step1 r s x).2 ++ w₁.erase y)
            have h3 : Bmeas r (step1 r s x).1
                (y :: ((step1 r s x).2 ++ w₁.erase y))
                = Bmeas r (step1 r s x).1 ((step1 r s x).2 ++ w₁) :=
              Bmeas_congr r _ harr
            omega
          have hrel_uu' : DiscRel o fs' u u' :=
            ihn (n - 1) (by omega) _ _ _ _ _ _ hmidrel hLperm hndM hinvM
              (by omega) hu hu'
          exact discRel_trans hrel_tu (discRel_trans hrel_uu' hrel_u't')

theorem connRel_tally {o : ObjId} {fs' : List Field} {t u : State}
    (h : ConnRel o fs' t u) :
    ∀ x, (getObj u x).map Obj.tally = (getObj t x).map Obj.tally := by
  intro x
  obtain ⟨-, -, -, hp⟩ := h
  by_cases hxo : x = o
  · subst hxo
    obtain ⟨ob, hob₂, -, hlk⟩ := heapPermAt_lookup_self hp
    show (lookupHeap u.heap x).map Obj.tally = (lookupHeap t.heap x).map Obj.tally
    rw [hlk, hob₂]
    rfl
  · show (lookupHeap u.heap x).map Obj.tally = (lookupHeap t.heap x).map Obj.tally
    rw [heapPermAt_lookup_ne hp hxo]

theorem discRel_tally {o : ObjId} {fs' : List Field} {t u : State}
    (h : DiscRel o fs' t u) :
    ∀ x, (getObj u x).map Obj.tally = (getObj t x).map Obj.tally := by
  intro x
  obtain ⟨-, -, hh⟩ := h
  rcases hh with hp | he
  · by_cases hxo : x = o
    · subst hxo
      obtain ⟨ob, hob₂, -, hlk⟩ := heapPermAt_lookup_self hp
      show (lookupHeap u.heap x).map Obj.tally = (lookupHeap t.heap x).map Obj.tally
      rw [hlk, hob₂]
      rfl
    · show (lookupHeap u.heap x).map Obj.tally = (lookupHeap t.heap x).map Obj.tally
      rw [heapPermAt_lookup_ne hp hxo]
  · show (lookupHeap u.heap x).map Obj.tally = (lookupHeap t.heap x).map Obj.tally
    rw [he]

/-- C9: the outcome of a connect or disconnect pass does not depend on the
order in which a type's generated traversal issues its per-field and
base-delegation calls, provided the same owned relationships are visited
(`main.cpp` lines 73-76 versus lines 129-132 visit `C`'s two owned fields
in opposite orders). Permuting the pending calls of a pass leaves a
connect pass's final state literally unchanged, and leaves a disconnect
pass with the same root tallies on every object and the same set of
deallocations; replacing one object's descriptor by a permutation of
itself likewise yields the same root tallies on every object after either
pass, and the same deallocations after a disconnect pass. -/
theorem traversal_order_irrelevant
    (s : State) (r : RootId) (o : ObjId) (ob : Obj) (fs' : List Field)
    (l l' : List (Option ObjId))
    (hob : getObj s o = some ob) (hperm : fs'.Perm ob.fields)
    (hnd : (heapKeys s.heap).Nodup) (hl : l'.Perm l) :
    connSeq r s l' = connSeq r s l ∧
    (∀ x, (getObj (discSeq r s l') x).map Obj.tally
        = (getObj (discSeq r s l) x).map Obj.tally) ∧
    ((discSeq r s l').freed).Perm ((discSeq r s l).freed) ∧
    (∀ x, (getObj (connSeq r (setObj s o { ob with fields := fs' }) l) x).map
        Obj.tally = (getObj (connSeq r s l) x).map Obj.tally) ∧
    (∀ x, (getObj (discSeq r (setObj s o { ob with fields := fs' }) l) x).map
        Obj.tally = (getObj (discSeq r s l) x).map Obj.tally) ∧
    ((discSeq r (setObj s o { ob with fields := fs' }) l).freed).Perm
      ((discSeq r s l).freed) := by
  have hdisc1 : DiscRel o fs' (discSeq r s l) (discSeq r s l') :=
    run_confluence o fs' r (Bmeas r s (l.map Instr.call)) s s
      (l.map Instr.call) (l'.map Instr.call) (discSeq r s l) (discSeq r s l')
      (discRel_refl o fs' s) (hl.map Instr.call) hnd (chkInv_calls r s l)
      Nat.le.refl (run_discSeq r l s) (run_discSeq r l' s)
  have hconn : ConnRel o fs' (connSeq r s l)
      (connSeq r (setObj s o { ob with fields := fs' }) l) :=
    (connRel_connect o fs' r (zeroCount s.heap r)).2 l s
      (setObj s o { ob with fields := fs' })
      ⟨rfl, rfl, rfl, ⟨ob, hob, hperm, rfl⟩⟩ Nat.le.refl
  have hrel0 : DiscRel o fs' s (setObj s o { ob with fields := fs' }) :=
    ⟨rfl, List.Perm.refl _, Or.inl ⟨ob, hob, hperm, rfl⟩⟩
  have hdisc2 : DiscRel o fs' (discSeq r s l)
      (discSeq r (setObj s o { ob with fields := fs' }) l) :=
    run_confluence o fs' r (Bmeas r s (l.map Instr.call))
      s (setObj s o { ob with fields := fs' })
      (l.map Instr.call) (l.map Instr.call) (discSeq r s l)
      (discSeq r (setObj s o { ob with fields := fs' }) l)
      hrel0 (List.Perm.refl _) hnd (chkInv_calls r s l) Nat.le.refl
      (run_discSeq r l s)
      (run_discSeq r l (setObj s o { ob with fields := fs' }))
  exact ⟨(connSeq_comm_perm r (zeroCount s.heap r)).2 l' l hl s Nat.le.refl,
    discRel_tally hdisc1, hdisc1.2.1, connRel_tally hconn,
    discRel_tally hdisc2, hdisc2.2.1⟩

theorem traversal_order_irrelevant_witness :
    connSeq 7 cState [none, some 1] = connSeq 7 cState [some 1, none] ∧
    (∀ x, (getObj (discSeq 7 cState [none, some 1]) x).map Obj.tally
        = (getObj (discSeq 7 cState [some 1, none]) x).map Obj.tally) ∧
    ((discSeq 7 cState [none, some 1]).freed).Perm
      ((discSeq 7 cState [some 1, none]).freed) ∧
    (∀ x, (getObj (connSeq 7 (setObj cState 1
        { cObj with fields := [Field.tracked (some 3), Field.tracked (some 2)] })
        [some 1, none]) x).map Obj.tally
        = (getObj (connSeq 7 cState [some 1, none]) x).map Obj.tally) ∧
    (∀ x, (getObj (discSeq 7 (setObj cState 1
        { cObj with fields := [Field.tracked (some 3), Field.tracked (some 2)] })
        [some 1, none]) x).map Obj.tally
        = (getObj (discSeq 7 cState [some 1, none]) x).map Obj.tally) ∧
    ((discSeq 7 (setObj cState 1
        { cObj with fields := [Field.tracked (some 3), Field.tracked (some 2)] })
        [some 1, none]).freed).Perm
      ((discSeq 7 cState [some 1, none]).freed) :=
  traversal_order_irrelevant cState 7 1 cObj
    [Field.tracked (some 3), Field.tracked (some 2)]
    [some 1, none] [none, some 1]
    (by decide) (by decide) (by decide) (by decide)

end GcPtr
